import Mathlib

/-!
# Semantic-analysis passes of c3c (`src/compiler/sema_passes.c`)

A shallow embedding of the pass scheduler: the import pass, the global
registration pass, the top-level conditional pass, the assertion pass, the
declaration pass and the function pass, together with the properties of the
specification that concern them.

Pointers of the C program are addresses (`Nat`) into explicit stores kept in
`SemaState`.  Calls that leave `sema_passes.c` (the analysers, the filing
routine, the context constructor and destructor) are recorded in
`SemaState.trace`, so that the order and number of such calls can be stated;
the registration pass also hands back, with each call of the filing routine,
the state the call was made in.
A failed `assert` and an exhausted iteration budget are the two ways a run
can end without a result (`Failure`).
-/

namespace Sema

/-! ## Data model -/

/-- Address of a `Decl`. -/
abbrev DeclRef := Nat

/-- Address of a `CompilationUnit`. -/
abbrev UnitRef := Nat

/-- Address of a `Module`. -/
abbrev ModuleRef := Nat

/-- An interned module path (`path->module`). -/
abbrev Symbol := Nat

/-- Address of an `Expr`. -/
abbrev ExprRef := Nat

/-- The `resolve_status` of a declaration. -/
inductive ResolveStatus
  | RESOLVE_NOT_DONE
  | RESOLVE_RUNNING
  | RESOLVE_DONE
  deriving DecidableEq

/-- The declaration-kind tag.  `sema_passes.c` itself names `DECL_CT_ELIF` and
`DECL_CT_ELSE`; the other tags are the kinds the data model of the
specification lists, one per category of a unit. -/
inductive DeclKind
  | DECL_IMPORT
  | DECL_ENUM
  | DECL_TYPE
  | DECL_MACRO
  | DECL_GENERIC
  | DECL_METHOD
  | DECL_MACRO_METHOD
  | DECL_VAR
  | DECL_FUNC
  | DECL_DEFINE
  | DECL_CT_IF
  | DECL_CT_ELIF
  | DECL_CT_ELSE
  | DECL_CT_ASSERT
  deriving DecidableEq

open ResolveStatus DeclKind

/-- The fields of `Decl` that `sema_passes.c` reads or writes.  The members of
the C union are separate fields here; `ct_expr`, `ct_then` and `ct_elif` are
the `expr`, `then` and `elif` members shared by `ct_if_decl` and
`ct_elif_decl`. -/
structure Decl where
  decl_kind : DeclKind
  resolve_status : ResolveStatus
  poisoned : Bool
  module : Option ModuleRef
  import_path : Symbol
  import_private : Bool
  ct_expr : ExprRef
  ct_then : List DeclRef
  ct_elif : Option DeclRef
  ct_else_decl : List DeclRef
  ct_assert_decl : ExprRef
  func_body : Option Nat
  deriving DecidableEq

/-- A compilation unit: the per-category vectors of declaration pointers. -/
structure CompilationUnit where
  module : Option ModuleRef
  imports : List DeclRef
  global_decls : List DeclRef
  ct_ifs : List DeclRef
  ct_asserts : List DeclRef
  enums : List DeclRef
  types : List DeclRef
  macros : List DeclRef
  generics : List DeclRef
  methods : List DeclRef
  macro_methods : List DeclRef
  vars : List DeclRef
  functions : List DeclRef
  generic_defines : List DeclRef
  main_function : Option DeclRef
  deriving DecidableEq

/-- A module: its visibility flag and its vector of unit pointers. -/
structure Module where
  is_private : Bool
  units : List UnitRef
  deriving DecidableEq

/-- The four messages of the import pass. -/
inductive Message
  | no_module_found
  | importing_current_module
  | importing_private_module
  | imported_more_than_once
  deriving DecidableEq

/-- One reported message: an error (`SEMA_ERROR`) or the note that follows a
duplicate (`SEMA_PREV`), each anchored at a declaration. -/
inductive Diagnostic
  | error (anchor : DeclRef) (msg : Message)
  | previous (anchor : DeclRef)
  deriving DecidableEq

/-- The `DynamicScope` of a context. -/
structure DynamicScope where
  depth : Nat
  scope_id : Nat
  local_decl_start : Nat
  current_local : Nat
  deriving DecidableEq

/-- The `SemaContext` of one unit visit. -/
structure SemaContext where
  unit : UnitRef
  active_scope : DynamicScope
  deriving DecidableEq

/-- A call that leaves `sema_passes.c`.  A call of `sema_analyse_decl` is
recorded with the context it is handed, and a call of
`sema_analyse_function_body` with the answer it gave, which is the one answer
the passes act on. -/
inductive Event
  | context_init (unit : UnitRef)
  | context_destroy (unit : UnitRef)
  | check_comp_time_bool (unit : UnitRef) (expr : ExprRef)
  | register_global_decl (unit : UnitRef) (decl : DeclRef)
  | analyse_ct_assert_stmt (unit : UnitRef) (expr : ExprRef)
  | analyse_decl (context : SemaContext) (decl : DeclRef)
  | analyse_function_body (unit : UnitRef) (decl : DeclRef) (ok : Bool)
  deriving DecidableEq

/-- The stores the passes work on: the three heaps, the module registry behind
`global_context_find_module`, the global error counter, the reported
messages and the record of outgoing calls. -/
structure SemaState where
  modules : ModuleRef → Module
  find_module : Symbol → Option ModuleRef
  units : UnitRef → CompilationUnit
  decls : DeclRef → Decl
  errors_found : Nat
  diagnostics : List Diagnostic
  trace : List Event

/-- How a run ends without a result. -/
inductive Failure
  | assertion_failed
  | out_of_fuel
  deriving DecidableEq

/-- The analysers outside `sema_passes.c`, as functions of the state they are
called in, the record of earlier calls included, so that the same expression
may be answered differently at different times.  `sema_check_comp_time_bool`
answers `-1` for an error, `0` for false and anything else for true.  The
analysers are taken to leave the units as they are, and all but
`sema_analyse_decl` to leave the declarations as they are;
`sema_analyse_decl`, which resolves the declaration it is given, answers with
the declaration store it leaves behind, which may be any.  The diagnostics the
analysers report themselves are not modelled. -/
structure Analysers where
  sema_check_comp_time_bool : SemaState → SemaContext → ExprRef → Int
  sema_analyse_ct_assert_stmt : SemaState → SemaContext → ExprRef → Bool
  sema_analyse_decl : SemaState → SemaContext → DeclRef → Bool × (DeclRef → Decl)
  sema_analyse_function_body : SemaState → SemaContext → DeclRef → Bool
  initial_scope : SemaState → UnitRef → DynamicScope

/-! ## Store updates and the routines outside `sema_passes.c` -/

/-- Assignment through a declaration pointer. -/
def SemaState.modify_decl (s : SemaState) (p : DeclRef) (f : Decl → Decl) : SemaState :=
  { s with decls := fun q => if q = p then f (s.decls p) else s.decls q }

/-- Assignment through a unit pointer. -/
def SemaState.modify_unit (s : SemaState) (u : UnitRef)
    (f : CompilationUnit → CompilationUnit) : SemaState :=
  { s with units := fun v => if v = u then f (s.units u) else s.units v }

/-- Append one outgoing call to the record. -/
def SemaState.log (s : SemaState) (e : Event) : SemaState :=
  { s with trace := s.trace ++ [e] }

/-- Modelled from the spec: `SEMA_ERROR` (defined outside `sema_passes.c`)
reports a message anchored at the offending declaration and increments the
global error counter. -/
def SEMA_ERROR (anchor : DeclRef) (msg : Message) (s : SemaState) : SemaState :=
  { s with diagnostics := s.diagnostics ++ [Diagnostic.error anchor msg],
           errors_found := s.errors_found + 1 }

/-- Modelled from the spec: `SEMA_PREV` (defined outside `sema_passes.c`)
reports the second message of a duplicate, anchored at the earlier
declaration; the failed step has already been counted by `SEMA_ERROR`. -/
def SEMA_PREV (anchor : DeclRef) (s : SemaState) : SemaState :=
  { s with diagnostics := s.diagnostics ++ [Diagnostic.previous anchor] }

/-- Modelled from the spec: `decl_poison` (defined outside `sema_passes.c`)
sets the poisoned flag of the declaration. -/
def decl_poison (p : DeclRef) (s : SemaState) : SemaState :=
  s.modify_decl p (fun d => { d with poisoned := true })

/-- Modelled from the spec: `unit_register_global_decl` (defined outside
`sema_passes.c`) files a declaration into the collection of the unit that
matches its kind tag.  The module symbol table is not part of the state here;
the branches of a conditional have no collection of their own. -/
def unit_register_global_decl (unit : UnitRef) (decl : DeclRef) (s : SemaState) : SemaState :=
  (s.log (Event.register_global_decl unit decl)).modify_unit unit (fun u =>
    match (s.decls decl).decl_kind with
    | DECL_IMPORT => { u with imports := u.imports ++ [decl] }
    | DECL_ENUM => { u with enums := u.enums ++ [decl] }
    | DECL_TYPE => { u with types := u.types ++ [decl] }
    | DECL_MACRO => { u with macros := u.macros ++ [decl] }
    | DECL_GENERIC => { u with generics := u.generics ++ [decl] }
    | DECL_METHOD => { u with methods := u.methods ++ [decl] }
    | DECL_MACRO_METHOD => { u with macro_methods := u.macro_methods ++ [decl] }
    | DECL_VAR => { u with vars := u.vars ++ [decl] }
    | DECL_FUNC => { u with functions := u.functions ++ [decl] }
    | DECL_DEFINE => { u with generic_defines := u.generic_defines ++ [decl] }
    | DECL_CT_IF => { u with ct_ifs := u.ct_ifs ++ [decl] }
    | DECL_CT_ASSERT => { u with ct_asserts := u.ct_asserts ++ [decl] }
    | DECL_CT_ELIF => u
    | DECL_CT_ELSE => u)

/-- Modelled from the spec: `sema_context_init` (defined outside
`sema_passes.c`) constructs the context of a unit visit; the scope it starts
with is left to `Analysers.initial_scope`. -/
def sema_context_init (ext : Analysers) (unit : UnitRef) (s : SemaState) :
    SemaContext × SemaState :=
  ({ unit := unit, active_scope := ext.initial_scope s unit },
   s.log (Event.context_init unit))

/-- Modelled from the spec: `sema_context_destroy` (defined outside
`sema_passes.c`) tears the context down. -/
def sema_context_destroy (context : SemaContext) (s : SemaState) : SemaState :=
  s.log (Event.context_destroy context.unit)

/-- A call of the compile-time evaluator: its answer in the current state, and
the state with the call recorded. -/
def sema_check_comp_time_bool (ext : Analysers) (context : SemaContext) (expr : ExprRef)
    (s : SemaState) : Int × SemaState :=
  (ext.sema_check_comp_time_bool s context expr,
   s.log (Event.check_comp_time_bool context.unit expr))

/-- A call of the assertion analyser: its answer in the current state, and the
state with the call recorded. -/
def sema_analyse_ct_assert_stmt (ext : Analysers) (context : SemaContext) (stmt : ExprRef)
    (s : SemaState) : Bool × SemaState :=
  (ext.sema_analyse_ct_assert_stmt s context stmt,
   s.log (Event.analyse_ct_assert_stmt context.unit stmt))

/-- A call of the declaration analyser: its answer in the current state, and
the state with the call recorded and the declarations as the analyser leaves
them. -/
def sema_analyse_decl (ext : Analysers) (context : SemaContext) (decl : DeclRef)
    (s : SemaState) : Bool × SemaState :=
  ((ext.sema_analyse_decl s context decl).1,
   { s.log (Event.analyse_decl context decl) with
     decls := (ext.sema_analyse_decl s context decl).2 })

/-- A call of the body analyser: its answer in the current state, and the state
with the call and the answer recorded. -/
def sema_analyse_function_body (ext : Analysers) (context : SemaContext) (decl : DeclRef)
    (s : SemaState) : Bool × SemaState :=
  (ext.sema_analyse_function_body s context decl,
   s.log (Event.analyse_function_body context.unit decl
     (ext.sema_analyse_function_body s context decl)))

/-! ## The import pass -/

/-- The scan of steps 8 and 9 for the import at index `i`: the earlier imports
`unit->imports[0..i)` are compared in order; the first one whose `module`
equals that of `imp` gets the error, the note and the poisoning, and the
scan stops. -/
def import_duplicate_scan (unit : UnitRef) (i : Nat) (imp : DeclRef) (s : SemaState) :
    SemaState :=
  match ((s.units unit).imports.take i).find?
      (fun prev => decide ((s.decls imp).module = (s.decls prev).module)) with
  | some prev =>
      decl_poison imp (SEMA_PREV prev (SEMA_ERROR imp Message.imported_more_than_once s))
  | none => s

/-- The body of the loop over `unit->imports`, steps 3 to 9, for index `i`.  The
loop only calls it with `i < imports`, so the first `none` is never reached. -/
def process_import (module : ModuleRef) (unit : UnitRef) (i : Nat) (s : SemaState) :
    Except Failure SemaState :=
  match (s.units unit).imports[i]? with
  | none => Except.error Failure.assertion_failed
  | some imp =>
    if (s.decls imp).resolve_status ≠ RESOLVE_NOT_DONE then
      Except.error Failure.assertion_failed
    else
      let s := s.modify_decl imp (fun d => { d with resolve_status := RESOLVE_RUNNING })
      match s.find_module (s.decls imp).import_path with
      | none => Except.ok (decl_poison imp (SEMA_ERROR imp Message.no_module_found s))
      | some import_module =>
        if import_module = module then
          Except.ok (decl_poison imp (SEMA_ERROR imp Message.importing_current_module s))
        else if (s.modules import_module).is_private && !(s.decls imp).import_private then
          Except.ok (decl_poison imp (SEMA_ERROR imp Message.importing_private_module s))
        else
          let s := s.modify_decl imp (fun d => { d with module := some import_module })
          Except.ok (import_duplicate_scan unit i imp s)

/-- The loop `for (unsigned i = 0; i < imports; i++)` of one unit, `imports`
being read once before the loop. -/
def process_unit_imports (module : ModuleRef) (unit : UnitRef) (s : SemaState) :
    Except Failure SemaState :=
  (List.range (s.units unit).imports.length).foldlM
    (fun s i => process_import module unit i s) s

/-- The pass `sema_analysis_pass_process_imports`: every unit of the module in
order.  (`import_count` only feeds the debug log and is left out.) -/
def sema_analysis_pass_process_imports (module : ModuleRef) (s : SemaState) :
    Except Failure SemaState :=
  (s.modules module).units.foldlM (fun s unit => process_unit_imports module unit s) s

/-! ## The registration pass and the conditional pass -/

/-- One call of the filing routine by the registration pass: the unit and the
declaration it is given, and the state it is called in. -/
structure FilingCall where
  unit : UnitRef
  decl : DeclRef
  state : SemaState

/-- The body of the loop of `sema_analysis_pass_register_globals` for one unit:
the owning module is bound, the declarations of `global_decls` are filed in
index order, and the vector is resized to zero.  The result is the state the
visit ends in, together with the calls of `unit_register_global_decl` made, each
with the state it was made in. -/
def register_unit_globals (module : ModuleRef) (unit : UnitRef) (s : SemaState) :
    List FilingCall × SemaState :=
  let s := s.modify_unit unit (fun u => { u with module := some module })
  let r := (s.units unit).global_decls.foldl
    (fun (r : List FilingCall × SemaState) decl =>
      (r.1 ++ [{ unit := unit, decl := decl, state := r.2 }],
        unit_register_global_decl unit decl r.2))
    ([], s)
  (r.1, r.2.modify_unit unit (fun u => { u with global_decls := [] }))

/-- The pass `sema_analysis_pass_register_globals`: the state it ends in,
together with the calls of `unit_register_global_decl` made, in order. -/
def sema_analysis_pass_register_globals (module : ModuleRef) (s : SemaState) :
    List FilingCall × SemaState :=
  (s.modules module).units.foldl
    (fun (r : List FilingCall × SemaState) unit =>
      (r.1 ++ (register_unit_globals module unit r.2).1,
        (register_unit_globals module unit r.2).2))
    ([], s)

/-- The static function `sema_append_decls`: every declaration of the vector
is filed, in index order. -/
def sema_append_decls (unit : UnitRef) (decls : List DeclRef) (s : SemaState) : SemaState :=
  decls.foldl (fun s decl => unit_register_global_decl unit decl s) s

/-- The loop `while (ct_elif)` of `sema_analyse_top_level_if`, with a bound on
the number of links followed. -/
def ct_elif_walk (ext : Analysers) (context : SemaContext) :
    Nat → Option DeclRef → SemaState → Except Failure (Bool × SemaState)
  | _, none, s => Except.ok (true, s)
  | 0, some _, _ => Except.error Failure.out_of_fuel
  | fuel + 1, some ct_elif, s =>
    if (s.decls ct_elif).decl_kind = DECL_CT_ELIF then
      let r := sema_check_comp_time_bool ext context (s.decls ct_elif).ct_expr s
      if r.1 = -1 then Except.ok (false, r.2)
      else if r.1 ≠ 0 then
        Except.ok (true, sema_append_decls context.unit (r.2.decls ct_elif).ct_then r.2)
      else ct_elif_walk ext context fuel (r.2.decls ct_elif).ct_elif r.2
    else if (s.decls ct_elif).decl_kind = DECL_CT_ELSE then
      Except.ok (true, sema_append_decls context.unit (s.decls ct_elif).ct_else_decl s)
    else Except.error Failure.assertion_failed

/-- The static function `sema_analyse_top_level_if`: the `if` condition is
evaluated; an error returns false, true files the `then` declarations, and
false walks the `elif` links.  `fuel` bounds the links followed. -/
def sema_analyse_top_level_if (ext : Analysers) (fuel : Nat) (context : SemaContext)
    (ct_if : DeclRef) (s : SemaState) : Except Failure (Bool × SemaState) :=
  let r := sema_check_comp_time_bool ext context (s.decls ct_if).ct_expr s
  if r.1 = -1 then Except.ok (false, r.2)
  else if r.1 ≠ 0 then
    Except.ok (true, sema_append_decls context.unit (r.2.decls ct_if).ct_then r.2)
  else ct_elif_walk ext context fuel (r.2.decls ct_if).ct_elif r.2

/-- The loop `for (unsigned i = 0; i < vec_size(unit->ct_ifs); i++)`: the size is
read again before every iteration; `fuel` bounds the number of iterations. -/
def ct_ifs_loop (ext : Analysers) (unit : UnitRef) :
    Nat → Nat → SemaState → Except Failure SemaState
  | 0, i, s =>
    if i < (s.units unit).ct_ifs.length then Except.error Failure.out_of_fuel
    else Except.ok s
  | fuel + 1, i, s =>
    if i < (s.units unit).ct_ifs.length then
      let c := sema_context_init ext unit s
      match sema_analyse_top_level_if ext fuel c.1 ((c.2.units unit).ct_ifs.getD i 0) c.2 with
      | Except.error e => Except.error e
      | Except.ok r => ct_ifs_loop ext unit fuel (i + 1) (sema_context_destroy c.1 r.2)
    else Except.ok s

/-- The pass `sema_analysis_pass_conditional_compilation`: every unit of the
module in order; the result of `sema_analyse_top_level_if` is not looked at. -/
def sema_analysis_pass_conditional_compilation (ext : Analysers) (fuel : Nat)
    (module : ModuleRef) (s : SemaState) : Except Failure SemaState :=
  (s.modules module).units.foldlM (fun s unit => ct_ifs_loop ext unit fuel 0 s) s

/-! ## The assertion pass, the declaration pass and the function pass -/

/-- The body of the loop of `sema_analysis_pass_ct_assert` for one unit: the
assertions of `context.unit->ct_asserts` are handed to the analyser in index
order, between the construction and the teardown of the context; what the
analyser answers is not looked at. -/
def ct_assert_unit (ext : Analysers) (unit : UnitRef) (s : SemaState) : SemaState :=
  let c := sema_context_init ext unit s
  sema_context_destroy c.1
    ((c.2.units c.1.unit).ct_asserts.foldl
      (fun s a => (sema_analyse_ct_assert_stmt ext c.1 (s.decls a).ct_assert_decl s).2) c.2)

/-- The pass `sema_analysis_pass_ct_assert`. -/
def sema_analysis_pass_ct_assert (ext : Analysers) (module : ModuleRef) (s : SemaState) :
    SemaState :=
  (s.modules module).units.foldl (fun s unit => ct_assert_unit ext unit s) s

/-- The static function `analyse_func_body`: a declaration without a body is
left alone; otherwise the body is analysed and the declaration is poisoned when
that fails.  Its boolean result, which on failure is whatever `decl_poison`
returns, is dropped by every caller and is left out. -/
def analyse_func_body (ext : Analysers) (context : SemaContext) (decl : DeclRef)
    (s : SemaState) : SemaState :=
  if (s.decls decl).func_body = none then s
  else
    let r := sema_analyse_function_body ext context decl s
    if r.1 = false then decl_poison decl r.2 else r.2

/-- One loop `VECEACH(list, i) sema_analyse_decl(&context, list[i])` of the
declaration pass. -/
def analyse_decl_list (ext : Analysers) (context : SemaContext) (list : List DeclRef)
    (s : SemaState) : SemaState :=
  list.foldl (fun s decl => (sema_analyse_decl ext context decl s).2) s

/-- The scope `sema_analysis_pass_decls` assigns to `context.active_scope`. -/
def decls_pass_scope : DynamicScope :=
  { depth := 0, scope_id := 0, local_decl_start := 0, current_local := 0 }

/-- The body of the loop of `sema_analysis_pass_decls` for one unit: the context
is constructed, its scope is reset, the ten categories are analysed in the
order of the source, every list being read when its loop starts, and the
context is torn down. -/
def decls_unit (ext : Analysers) (unit : UnitRef) (s : SemaState) : SemaState :=
  let c := sema_context_init ext unit s
  let context : SemaContext := { c.1 with active_scope := decls_pass_scope }
  let s := c.2
  let s := analyse_decl_list ext context (s.units unit).enums s
  let s := analyse_decl_list ext context (s.units unit).types s
  let s := analyse_decl_list ext context (s.units unit).macros s
  let s := analyse_decl_list ext context (s.units unit).generics s
  let s := analyse_decl_list ext context (s.units unit).methods s
  let s := analyse_decl_list ext context (s.units unit).macro_methods s
  let s := analyse_decl_list ext context (s.units unit).vars s
  let s := analyse_decl_list ext context (s.units unit).functions s
  let s := match (s.units unit).main_function with
    | some main_function => (sema_analyse_decl ext context main_function s).2
    | none => s
  let s := analyse_decl_list ext context (s.units unit).generic_defines s
  sema_context_destroy context s

/-- The pass `sema_analysis_pass_decls`. -/
def sema_analysis_pass_decls (ext : Analysers) (module : ModuleRef) (s : SemaState) :
    SemaState :=
  (s.modules module).units.foldl (fun s unit => decls_unit ext unit s) s

/-- The body of the loop of `sema_analysis_pass_functions` for one unit: every
method, then every function, then the main function if there is one. -/
def functions_unit (ext : Analysers) (unit : UnitRef) (s : SemaState) : SemaState :=
  let c := sema_context_init ext unit s
  let s := c.2
  let s := (s.units unit).methods.foldl (fun s decl => analyse_func_body ext c.1 decl s) s
  let s := (s.units unit).functions.foldl (fun s decl => analyse_func_body ext c.1 decl s) s
  let s := match (s.units unit).main_function with
    | some main_function => analyse_func_body ext c.1 main_function s
    | none => s
  sema_context_destroy c.1 s

/-- The pass `sema_analysis_pass_functions`. -/
def sema_analysis_pass_functions (ext : Analysers) (module : ModuleRef) (s : SemaState) :
    SemaState :=
  (s.modules module).units.foldl (fun s unit => functions_unit ext unit s) s

/-! ## Notions used to state the properties of the import pass -/

/-- Every import declaration of a list of units, in processing order. -/
def imports_of_units (s : SemaState) (U : List UnitRef) : List DeclRef :=
  U.flatMap (fun u => (s.units u).imports)

/-- Every import declaration of the units of `module`, in processing order. -/
def all_imports (s : SemaState) (module : ModuleRef) : List DeclRef :=
  imports_of_units s (s.modules module).units

/-- The state the import pass expects: no import declaration is shared between
two positions of the import lists, and none has been analysed yet. -/
def ImportsPending (s : SemaState) (module : ModuleRef) : Prop :=
  (all_imports s module).Nodup ∧
  ∀ p ∈ all_imports s module, (s.decls p).resolve_status = RESOLVE_NOT_DONE

instance (s : SemaState) (module : ModuleRef) : Decidable (ImportsPending s module) := by
  unfold ImportsPending; exact inferInstance

/-- The outcome of steps 4 to 7 for an import declaration `d`: the module the
registry returns, or the message of the check that rejects it. -/
def import_lookup (s : SemaState) (module : ModuleRef) (d : Decl) : Except Message ModuleRef :=
  match s.find_module d.import_path with
  | none => Except.error Message.no_module_found
  | some m =>
    if m = module then Except.error Message.importing_current_module
    else if (s.modules m).is_private && !d.import_private then
      Except.error Message.importing_private_module
    else Except.ok m

/-- The `module` field an import declaration holds once it has been processed. -/
def import_target (s : SemaState) (module : ModuleRef) (d : Decl) : Option ModuleRef :=
  match import_lookup s module d with
  | Except.ok m => some m
  | Except.error _ => d.module

/-- The first of the earlier imports that ends up holding `m`. -/
def import_duplicate (s : SemaState) (module : ModuleRef) (earlier : List DeclRef)
    (m : ModuleRef) : Option DeclRef :=
  earlier.find? (fun q => decide (some m = import_target s module (s.decls q)))

/-- The declaration an import `d` becomes, given the earlier imports of its unit. -/
def import_result (s : SemaState) (module : ModuleRef) (earlier : List DeclRef) (d : Decl) :
    Decl :=
  match import_lookup s module d with
  | Except.error _ => { d with resolve_status := RESOLVE_RUNNING, poisoned := true }
  | Except.ok m =>
    match import_duplicate s module earlier m with
    | some _ => { d with resolve_status := RESOLVE_RUNNING, module := some m, poisoned := true }
    | none => { d with resolve_status := RESOLVE_RUNNING, module := some m }

/-- The messages reported for the import `p`, given the earlier imports of its unit. -/
def import_messages (s : SemaState) (module : ModuleRef) (earlier : List DeclRef)
    (p : DeclRef) : List Diagnostic :=
  match import_lookup s module (s.decls p) with
  | Except.error msg => [Diagnostic.error p msg]
  | Except.ok m =>
    match import_duplicate s module earlier m with
    | some q => [Diagnostic.error p Message.imported_more_than_once, Diagnostic.previous q]
    | none => []

/-- The number of errors counted for the import `p`. -/
def import_errors (s : SemaState) (module : ModuleRef) (earlier : List DeclRef)
    (p : DeclRef) : Nat :=
  match import_lookup s module (s.decls p) with
  | Except.error _ => 1
  | Except.ok m =>
    match import_duplicate s module earlier m with
    | some _ => 1
    | none => 0

/-- The messages reported for the first `n` imports of the list `L`. -/
def unit_messages (s : SemaState) (module : ModuleRef) (L : List DeclRef) (n : Nat) :
    List Diagnostic :=
  (List.range n).flatMap (fun j => import_messages s module (L.take j) (L.getD j 0))

/-- The errors counted for the first `n` imports of the list `L`. -/
def unit_errors (s : SemaState) (module : ModuleRef) (L : List DeclRef) (n : Nat) : Nat :=
  ((List.range n).map (fun j => import_errors s module (L.take j) (L.getD j 0))).sum

/-- A duplicate-import error anchored at an import of `L` whose path resolves to `M`. -/
def is_duplicate_error_for (s : SemaState) (L : List DeclRef) (M : ModuleRef)
    (d : Diagnostic) : Bool :=
  match d with
  | Diagnostic.error a Message.imported_more_than_once =>
    decide (a ∈ L) && decide (s.find_module (s.decls a).import_path = some M)
  | _ => false

/-- The number of errors among `ds` that are anchored at the declaration `p`. -/
def errors_at (p : DeclRef) (ds : List Diagnostic) : Nat :=
  ds.countP (fun d => match d with
    | Diagnostic.error a _ => decide (a = p)
    | Diagnostic.previous _ => false)

/-! ## Notions used to state the properties of the conditional pass -/

/-- The links hanging off a conditional: `ElifChain decls start nodes last` says
that following `elif` from `start` visits the `DECL_CT_ELIF` declarations
`nodes` in order and then ends, either in the null pointer (`last = none`) or
in a `DECL_CT_ELSE` declaration (`last = some q`). -/
inductive ElifChain (decls : DeclRef → Decl) :
    Option DeclRef → List DeclRef → Option DeclRef → Prop
  | null : ElifChain decls none [] none
  | ct_else (q : DeclRef) : (decls q).decl_kind = DECL_CT_ELSE →
      ElifChain decls (some q) [] (some q)
  | ct_elif (p : DeclRef) (rest : List DeclRef) (last : Option DeclRef) :
      (decls p).decl_kind = DECL_CT_ELIF → ElifChain decls (decls p).ct_elif rest last →
      ElifChain decls (some p) (p :: rest) last

/-- The declaration lists of the branches of a chain: the `then` list of the
`if` and of every `elif`, and the list of the `else` when there is one. -/
def chain_branches (decls : DeclRef → Decl) (conds : List DeclRef) (last : Option DeclRef) :
    List (List DeclRef) :=
  conds.map (fun p => (decls p).ct_then) ++
    (match last with
     | some q => [(decls q).ct_else_decl]
     | none => [])

/-- The state after the conditions of `conds` have been evaluated in order. -/
def after_checks (context : SemaContext) (conds : List DeclRef) (s : SemaState) : SemaState :=
  conds.foldl
    (fun s p => s.log (Event.check_comp_time_bool context.unit (s.decls p).ct_expr)) s

/-- The answer of the evaluator for condition `k` of `conds`, asked after the
conditions before it have been evaluated. -/
def cond_value (ext : Analysers) (context : SemaContext) (conds : List DeclRef)
    (s : SemaState) (k : Nat) : Int :=
  ext.sema_check_comp_time_bool (after_checks context (conds.take k) s) context
    (s.decls (conds.getD k 0)).ct_expr

/-- What a chain does, read off its list view: the conditions `conds` are
evaluated in order until one is not false. -/
def chain_outcome (ext : Analysers) (context : SemaContext) :
    List DeclRef → Option DeclRef → SemaState → Bool × SemaState
  | [], none, s => (true, s)
  | [], some q, s => (true, sema_append_decls context.unit (s.decls q).ct_else_decl s)
  | p :: rest, last, s =>
    let r := sema_check_comp_time_bool ext context (s.decls p).ct_expr s
    if r.1 = -1 then (false, r.2)
    else if r.1 ≠ 0 then
      (true, sema_append_decls context.unit (r.2.decls p).ct_then r.2)
    else chain_outcome ext context rest last r.2

/-- The total weight of the conditionals that filing the list `b` adds to
`ct_ifs`. -/
def nested_weight (decls : DeclRef → Decl) (w : DeclRef → Nat) (b : List DeclRef) : Nat :=
  ((b.filter (fun d => decide ((decls d).decl_kind = DECL_CT_IF))).map w).sum

/-- The conditional declarations of a heap are well formed and finitely nested:
every `DECL_CT_IF` declaration heads a chain of fewer than `N` `elif` links, and
its weight `w` exceeds the total weight of the conditionals that any one of its
branches contains. -/
def FinitelyNested (decls : DeclRef → Decl) (w : DeclRef → Nat) (N : Nat) : Prop :=
  ∀ c, (decls c).decl_kind = DECL_CT_IF →
    ∃ nodes last, ElifChain decls (decls c).ct_elif nodes last ∧ nodes.length < N ∧
      ∀ b ∈ chain_branches decls (c :: nodes) last, nested_weight decls w b < w c

/-! ## Notions used to state the properties of the other passes -/

/-- The calls of the assertion pass for one unit. -/
def ct_assert_block (s : SemaState) (u : UnitRef) : List Event :=
  Event.context_init u ::
    ((s.units u).ct_asserts.map
        (fun a => Event.analyse_ct_assert_stmt u (s.decls a).ct_assert_decl)
      ++ [Event.context_destroy u])

/-- The declarations of a unit in the order of the ten loops of
`sema_analysis_pass_decls`. -/
def decl_order (s : SemaState) (u : UnitRef) : List DeclRef :=
  (s.units u).enums ++ (s.units u).types ++ (s.units u).macros ++ (s.units u).generics ++
    (s.units u).methods ++ (s.units u).macro_methods ++ (s.units u).vars ++
    (s.units u).functions ++ (s.units u).main_function.toList ++
    (s.units u).generic_defines

/-- The context the declaration pass works with in unit `u`. -/
def decls_pass_context (u : UnitRef) : SemaContext :=
  { unit := u, active_scope := decls_pass_scope }

/-- The calls of the declaration pass for one unit. -/
def decls_block (s : SemaState) (u : UnitRef) : List Event :=
  Event.context_init u ::
    ((decl_order s u).map (fun d => Event.analyse_decl (decls_pass_context u) d)
      ++ [Event.context_destroy u])

/-- The declarations handed to `sema_analyse_decl` in a record of calls, in
the order of the calls. -/
def analysed_decls (tr : List Event) : List DeclRef :=
  tr.filterMap (fun e =>
    match e with
    | Event.analyse_decl _ d => some d
    | _ => none)

/-- The declarations the function pass visits in a unit: every method, then
every function, then the main function if there is one. -/
def body_order (s : SemaState) (u : UnitRef) : List DeclRef :=
  (s.units u).methods ++ (s.units u).functions ++ (s.units u).main_function.toList

/-- The calls of the body analyser in a record of calls, each with the unit of
its context, in the order of the calls. -/
def body_calls (tr : List Event) : List (UnitRef × DeclRef) :=
  tr.filterMap (fun e =>
    match e with
    | Event.analyse_function_body u d _ => some (u, d)
    | _ => none)

/-- The state `s` is what the function pass makes of `s0` with the calls
`calls`: the units and modules are those of `s0`, and a declaration is that of
`s0`, poisoned when one of the calls is a failed analysis of its body. -/
structure BodiesDone (s0 s : SemaState) (calls : List Event) : Prop where
  trace : s.trace = s0.trace ++ calls
  units : s.units = s0.units
  modules : s.modules = s0.modules
  failed : ∀ d, (∃ u, Event.analyse_function_body u d false ∈ calls) →
    s.decls d = { s0.decls d with poisoned := true }
  passed : ∀ d, (¬ ∃ u, Event.analyse_function_body u d false ∈ calls) →
    s.decls d = s0.decls d

/-- The unit of the context a call is made with; the construction and the
teardown of a context are not calls made with a context. -/
def Event.call_unit : Event → Option UnitRef
  | Event.context_init _ => none
  | Event.context_destroy _ => none
  | Event.check_comp_time_bool u _ => some u
  | Event.register_global_decl u _ => some u
  | Event.analyse_ct_assert_stmt u _ => some u
  | Event.analyse_decl c _ => some c.unit
  | Event.analyse_function_body u _ _ => some u

/-- A record of calls in which construction and teardown alternate: it is a
sequence of visits, each the construction of the context of a unit, calls made
with a context of that unit, and the teardown of the context of that unit. -/
inductive Bracketed : List Event → Prop
  | nil : Bracketed []
  | visit (u : UnitRef) (body rest : List Event) :
      (∀ e ∈ body, e.call_unit = some u) → Bracketed rest →
      Bracketed (Event.context_init u :: (body ++ Event.context_destroy u :: rest))

/-- The calls of the body analyser that the function pass makes in the units
`U`, each with its unit. -/
def expected_body_calls (s : SemaState) (U : List UnitRef) : List (UnitRef × DeclRef) :=
  U.flatMap (fun u =>
    ((body_order s u).filter (fun d => decide ((s.decls d).func_body ≠ none))).map
      (fun d => (u, d)))

/-- The declarations filed into unit `u` in a record of calls, in the order of
the calls. -/
def filed_in (u : UnitRef) (tr : List Event) : List DeclRef :=
  tr.filterMap (fun e =>
    match e with
    | Event.register_global_decl v d => if v = u then some d else none
    | _ => none)

/-- The state of a unit visit of the registration pass once the owning module
has been bound and the declarations `filed` have been filed. -/
def registering (module : ModuleRef) (u : UnitRef) (filed : List DeclRef) (s : SemaState) :
    SemaState :=
  sema_append_decls u filed (s.modify_unit u (fun cu => { cu with module := some module }))

/-- The calls `block` are one iteration of the loop over `unit->ct_ifs` for the
conditional `c` of unit `u`, in which the declarations `filed` were filed: the
context is constructed, a non-empty prefix of the conditions of the chain of
`c` is evaluated, `filed`, which is empty or one branch of the chain, is filed
in list order, and the context is torn down. -/
def ChainVisit (decls : DeclRef → Decl) (u : UnitRef) (c : DeclRef)
    (visit : List Event × List DeclRef) : Prop :=
  ∃ nodes last k, ElifChain decls (decls c).ct_elif nodes last ∧
    0 < k ∧ k ≤ (c :: nodes).length ∧
    (visit.2 = [] ∨ visit.2 ∈ chain_branches decls (c :: nodes) last) ∧
    visit.1 = Event.context_init u ::
      ((((c :: nodes).take k).map (fun p => Event.check_comp_time_bool u (decls p).ct_expr)
          ++ visit.2.map (fun d => Event.register_global_decl u d))
        ++ [Event.context_destroy u])

/-- The conditionals among the declarations filed by a list of visits. -/
def filed_conditionals (decls : DeclRef → Decl) (visits : List (List Event × List DeclRef)) :
    List DeclRef :=
  visits.flatMap (fun v => v.2.filter (fun d => decide ((decls d).decl_kind = DECL_CT_IF)))

/-- The calls of a list of visits. -/
def visit_calls (visits : List (List Event × List DeclRef)) : List Event :=
  visits.flatMap (fun v => v.1)

/-- The calls `block` are one visit of the unit `u` by a pass that works with a
context: the construction of the context of `u`, then calls made with a context
of `u` and no construction or teardown, then the teardown of the context of
`u`. -/
def UnitVisit (u : UnitRef) (block : List Event) : Prop :=
  ∃ body, block = Event.context_init u :: (body ++ [Event.context_destroy u]) ∧
    ∀ e ∈ body, e.call_unit = some u

/-- The call of the filing routine as it appears in the record of outgoing
calls. -/
def FilingCall.event (c : FilingCall) : Event :=
  Event.register_global_decl c.unit c.decl

/-- The calls `R` were made one after the other starting from a state whose
record of outgoing calls is `tr`: each was made in a state whose record is `tr`
followed by the calls before it, and each satisfies `P`. -/
def CallsRecorded (P : FilingCall → Prop) : List Event → List FilingCall → Prop
  | _, [] => True
  | tr, c :: R => c.state.trace = tr ∧ P c ∧ CallsRecorded P (tr ++ [c.event]) R

/-! ## Example programs -/

/-- An import declaration as the parser leaves it: not analysed, not poisoned,
not bound. -/
def demo_import (path : Symbol) (priv : Bool) : Decl :=
  { decl_kind := DECL_IMPORT, resolve_status := RESOLVE_NOT_DONE, poisoned := false,
    module := none, import_path := path, import_private := priv, ct_expr := 0,
    ct_then := [], ct_elif := none, ct_else_decl := [], ct_assert_decl := 0,
    func_body := none }

/-- A declaration of the given kind with every other field empty. -/
def demo_decl (kind : DeclKind) : Decl :=
  { decl_kind := kind, resolve_status := RESOLVE_NOT_DONE, poisoned := false,
    module := none, import_path := 0, import_private := false, ct_expr := 0,
    ct_then := [], ct_elif := none, ct_else_decl := [], ct_assert_decl := 0,
    func_body := none }

/-- A unit with no declarations. -/
def empty_unit : CompilationUnit :=
  { module := none, imports := [], global_decls := [], ct_ifs := [], ct_asserts := [],
    enums := [], types := [], macros := [], generics := [], methods := [],
    macro_methods := [], vars := [], functions := [], generic_defines := [],
    main_function := none }

/-- A program of three modules: module `0` (the one analysed, with units `0` and
`1`), the public module `1` and the private module `2`; path `k` names module
`k`, and path `7` names nothing.  Unit `0` imports `1`, `1`, `2`, private `2`,
`0`, `7`, `1`; unit `1` imports `1` and private `2`. -/
def demo_imports : SemaState :=
  { modules := fun m =>
      if m = 0 then { is_private := false, units := [0, 1] }
      else if m = 2 then { is_private := true, units := [] }
      else { is_private := false, units := [] }
    find_module := fun path => if path < 3 then some path else none
    units := fun u =>
      if u = 0 then { empty_unit with imports := [10, 11, 12, 13, 14, 15, 16] }
      else if u = 1 then { empty_unit with imports := [20, 21] }
      else empty_unit
    decls := fun p =>
      if p = 10 then demo_import 1 false
      else if p = 11 then demo_import 1 false
      else if p = 12 then demo_import 2 false
      else if p = 13 then demo_import 2 true
      else if p = 14 then demo_import 0 false
      else if p = 15 then demo_import 7 false
      else if p = 16 then demo_import 1 false
      else if p = 20 then demo_import 1 false
      else if p = 21 then demo_import 2 true
      else demo_import 7 false
    errors_found := 0
    diagnostics := []
    trace := [] }

/-- A module `0` with two units.  Unit `0` lists the chain
`if (1) {40, 41} elif (2) {42} else {43, 44}` headed by declaration `30`, where
`43` is itself a conditional `if (3) {45}`; unit `1` lists the chain
`if (4) {46}` headed by `50`. -/
def demo_conditionals : SemaState :=
  { modules := fun m =>
      if m = 0 then { is_private := false, units := [0, 1] }
      else { is_private := false, units := [] }
    find_module := fun _ => none
    units := fun u =>
      if u = 0 then { empty_unit with ct_ifs := [30] }
      else if u = 1 then { empty_unit with ct_ifs := [50] }
      else empty_unit
    decls := fun p =>
      if p = 30 then
        { demo_decl DECL_CT_IF with ct_expr := 1, ct_then := [40, 41], ct_elif := some 31 }
      else if p = 31 then
        { demo_decl DECL_CT_ELIF with ct_expr := 2, ct_then := [42], ct_elif := some 32 }
      else if p = 32 then { demo_decl DECL_CT_ELSE with ct_else_decl := [43, 44] }
      else if p = 43 then { demo_decl DECL_CT_IF with ct_expr := 3, ct_then := [45] }
      else if p = 50 then { demo_decl DECL_CT_IF with ct_expr := 4, ct_then := [46] }
      else demo_decl DECL_VAR
    errors_found := 0
    diagnostics := []
    trace := [] }

/-- An evaluator for which expression `3` is true, expression `4` is an error
and every other expression is false; only the assertion `1` holds, the
declaration `61` fails to resolve, the body of `71` fails to analyse, and a
fresh context starts in a scope of depth `3`. -/
def demo_analysers : Analysers :=
  { sema_check_comp_time_bool := fun _ _ e => if e = 3 then 1 else if e = 4 then -1 else 0
    sema_analyse_ct_assert_stmt := fun _ _ e => decide (e = 1)
    sema_analyse_decl := fun s _ d => (decide (d ≠ 61), s.decls)
    sema_analyse_function_body := fun _ _ d => decide (d ≠ 71)
    initial_scope := fun _ _ =>
      { depth := 3, scope_id := 9, local_decl_start := 0, current_local := 0 } }

/-- The context of a visit of unit `0`. -/
def demo_context : SemaContext :=
  { unit := 0,
    active_scope := { depth := 0, scope_id := 0, local_decl_start := 0, current_local := 0 } }

/-- A module `0` with one unit whose imports are, in order: the unknown module
`7` twice, the private module `2` without the qualifier, and the private module
`2` with the qualifier. -/
def demo_precedence : SemaState :=
  { modules := fun m =>
      if m = 0 then { is_private := false, units := [0] }
      else if m = 2 then { is_private := true, units := [] }
      else { is_private := false, units := [] }
    find_module := fun path => if path < 3 then some path else none
    units := fun u =>
      if u = 0 then { empty_unit with imports := [10, 11, 12, 13] }
      else empty_unit
    decls := fun p =>
      if p = 12 then demo_import 2 false
      else if p = 13 then demo_import 2 true
      else demo_import 7 false
    errors_found := 0
    diagnostics := []
    trace := [] }

/-- A module `0` with two units that have not been registered: the buffer of
unit `0` holds the declarations `40` and `41`, that of unit `1` the declaration
`46`, and neither unit has an owning module yet. -/
def demo_registration : SemaState :=
  { demo_conditionals with
    units := fun u =>
      if u = 0 then { empty_unit with global_decls := [40, 41] }
      else if u = 1 then { empty_unit with global_decls := [46] }
      else empty_unit }

/-! ## The import pass in closed form -/

theorem find?_congr_mem {α : Type} (l : List α) (f g : α → Bool)
    (h : ∀ x ∈ l, f x = g x) : l.find? f = l.find? g := by
  induction l with
  | nil => rfl
  | cons a t ih =>
    have ha : f a = g a := h a (List.mem_cons_self a t)
    have ht : ∀ x ∈ t, f x = g x := fun x hx => h x (List.mem_cons_of_mem a hx)
    simp only [List.find?_cons, ha, ih ht]

/-! ## Field projections of the store updates -/

@[simp] theorem modify_decl_decls (s : SemaState) (p : DeclRef) (f : Decl → Decl) (q : DeclRef) :
    (s.modify_decl p f).decls q = if q = p then f (s.decls p) else s.decls q := rfl

@[simp] theorem modify_decl_units (s : SemaState) (p : DeclRef) (f : Decl → Decl) :
    (s.modify_decl p f).units = s.units := rfl

@[simp] theorem modify_decl_modules (s : SemaState) (p : DeclRef) (f : Decl → Decl) :
    (s.modify_decl p f).modules = s.modules := rfl

@[simp] theorem modify_decl_find_module (s : SemaState) (p : DeclRef) (f : Decl → Decl) :
    (s.modify_decl p f).find_module = s.find_module := rfl

@[simp] theorem modify_decl_errors_found (s : SemaState) (p : DeclRef) (f : Decl → Decl) :
    (s.modify_decl p f).errors_found = s.errors_found := rfl

@[simp] theorem modify_decl_diagnostics (s : SemaState) (p : DeclRef) (f : Decl → Decl) :
    (s.modify_decl p f).diagnostics = s.diagnostics := rfl

@[simp] theorem modify_decl_trace (s : SemaState) (p : DeclRef) (f : Decl → Decl) :
    (s.modify_decl p f).trace = s.trace := rfl

@[simp] theorem decl_poison_decls (s : SemaState) (p q : DeclRef) :
    (decl_poison p s).decls q
      = if q = p then { s.decls p with poisoned := true } else s.decls q := rfl

@[simp] theorem decl_poison_units (s : SemaState) (p : DeclRef) :
    (decl_poison p s).units = s.units := rfl

@[simp] theorem decl_poison_modules (s : SemaState) (p : DeclRef) :
    (decl_poison p s).modules = s.modules := rfl

@[simp] theorem decl_poison_find_module (s : SemaState) (p : DeclRef) :
    (decl_poison p s).find_module = s.find_module := rfl

@[simp] theorem decl_poison_errors_found (s : SemaState) (p : DeclRef) :
    (decl_poison p s).errors_found = s.errors_found := rfl

@[simp] theorem decl_poison_diagnostics (s : SemaState) (p : DeclRef) :
    (decl_poison p s).diagnostics = s.diagnostics := rfl

@[simp] theorem decl_poison_trace (s : SemaState) (p : DeclRef) :
    (decl_poison p s).trace = s.trace := rfl

@[simp] theorem SEMA_ERROR_decls (s : SemaState) (p : DeclRef) (m : Message) :
    (SEMA_ERROR p m s).decls = s.decls := rfl

@[simp] theorem SEMA_ERROR_units (s : SemaState) (p : DeclRef) (m : Message) :
    (SEMA_ERROR p m s).units = s.units := rfl

@[simp] theorem SEMA_ERROR_modules (s : SemaState) (p : DeclRef) (m : Message) :
    (SEMA_ERROR p m s).modules = s.modules := rfl

@[simp] theorem SEMA_ERROR_find_module (s : SemaState) (p : DeclRef) (m : Message) :
    (SEMA_ERROR p m s).find_module = s.find_module := rfl

@[simp] theorem SEMA_ERROR_errors_found (s : SemaState) (p : DeclRef) (m : Message) :
    (SEMA_ERROR p m s).errors_found = s.errors_found + 1 := rfl

@[simp] theorem SEMA_ERROR_diagnostics (s : SemaState) (p : DeclRef) (m : Message) :
    (SEMA_ERROR p m s).diagnostics = s.diagnostics ++ [Diagnostic.error p m] := rfl

@[simp] theorem SEMA_ERROR_trace (s : SemaState) (p : DeclRef) (m : Message) :
    (SEMA_ERROR p m s).trace = s.trace := rfl

@[simp] theorem SEMA_PREV_decls (s : SemaState) (p : DeclRef) :
    (SEMA_PREV p s).decls = s.decls := rfl

@[simp] theorem SEMA_PREV_units (s : SemaState) (p : DeclRef) :
    (SEMA_PREV p s).units = s.units := rfl

@[simp] theorem SEMA_PREV_modules (s : SemaState) (p : DeclRef) :
    (SEMA_PREV p s).modules = s.modules := rfl

@[simp] theorem SEMA_PREV_find_module (s : SemaState) (p : DeclRef) :
    (SEMA_PREV p s).find_module = s.find_module := rfl

@[simp] theorem SEMA_PREV_errors_found (s : SemaState) (p : DeclRef) :
    (SEMA_PREV p s).errors_found = s.errors_found := rfl

@[simp] theorem SEMA_PREV_diagnostics (s : SemaState) (p : DeclRef) :
    (SEMA_PREV p s).diagnostics = s.diagnostics ++ [Diagnostic.previous p] := rfl

@[simp] theorem SEMA_PREV_trace (s : SemaState) (p : DeclRef) :
    (SEMA_PREV p s).trace = s.trace := rfl

/-- The scan finds what `import_duplicate` finds, when the earlier imports hold
their final `module` fields and `imp` holds `m`. -/
theorem import_duplicate_scan_eq (s0 s : SemaState) (module : ModuleRef) (unit : UnitRef)
    (i : Nat) (imp : DeclRef) (m : ModuleRef)
    (hm : (s.decls imp).module = some m)
    (hearlier : ∀ q ∈ (s.units unit).imports.take i,
      (s.decls q).module = import_target s0 module (s0.decls q)) :
    import_duplicate_scan unit i imp s
      = match import_duplicate s0 module ((s.units unit).imports.take i) m with
        | some prev =>
          decl_poison imp (SEMA_PREV prev (SEMA_ERROR imp Message.imported_more_than_once s))
        | none => s := by
  have hscan : ((s.units unit).imports.take i).find?
        (fun prev => decide ((s.decls imp).module = (s.decls prev).module))
      = import_duplicate s0 module ((s.units unit).imports.take i) m := by
    unfold import_duplicate
    apply find?_congr_mem
    intro q hq
    rw [hearlier q hq, hm]
  unfold import_duplicate_scan
  rw [hscan]

theorem process_import_spec (s0 s : SemaState) (module : ModuleRef) (unit : UnitRef)
    (i : Nat) (p : DeclRef)
    (hp : (s.units unit).imports[i]? = some p)
    (hst : (s.decls p).resolve_status = RESOLVE_NOT_DONE)
    (hnot : p ∉ (s.units unit).imports.take i)
    (hfind : s.find_module = s0.find_module) (hmods : s.modules = s0.modules)
    (hp0 : s.decls p = s0.decls p)
    (hearlier : ∀ q ∈ (s.units unit).imports.take i,
      (s.decls q).module = import_target s0 module (s0.decls q)) :
    ∃ s', process_import module unit i s = Except.ok s' ∧
      s'.modules = s.modules ∧ s'.find_module = s.find_module ∧ s'.units = s.units ∧
      s'.trace = s.trace ∧
      (∀ q, q ≠ p → s'.decls q = s.decls q) ∧
      s'.decls p = import_result s0 module ((s.units unit).imports.take i) (s0.decls p) ∧
      s'.errors_found
        = s.errors_found + import_errors s0 module ((s.units unit).imports.take i) p ∧
      s'.diagnostics
        = s.diagnostics ++ import_messages s0 module ((s.units unit).imports.take i) p := by
  unfold process_import
  simp only [hp, hst, ne_eq, not_true_eq_false, if_false]
  simp only [modify_decl_find_module, modify_decl_modules, modify_decl_decls, if_true,
    hfind, hmods, hp0]
  unfold import_result import_messages import_errors import_lookup
  cases hf : s0.find_module (s0.decls p).import_path with
  | none =>
    refine ⟨_, rfl, ?_⟩
    simp [hp0, hmods, hfind]
    intro q hq; simp [hq]
  | some m =>
    simp only []
    by_cases hself : m = module
    · simp only [hself, if_true]
      refine ⟨_, rfl, ?_⟩
      simp [hp0, hmods, hfind]
      intro q hq; simp [hq]
    · simp only [hself, if_false]
      by_cases hpriv : ((s0.modules m).is_private && !(s0.decls p).import_private) = true
      · simp only [hpriv, if_true]
        refine ⟨_, rfl, ?_⟩
        simp [hp0, hmods, hfind]
        intro q hq; simp [hq]
      · simp only [hpriv, if_false]
        rw [import_duplicate_scan_eq s0 _ module unit i p m (by simp)
          (by
            intro q hq
            have hq' : q ∈ (s.units unit).imports.take i := by simpa using hq
            have hqp : q ≠ p := fun h => hnot (h ▸ hq')
            simp [hqp, hearlier q hq'])]
        simp only [modify_decl_units]
        cases hd : import_duplicate s0 module ((s.units unit).imports.take i) m with
        | none =>
          refine ⟨_, rfl, ?_⟩
          simp [hp0, hmods, hfind, hd]
          intro q hq; simp [hq]
        | some prev =>
          refine ⟨_, rfl, ?_⟩
          simp [hp0, hmods, hfind, hd]
          intro q hq; simp [hq]

theorem import_result_module (s : SemaState) (module : ModuleRef) (earlier : List DeclRef)
    (d : Decl) : (import_result s module earlier d).module = import_target s module d := by
  unfold import_result import_target
  cases import_lookup s module d with
  | error e => rfl
  | ok m => simp only []; cases import_duplicate s module earlier m <;> rfl

theorem import_result_status (s : SemaState) (module : ModuleRef) (earlier : List DeclRef)
    (d : Decl) : (import_result s module earlier d).resolve_status = RESOLVE_RUNNING := by
  unfold import_result
  cases import_lookup s module d with
  | error e => rfl
  | ok m => simp only []; cases import_duplicate s module earlier m <;> rfl

theorem mem_take_getD {L : List DeclRef} {n : Nat} {q : DeclRef} (h : q ∈ L.take n) :
    ∃ j, j < n ∧ j < L.length ∧ L.getD j 0 = q := by
  rw [List.mem_take_iff_getElem] at h
  obtain ⟨j, hj, hq⟩ := h
  have hj' : j < n ∧ j < L.length := by simpa using hj
  exact ⟨j, hj'.1, hj'.2, by rw [List.getD_eq_getElem L 0 hj'.2]; exact hq⟩

theorem getD_not_mem_take {L : List DeclRef} (hnd : L.Nodup) {n : Nat} (hn : n < L.length) :
    L.getD n 0 ∉ L.take n := by
  intro h
  obtain ⟨j, hjn, hjl, hq⟩ := mem_take_getD h
  rw [List.getD_eq_getElem L 0 hjl, List.getD_eq_getElem L 0 hn] at hq
  have := (List.Nodup.getElem_inj_iff hnd).1 hq
  omega

theorem process_imports_prefix (s0 s : SemaState) (module : ModuleRef) (unit : UnitRef)
    (hfind : s.find_module = s0.find_module) (hmods : s.modules = s0.modules)
    (hnodup : (s.units unit).imports.Nodup)
    (hagree : ∀ q ∈ (s.units unit).imports, s.decls q = s0.decls q)
    (hst : ∀ q ∈ (s.units unit).imports, (s0.decls q).resolve_status = RESOLVE_NOT_DONE) :
    ∀ n, n ≤ (s.units unit).imports.length →
      ∃ s', (List.range n).foldlM (fun s i => process_import module unit i s) s
          = Except.ok s' ∧
        s'.modules = s.modules ∧ s'.find_module = s.find_module ∧ s'.units = s.units ∧
        s'.trace = s.trace ∧
        (∀ q, q ∉ (s.units unit).imports.take n → s'.decls q = s.decls q) ∧
        (∀ j, j < n → s'.decls ((s.units unit).imports.getD j 0)
          = import_result s0 module ((s.units unit).imports.take j)
              (s0.decls ((s.units unit).imports.getD j 0))) ∧
        s'.errors_found = s.errors_found + unit_errors s0 module (s.units unit).imports n ∧
        s'.diagnostics
          = s.diagnostics ++ unit_messages s0 module (s.units unit).imports n := by
  intro n
  induction n with
  | zero =>
    intro _
    refine ⟨s, rfl, rfl, rfl, rfl, rfl, fun _ _ => rfl, ?_, ?_, ?_⟩
    · intro j hj; omega
    · simp [unit_errors]
    · simp [unit_messages]
  | succ n ih =>
    intro hn
    have hlt : n < (s.units unit).imports.length := by omega
    obtain ⟨s1, hrun, hm1, hf1, hu1, ht1, hout, hin, herr, hdiag⟩ := ih (by omega)
    have hpmem : (s.units unit).imports.getD n 0 ∈ (s.units unit).imports := by
      rw [List.getD_eq_getElem _ 0 hlt]; exact List.getElem_mem hlt
    have hpnot := getD_not_mem_take hnodup hlt
    obtain ⟨s2, hstep, hm2, hf2, hu2, ht2, hout2, hin2, herr2, hdiag2⟩ :=
      process_import_spec s0 s1 module unit n ((s.units unit).imports.getD n 0)
        (by rw [hu1, List.getElem?_eq_getElem hlt, List.getD_eq_getElem _ 0 hlt])
        (by rw [hout _ hpnot, hagree _ hpmem]; exact hst _ hpmem)
        (by rw [hu1]; exact hpnot)
        (by rw [hf1, hfind]) (by rw [hm1, hmods])
        (by rw [hout _ hpnot, hagree _ hpmem])
        (by
          rw [hu1]
          intro q hq
          obtain ⟨j, hjn, hjl, hqj⟩ := mem_take_getD hq
          rw [← hqj, hin j hjn, import_result_module])
    rw [hu1] at hin2 herr2 hdiag2
    refine ⟨s2, ?_, ?_, ?_, ?_, ?_, ?_, ?_, ?_, ?_⟩
    · rw [List.range_succ, List.foldlM_append, hrun]
      simpa using hstep
    · rw [hm2, hm1]
    · rw [hf2, hf1]
    · rw [hu2, hu1]
    · rw [ht2, ht1]
    · intro q hq
      have hq1 : q ∉ (s.units unit).imports.take n := by
        intro h
        apply hq
        rw [List.take_succ]
        exact List.mem_append_left _ h
      have hq2 : q ≠ (s.units unit).imports.getD n 0 := by
        intro h
        apply hq
        rw [h, List.getD_eq_getElem _ 0 hlt, List.mem_take_iff_getElem]
        exact ⟨n, by simp; omega, rfl⟩
      rw [hout2 q hq2, hout q hq1]
    · intro j hj
      by_cases hjn : j = n
      · rw [hjn, hin2]
      · have hj' : j < n := by omega
        have hne : (s.units unit).imports.getD j 0 ≠ (s.units unit).imports.getD n 0 := by
          intro h
          rw [List.getD_eq_getElem _ 0 (by omega : j < (s.units unit).imports.length),
            List.getD_eq_getElem _ 0 hlt] at h
          exact hjn ((List.Nodup.getElem_inj_iff hnodup).1 h)
        rw [hout2 _ hne, hin j hj']
    · rw [herr2, herr, unit_errors, unit_errors, List.sum_range_succ, Nat.add_assoc]
    · rw [hdiag2, hdiag, unit_messages, unit_messages, List.range_succ, List.flatMap_append,
        List.append_assoc]
      simp

theorem process_units_imports (s0 : SemaState) (module : ModuleRef) :
    ∀ (U : List UnitRef) (s : SemaState),
      s.find_module = s0.find_module → s.modules = s0.modules → s.units = s0.units →
      (imports_of_units s0 U).Nodup →
      (∀ q ∈ imports_of_units s0 U, s.decls q = s0.decls q) →
      (∀ q ∈ imports_of_units s0 U, (s0.decls q).resolve_status = RESOLVE_NOT_DONE) →
      ∃ s', U.foldlM (fun s unit => process_unit_imports module unit s) s = Except.ok s' ∧
        s'.modules = s.modules ∧ s'.find_module = s.find_module ∧ s'.units = s.units ∧
        s'.trace = s.trace ∧
        (∀ q, q ∉ imports_of_units s0 U → s'.decls q = s.decls q) ∧
        (∀ u ∈ U, ∀ j, j < (s0.units u).imports.length →
          s'.decls ((s0.units u).imports.getD j 0)
            = import_result s0 module ((s0.units u).imports.take j)
                (s0.decls ((s0.units u).imports.getD j 0))) ∧
        s'.errors_found = s.errors_found
          + (U.map (fun u => unit_errors s0 module (s0.units u).imports
              (s0.units u).imports.length)).sum ∧
        s'.diagnostics = s.diagnostics
          ++ U.flatMap (fun u => unit_messages s0 module (s0.units u).imports
              (s0.units u).imports.length) := by
  intro U
  induction U with
  | nil =>
    intro s _ _ _ _ _ _
    exact ⟨s, rfl, rfl, rfl, rfl, rfl, fun _ _ => rfl, by simp, by simp, by simp⟩
  | cons u U ih =>
    intro s hfind hmods hunits hnd hagree hst
    have hsplit : imports_of_units s0 (u :: U)
        = (s0.units u).imports ++ imports_of_units s0 U := by
      simp [imports_of_units]
    rw [hsplit] at hnd hagree hst
    obtain ⟨hndu, hndU, hdisj⟩ := List.nodup_append.1 hnd
    have hLu : (s.units u).imports = (s0.units u).imports := by rw [hunits]
    obtain ⟨s1, hrun1, hm1, hf1, hu1, ht1, hout1, hin1, herr1, hdiag1⟩ :=
      process_imports_prefix s0 s module u hfind hmods (by rw [hLu]; exact hndu)
        (by rw [hLu]; exact fun q hq => hagree q (List.mem_append_left _ hq))
        (by rw [hLu]; exact fun q hq => hst q (List.mem_append_left _ hq))
        (s.units u).imports.length (Nat.le_refl _)
    rw [hLu] at hout1 hin1 herr1 hdiag1
    rw [List.take_length] at hout1
    obtain ⟨s2, hrun2, hm2, hf2, hu2, ht2, hout2, hin2, herr2, hdiag2⟩ :=
      ih s1 (by rw [hf1, hfind]) (by rw [hm1, hmods]) (by rw [hu1, hunits]) hndU
        (fun q hq => by
          rw [hout1 q (fun h => hdisj h hq)]
          exact hagree q (List.mem_append_right _ hq))
        (fun q hq => hst q (List.mem_append_right _ hq))
    refine ⟨s2, ?_, ?_, ?_, ?_, ?_, ?_, ?_, ?_, ?_⟩
    · rw [List.foldlM_cons]
      have : process_unit_imports module u s = Except.ok s1 := by
        unfold process_unit_imports; exact hrun1
      rw [this]
      exact hrun2
    · rw [hm2, hm1]
    · rw [hf2, hf1]
    · rw [hu2, hu1]
    · rw [ht2, ht1]
    · intro q hq
      rw [hsplit, List.mem_append, not_or] at hq
      rw [hout2 q hq.2, hout1 q hq.1]
    · intro v hv j hj
      by_cases hvU : v ∈ U
      · exact hin2 v hvU j hj
      · have hvu : v = u := by
          rcases List.mem_cons.1 hv with h | h
          · exact h
          · exact absurd h hvU
        subst hvu
        have hmem : (s0.units v).imports.getD j 0 ∈ (s0.units v).imports := by
          rw [List.getD_eq_getElem _ 0 hj]; exact List.getElem_mem hj
        rw [hout2 _ (fun h => hdisj hmem h)]
        exact hin1 j hj
    · rw [herr2, herr1, List.map_cons, List.sum_cons, Nat.add_assoc]
    · rw [hdiag2, hdiag1, List.flatMap_cons, List.append_assoc]

/-- The import pass in closed form: on a pending module it runs to the end,
touches only the import declarations, and leaves each of them as
`import_result` says. -/
theorem process_imports_closed_form (s : SemaState) (module : ModuleRef)
    (h : ImportsPending s module) :
    ∃ s', sema_analysis_pass_process_imports module s = Except.ok s' ∧
      s'.modules = s.modules ∧ s'.find_module = s.find_module ∧ s'.units = s.units ∧
      s'.trace = s.trace ∧
      (∀ q, q ∉ all_imports s module → s'.decls q = s.decls q) ∧
      (∀ u ∈ (s.modules module).units, ∀ j, j < (s.units u).imports.length →
        s'.decls ((s.units u).imports.getD j 0)
          = import_result s module ((s.units u).imports.take j)
              (s.decls ((s.units u).imports.getD j 0))) ∧
      s'.errors_found = s.errors_found
        + ((s.modules module).units.map (fun u => unit_errors s module (s.units u).imports
            (s.units u).imports.length)).sum ∧
      s'.diagnostics = s.diagnostics
        ++ (s.modules module).units.flatMap (fun u => unit_messages s module
            (s.units u).imports (s.units u).imports.length) :=
  process_units_imports s module (s.modules module).units s rfl rfl rfl h.1
    (fun _ _ => rfl) h.2

/-! ## Properties of the import pass -/

theorem mem_exists_getD {L : List DeclRef} {p : DeclRef} (h : p ∈ L) :
    ∃ j, j < L.length ∧ L.getD j 0 = p := by
  obtain ⟨j, hj, hp⟩ := List.mem_iff_getElem.1 h
  exact ⟨j, hj, by rw [List.getD_eq_getElem L 0 hj]; exact hp⟩

theorem import_lookup_not_found (s : SemaState) (module : ModuleRef) (d : Decl)
    (h : s.find_module d.import_path = none) :
    import_lookup s module d = Except.error Message.no_module_found := by
  unfold import_lookup; rw [h]

theorem import_lookup_self (s : SemaState) (module : ModuleRef) (d : Decl)
    (h : s.find_module d.import_path = some module) :
    import_lookup s module d = Except.error Message.importing_current_module := by
  unfold import_lookup; rw [h]; simp

theorem import_lookup_private (s : SemaState) (module : ModuleRef) (d : Decl) (m : ModuleRef)
    (h : s.find_module d.import_path = some m) (hm : m ≠ module)
    (hpriv : (s.modules m).is_private = true) (hq : d.import_private = false) :
    import_lookup s module d = Except.error Message.importing_private_module := by
  unfold import_lookup; rw [h]; simp [hm, hpriv, hq]

theorem import_lookup_ok (s : SemaState) (module : ModuleRef) (d : Decl) (m : ModuleRef)
    (h : s.find_module d.import_path = some m) (hm : m ≠ module)
    (hpriv : (s.modules m).is_private = false ∨ d.import_private = true) :
    import_lookup s module d = Except.ok m := by
  unfold import_lookup; rw [h]
  rcases hpriv with hp | hp <;> simp [hm, hp]

theorem import_lookup_ok_inv (s : SemaState) (module : ModuleRef) (d : Decl) (m : ModuleRef)
    (h : import_lookup s module d = Except.ok m) :
    s.find_module d.import_path = some m ∧ m ≠ module ∧
      ((s.modules m).is_private = false ∨ d.import_private = true) := by
  unfold import_lookup at h
  cases hf : s.find_module d.import_path with
  | none => rw [hf] at h; simp at h
  | some m' =>
    rw [hf] at h
    by_cases hself : m' = module
    · simp [hself] at h
    · by_cases hp : ((s.modules m').is_private && !d.import_private) = true
      · simp [hself, hp] at h
      · simp only [hself, hp, if_false] at h
        have hmm : m' = m := by injection h
        subst hmm
        refine ⟨rfl, hself, ?_⟩
        cases h1 : (s.modules m').is_private <;> cases h2 : d.import_private <;> simp_all

theorem import_result_of_error (s : SemaState) (module : ModuleRef) (earlier : List DeclRef)
    (d : Decl) (e : Message) (h : import_lookup s module d = Except.error e) :
    import_result s module earlier d
      = { d with resolve_status := RESOLVE_RUNNING, poisoned := true } := by
  unfold import_result; rw [h]

theorem import_result_of_duplicate (s : SemaState) (module : ModuleRef)
    (earlier : List DeclRef) (d : Decl) (m : ModuleRef) (q : DeclRef)
    (h : import_lookup s module d = Except.ok m)
    (hd : import_duplicate s module earlier m = some q) :
    import_result s module earlier d
      = { d with resolve_status := RESOLVE_RUNNING, module := some m, poisoned := true } := by
  unfold import_result; rw [h]; simp only []; rw [hd]

theorem import_result_of_fresh (s : SemaState) (module : ModuleRef)
    (earlier : List DeclRef) (d : Decl) (m : ModuleRef)
    (h : import_lookup s module d = Except.ok m)
    (hd : import_duplicate s module earlier m = none) :
    import_result s module earlier d
      = { d with resolve_status := RESOLVE_RUNNING, module := some m } := by
  unfold import_result; rw [h]; simp only []; rw [hd]

/-- C1. For every import of every unit of a pending module, the import pass
poisons the import and leaves its module reference as it was when the registry
lookup finds no module, finds the owning module, or finds a private module
while the import lacks the private qualifier; in every other case the module
reference is bound to exactly the module the lookup returned. -/
theorem process_imports_poisons_or_binds (s : SemaState) (module : ModuleRef)
    (h : ImportsPending s module) :
    ∃ s', sema_analysis_pass_process_imports module s = Except.ok s' ∧
      ∀ u ∈ (s.modules module).units, ∀ p ∈ (s.units u).imports,
        ((s.find_module (s.decls p).import_path = none ∨
          s.find_module (s.decls p).import_path = some module ∨
          (∃ m, s.find_module (s.decls p).import_path = some m ∧
            (s.modules m).is_private = true ∧ (s.decls p).import_private = false)) →
          (s'.decls p).poisoned = true ∧ (s'.decls p).module = (s.decls p).module) ∧
        (¬ (s.find_module (s.decls p).import_path = none ∨
          s.find_module (s.decls p).import_path = some module ∨
          (∃ m, s.find_module (s.decls p).import_path = some m ∧
            (s.modules m).is_private = true ∧ (s.decls p).import_private = false)) →
          (s'.decls p).module = s.find_module (s.decls p).import_path) := by
  obtain ⟨s', hrun, -, -, -, -, -, hin, -, -⟩ := process_imports_closed_form s module h
  refine ⟨s', hrun, ?_⟩
  intro u hu p hp
  obtain ⟨j, hj, hpj⟩ := mem_exists_getD hp
  have hres := hin u hu j hj
  rw [hpj] at hres
  constructor
  · intro hrej
    have herr : ∃ e, import_lookup s module (s.decls p) = Except.error e := by
      rcases hrej with h1 | h1 | ⟨m, h1, h2, h3⟩
      · exact ⟨_, import_lookup_not_found s module _ h1⟩
      · exact ⟨_, import_lookup_self s module _ h1⟩
      · by_cases hm : m = module
        · exact ⟨_, import_lookup_self s module _ (hm ▸ h1)⟩
        · exact ⟨_, import_lookup_private s module _ m h1 hm h2 h3⟩
    obtain ⟨e, he⟩ := herr
    rw [hres, import_result_of_error s module _ _ e he]
    exact ⟨rfl, rfl⟩
  · intro hacc
    rw [hres, import_result_module, import_target]
    cases hl : import_lookup s module (s.decls p) with
    | ok m => exact ((import_lookup_ok_inv s module _ m hl).1).symm
    | error e =>
      exfalso
      apply hacc
      cases hf : s.find_module (s.decls p).import_path with
      | none => exact Or.inl rfl
      | some m =>
        by_cases hm : m = module
        · exact Or.inr (Or.inl (by rw [hm]))
        · right; right
          refine ⟨m, rfl, ?_⟩
          cases h1 : (s.modules m).is_private <;> cases h2 : (s.decls p).import_private
          · rw [import_lookup_ok s module _ m hf hm (Or.inl h1)] at hl; cases hl
          · rw [import_lookup_ok s module _ m hf hm (Or.inl h1)] at hl; cases hl
          · exact ⟨rfl, rfl⟩
          · rw [import_lookup_ok s module _ m hf hm (Or.inr h2)] at hl; cases hl

theorem import_messages_anchor (s : SemaState) (module : ModuleRef) (earlier : List DeclRef)
    (p a : DeclRef) (msg : Message)
    (h : Diagnostic.error a msg ∈ import_messages s module earlier p) : a = p := by
  unfold import_messages at h
  cases hl : import_lookup s module (s.decls p) with
  | error e => rw [hl] at h; simp at h; exact h.1
  | ok m =>
    rw [hl] at h
    simp only [] at h
    cases hd : import_duplicate s module earlier m with
    | none => rw [hd] at h; simp at h
    | some q => rw [hd] at h; simp at h; exact h.1

theorem unit_messages_anchor (s : SemaState) (module : ModuleRef) (L : List DeclRef) (n : Nat)
    (a : DeclRef) (msg : Message) (h : Diagnostic.error a msg ∈ unit_messages s module L n) :
    ∃ j, j < n ∧ a = L.getD j 0 := by
  unfold unit_messages at h
  obtain ⟨j, hj, hmem⟩ := List.mem_flatMap.1 h
  exact ⟨j, List.mem_range.1 hj, import_messages_anchor s module _ _ a msg hmem⟩

theorem unit_messages_split (s : SemaState) (module : ModuleRef) (L : List DeclRef)
    (i n : Nat) (hi : i < n) :
    ∃ B, unit_messages s module L n
        = unit_messages s module L i ++ import_messages s module (L.take i) (L.getD i 0) ++ B ∧
      ∀ a msg, Diagnostic.error a msg ∈ B → ∃ j, i < j ∧ j < n ∧ a = L.getD j 0 := by
  refine ⟨(List.range' (i + 1) (n - (i + 1))).flatMap
      (fun j => import_messages s module (L.take j) (L.getD j 0)), ?_, ?_⟩
  · unfold unit_messages
    have hr : List.range n = List.range i ++ (i :: List.range' (i + 1) (n - (i + 1))) := by
      rw [List.range_eq_range', List.range_eq_range', ← List.range'_succ,
        show List.range' i (n - (i + 1) + 1) 1 = List.range' (0 + 1 * i) (n - (i + 1) + 1) 1 by simp,
        List.range'_append]
      congr 1; omega
    rw [hr, List.flatMap_append, List.flatMap_cons, List.append_assoc]
  · intro a msg h
    obtain ⟨j, hj, hmem⟩ := List.mem_flatMap.1 h
    have hj' := List.mem_range'_1.1 hj
    exact ⟨j, by omega, by omega, import_messages_anchor s module _ _ a msg hmem⟩

theorem units_messages_anchor (s : SemaState) (module : ModuleRef) (U : List UnitRef)
    (a : DeclRef) (msg : Message)
    (h : Diagnostic.error a msg ∈ U.flatMap (fun u => unit_messages s module
        (s.units u).imports (s.units u).imports.length)) :
    a ∈ imports_of_units s U := by
  obtain ⟨u, hu, hmem⟩ := List.mem_flatMap.1 h
  obtain ⟨j, hj, ha⟩ := unit_messages_anchor s module _ _ a msg hmem
  unfold imports_of_units
  refine List.mem_flatMap.2 ⟨u, hu, ?_⟩
  rw [ha, List.getD_eq_getElem _ 0 hj]
  exact List.getElem_mem hj

theorem units_split (s : SemaState) (U : List UnitRef) (u : UnitRef) (hu : u ∈ U)
    (hnd : (imports_of_units s U).Nodup) :
    ∃ U1 U2, U = U1 ++ u :: U2 ∧ (s.units u).imports.Nodup ∧
      ∀ p ∈ (s.units u).imports, p ∉ imports_of_units s U1 ∧ p ∉ imports_of_units s U2 := by
  obtain ⟨U1, U2, hU⟩ := List.append_of_mem hu
  refine ⟨U1, U2, hU, ?_⟩
  have hs : imports_of_units s U
      = imports_of_units s U1 ++ ((s.units u).imports ++ imports_of_units s U2) := by
    rw [hU]; simp [imports_of_units]
  rw [hs] at hnd
  obtain ⟨_, h2, h3⟩ := List.nodup_append.1 hnd
  obtain ⟨h4, _, h6⟩ := List.nodup_append.1 h2
  refine ⟨h4, fun p hp => ⟨fun h => h3 h (List.mem_append_left _ hp), fun h => h6 hp h⟩⟩

/-- An import that starts unbound ends up holding `M` exactly when its path
resolves to `M`, provided `M` passes the self and privacy checks for it. -/
theorem import_target_eq_iff (s : SemaState) (module M : ModuleRef) (hM : M ≠ module)
    (d : Decl) (hmod : d.module = none)
    (hgate : s.find_module d.import_path = some M →
      (s.modules M).is_private = false ∨ d.import_private = true) :
    some M = import_target s module d ↔ s.find_module d.import_path = some M := by
  unfold import_target
  cases hl : import_lookup s module d with
  | ok m =>
    have hinv := (import_lookup_ok_inv s module d m hl).1
    simp only []
    rw [hinv]
    exact eq_comm
  | error e =>
    simp only [hmod]
    constructor
    · intro h; cases h
    · intro h
      rw [import_lookup_ok s module d M h hM (hgate h)] at hl
      cases hl

/-- Among the first `n` imports of a unit whose imports start unbound, the first
one that ends up holding `M` is the first one whose path resolves to `M`. -/
theorem import_duplicate_first (s : SemaState) (module M : ModuleRef) (hM : M ≠ module)
    (L : List DeclRef)
    (hunbound : ∀ p ∈ L, (s.decls p).module = none)
    (hgate : ∀ p ∈ L, s.find_module (s.decls p).import_path = some M →
      (s.modules M).is_private = false ∨ (s.decls p).import_private = true)
    (i0 : Nat) (hi0 : i0 < L.length)
    (hfirst : s.find_module (s.decls (L.getD i0 0)).import_path = some M)
    (hmin : ∀ j, j < i0 → s.find_module (s.decls (L.getD j 0)).import_path ≠ some M)
    (n : Nat) :
    import_duplicate s module (L.take n) M = if i0 < n then some (L.getD i0 0) else none := by
  have hiff : ∀ p ∈ L, (decide (some M = import_target s module (s.decls p)) = true
      ↔ s.find_module (s.decls p).import_path = some M) := by
    intro p hp
    rw [decide_eq_true_iff]
    exact import_target_eq_iff s module M hM _ (hunbound p hp) (hgate p hp)
  have hmem0 : L.getD i0 0 ∈ L := by
    rw [List.getD_eq_getElem _ 0 hi0]; exact List.getElem_mem hi0
  unfold import_duplicate
  by_cases hn : i0 < n
  · rw [if_pos hn, List.find?_eq_some]
    refine ⟨(hiff _ hmem0).2 hfirst, L.take i0, (L.take n).drop (i0 + 1), ?_, ?_⟩
    · have h1 : i0 < (L.take n).length := by simp; omega
      have h2 := List.take_append_drop i0 (L.take n)
      rw [List.drop_eq_getElem_cons h1] at h2
      rw [List.take_take, min_eq_left (by omega)] at h2
      rw [List.getD_eq_getElem _ 0 hi0]
      simpa using h2.symm
    · intro a ha
      obtain ⟨j, hj, _, haj⟩ := mem_take_getD ha
      have hne := hmin j hj
      rw [haj] at hne
      have hnot : ¬ (decide (some M = import_target s module (s.decls a)) = true) :=
        fun h => hne ((hiff a (List.mem_of_mem_take ha)).1 h)
      simpa using hnot
  · rw [if_neg hn, List.find?_eq_none]
    intro a ha
    obtain ⟨j, hj, _, haj⟩ := mem_take_getD ha
    have hne := hmin j (by omega)
    rw [haj] at hne
    exact fun h => hne ((hiff a (List.mem_of_mem_take ha)).1 h)

theorem import_messages_of_target (s : SemaState) (module M : ModuleRef) (hM : M ≠ module)
    (L : List DeclRef)
    (hunbound : ∀ p ∈ L, (s.decls p).module = none)
    (hgate : ∀ p ∈ L, s.find_module (s.decls p).import_path = some M →
      (s.modules M).is_private = false ∨ (s.decls p).import_private = true)
    (i0 : Nat) (hi0 : i0 < L.length)
    (hfirst : s.find_module (s.decls (L.getD i0 0)).import_path = some M)
    (hmin : ∀ j, j < i0 → s.find_module (s.decls (L.getD j 0)).import_path ≠ some M)
    (n : Nat) (hn : n < L.length)
    (htgt : s.find_module (s.decls (L.getD n 0)).import_path = some M) :
    import_messages s module (L.take n) (L.getD n 0)
      = if i0 < n then
          [Diagnostic.error (L.getD n 0) Message.imported_more_than_once,
           Diagnostic.previous (L.getD i0 0)]
        else [] := by
  have hmem : L.getD n 0 ∈ L := by
    rw [List.getD_eq_getElem _ 0 hn]; exact List.getElem_mem hn
  unfold import_messages
  rw [import_lookup_ok s module _ M htgt hM (hgate _ hmem htgt)]
  simp only []
  rw [import_duplicate_first s module M hM L hunbound hgate i0 hi0 hfirst hmin n]
  by_cases h : i0 < n <;> simp [h]

theorem count_import_messages (s : SemaState) (module M : ModuleRef) (hM : M ≠ module)
    (L : List DeclRef)
    (hunbound : ∀ p ∈ L, (s.decls p).module = none)
    (hgate : ∀ p ∈ L, s.find_module (s.decls p).import_path = some M →
      (s.modules M).is_private = false ∨ (s.decls p).import_private = true)
    (i0 : Nat) (hi0 : i0 < L.length)
    (hfirst : s.find_module (s.decls (L.getD i0 0)).import_path = some M)
    (hmin : ∀ j, j < i0 → s.find_module (s.decls (L.getD j 0)).import_path ≠ some M)
    (n : Nat) (hn : n < L.length) :
    (import_messages s module (L.take n) (L.getD n 0)).countP (is_duplicate_error_for s L M)
      = if s.find_module (s.decls (L.getD n 0)).import_path = some M ∧ i0 < n then 1 else 0 := by
  have hmem : L.getD n 0 ∈ L := by
    rw [List.getD_eq_getElem _ 0 hn]; exact List.getElem_mem hn
  by_cases htgt : s.find_module (s.decls (L.getD n 0)).import_path = some M
  · rw [import_messages_of_target s module M hM L hunbound hgate i0 hi0 hfirst hmin n hn htgt]
    by_cases h : i0 < n
    · simp [-List.getD_eq_getElem?_getD, h, htgt, is_duplicate_error_for, hmem, List.countP_cons]
    · simp [h]
  · rw [if_neg (fun h => htgt h.1), List.countP_eq_zero]
    intro d hd
    cases d with
    | previous q => simp [is_duplicate_error_for]
    | error a msg =>
      have ha := import_messages_anchor s module _ _ a msg hd
      subst ha
      cases msg <;> simp [-List.getD_eq_getElem?_getD, is_duplicate_error_for, htgt]

theorem count_unit_messages (s : SemaState) (module M : ModuleRef) (hM : M ≠ module)
    (L : List DeclRef)
    (hunbound : ∀ p ∈ L, (s.decls p).module = none)
    (hgate : ∀ p ∈ L, s.find_module (s.decls p).import_path = some M →
      (s.modules M).is_private = false ∨ (s.decls p).import_private = true)
    (i0 : Nat) (hi0 : i0 < L.length)
    (hfirst : s.find_module (s.decls (L.getD i0 0)).import_path = some M)
    (hmin : ∀ j, j < i0 → s.find_module (s.decls (L.getD j 0)).import_path ≠ some M) :
    ∀ n, n ≤ L.length →
      (unit_messages s module L n).countP (is_duplicate_error_for s L M)
          + (if i0 < n then 1 else 0)
        = (L.take n).countP
            (fun p => decide (s.find_module (s.decls p).import_path = some M)) := by
  intro n
  induction n with
  | zero => intro _; simp [unit_messages]
  | succ n ih =>
    intro hn
    have hlt : n < L.length := by omega
    have hcnt := count_import_messages s module M hM L hunbound hgate i0 hi0 hfirst hmin n hlt
    have hum : unit_messages s module L (n + 1)
        = unit_messages s module L n ++ import_messages s module (L.take n) (L.getD n 0) := by
      simp [unit_messages, List.range_succ, List.flatMap_append]
    have htk : L.take (n + 1) = L.take n ++ [L.getD n 0] := by
      rw [List.take_succ, List.getElem?_eq_getElem hlt, List.getD_eq_getElem _ 0 hlt]; rfl
    rw [hum, htk, List.countP_append, List.countP_append, hcnt, ← ih (by omega),
      List.countP_singleton]
    by_cases htgt : s.find_module (s.decls (L.getD n 0)).import_path = some M
    · by_cases h1 : i0 < n
      · have h2 : i0 < n + 1 := by omega
        simp [-List.getD_eq_getElem?_getD, htgt, h1, h2]
      · have h3 : i0 = n := by
          by_contra hne
          exact hmin n (by omega) htgt
        subst h3
        simp [-List.getD_eq_getElem?_getD, htgt]
    · have hne : i0 ≠ n := fun h => htgt (h ▸ hfirst)
      by_cases h1 : i0 < n
      · have h2 : i0 < n + 1 := by omega
        simp [-List.getD_eq_getElem?_getD, htgt, h1, h2]
      · have h2 : ¬ i0 < n + 1 := by omega
        simp [-List.getD_eq_getElem?_getD, htgt, h1, h2]

theorem getD_ne_of_ne {L : List DeclRef} (hnd : L.Nodup) {i j : Nat} (hi : i < L.length)
    (hj : j < L.length) (hij : i ≠ j) : L.getD i 0 ≠ L.getD j 0 := by
  intro h
  rw [List.getD_eq_getElem _ 0 hi, List.getD_eq_getElem _ 0 hj] at h
  exact hij ((List.Nodup.getElem_inj_iff hnd).1 h)

theorem getD_mem {L : List DeclRef} {i : Nat} (hi : i < L.length) : L.getD i 0 ∈ L := by
  rw [List.getD_eq_getElem _ 0 hi]; exact List.getElem_mem hi

/-- C2. In a unit whose imports start unbound and unpoisoned, let `M` be a
module that passes the self and privacy checks for every import resolving to
it, first imported at index `i0`.  Then the pass leaves that first import
unpoisoned with no error anchored at it; every later import of `M` is poisoned
and has exactly one error anchored at it, the duplicate error, directly
followed by the note anchored at the first import; and the duplicate errors of
these imports number one less than the imports of `M`. -/
theorem duplicate_imports_flagged_against_first (s : SemaState) (module : ModuleRef)
    (h : ImportsPending s module) (u : UnitRef) (hu : u ∈ (s.modules module).units)
    (M : ModuleRef) (hM : M ≠ module)
    (hfresh : ∀ p ∈ (s.units u).imports,
      (s.decls p).poisoned = false ∧ (s.decls p).module = none)
    (hgate : ∀ p ∈ (s.units u).imports, s.find_module (s.decls p).import_path = some M →
      (s.modules M).is_private = false ∨ (s.decls p).import_private = true)
    (i0 : Nat) (hi0 : i0 < (s.units u).imports.length)
    (hfirst : s.find_module (s.decls ((s.units u).imports.getD i0 0)).import_path = some M)
    (hmin : ∀ j, j < i0 →
      s.find_module (s.decls ((s.units u).imports.getD j 0)).import_path ≠ some M) :
    ∃ s' new, sema_analysis_pass_process_imports module s = Except.ok s' ∧
      s'.diagnostics = s.diagnostics ++ new ∧
      (s'.decls ((s.units u).imports.getD i0 0)).poisoned = false ∧
      (∀ msg, Diagnostic.error ((s.units u).imports.getD i0 0) msg ∉ new) ∧
      (∀ i, i0 < i → i < (s.units u).imports.length →
        s.find_module (s.decls ((s.units u).imports.getD i 0)).import_path = some M →
        (s'.decls ((s.units u).imports.getD i 0)).poisoned = true ∧
        ∃ A B, new = A ++ [Diagnostic.error ((s.units u).imports.getD i 0)
                              Message.imported_more_than_once,
                           Diagnostic.previous ((s.units u).imports.getD i0 0)] ++ B ∧
          (∀ msg, Diagnostic.error ((s.units u).imports.getD i 0) msg ∉ A) ∧
          (∀ msg, Diagnostic.error ((s.units u).imports.getD i 0) msg ∉ B)) ∧
      new.countP (is_duplicate_error_for s (s.units u).imports M) + 1
        = ((s.units u).imports.filter
            (fun p => decide (s.find_module (s.decls p).import_path = some M))).length := by
  obtain ⟨s', hrun, -, -, -, -, -, hin, -, hdiag⟩ := process_imports_closed_form s module h
  obtain ⟨U1, U2, hU, hndL, hdisj⟩ := units_split s _ u hu h.1
  have hunbound : ∀ p ∈ (s.units u).imports, (s.decls p).module = none :=
    fun p hp => (hfresh p hp).2
  have hlook : ∀ i, i < (s.units u).imports.length →
      s.find_module (s.decls ((s.units u).imports.getD i 0)).import_path = some M →
      import_lookup s module (s.decls ((s.units u).imports.getD i 0)) = Except.ok M :=
    fun i hi ht => import_lookup_ok s module _ M ht hM (hgate _ (getD_mem hi) ht)
  have hdup := import_duplicate_first s module M hM _ hunbound hgate i0 hi0 hfirst hmin
  have hblk := import_messages_of_target s module M hM _ hunbound hgate i0 hi0 hfirst hmin
  -- the messages of the pass, split around the unit
  have hnew : (s.modules module).units.flatMap (fun u => unit_messages s module
        (s.units u).imports (s.units u).imports.length)
      = U1.flatMap (fun u => unit_messages s module (s.units u).imports
            (s.units u).imports.length)
        ++ unit_messages s module (s.units u).imports (s.units u).imports.length
        ++ U2.flatMap (fun u => unit_messages s module (s.units u).imports
            (s.units u).imports.length) := by
    rw [hU, List.flatMap_append, List.flatMap_cons, List.append_assoc]
  have hU1 : ∀ p ∈ (s.units u).imports, ∀ msg, Diagnostic.error p msg ∉
      U1.flatMap (fun u => unit_messages s module (s.units u).imports
        (s.units u).imports.length) :=
    fun p hp msg hmem => (hdisj p hp).1 (units_messages_anchor s module U1 p msg hmem)
  have hU2 : ∀ p ∈ (s.units u).imports, ∀ msg, Diagnostic.error p msg ∉
      U2.flatMap (fun u => unit_messages s module (s.units u).imports
        (s.units u).imports.length) :=
    fun p hp msg hmem => (hdisj p hp).2 (units_messages_anchor s module U2 p msg hmem)
  refine ⟨s', _, hrun, hdiag, ?_, ?_, ?_, ?_⟩
  · rw [hin u hu i0 hi0, import_result_of_fresh s module _ _ M (hlook i0 hi0 hfirst)
      (by rw [hdup i0]; simp)]
    exact (hfresh _ (getD_mem hi0)).1
  · intro msg hmem
    rw [hnew, List.mem_append, List.mem_append] at hmem
    rcases hmem with (hmem | hmem) | hmem
    · exact hU1 _ (getD_mem hi0) msg hmem
    · unfold unit_messages at hmem
      obtain ⟨j, hj, hmemj⟩ := List.mem_flatMap.1 hmem
      have hjl := List.mem_range.1 hj
      have ha := import_messages_anchor s module _ _ _ msg hmemj
      have hji : j = i0 := by
        by_contra hne
        exact getD_ne_of_ne hndL hi0 hjl (fun h => hne h.symm) ha
      subst hji
      rw [hblk j hjl hfirst] at hmemj
      simp at hmemj
    · exact hU2 _ (getD_mem hi0) msg hmem
  · intro i hi0i hi htgt
    constructor
    · rw [hin u hu i hi, import_result_of_duplicate s module _ _ M ((s.units u).imports.getD i0 0)
        (hlook i hi htgt) (by rw [hdup i]; simp [hi0i])]
    · obtain ⟨B, hsplit, hB⟩ := unit_messages_split s module (s.units u).imports i _ hi
      refine ⟨U1.flatMap (fun u => unit_messages s module (s.units u).imports
            (s.units u).imports.length) ++ unit_messages s module (s.units u).imports i,
          B ++ U2.flatMap (fun u => unit_messages s module (s.units u).imports
            (s.units u).imports.length), ?_, ?_, ?_⟩
      · rw [hnew, hsplit, hblk i hi htgt, if_pos hi0i]
        simp only [List.append_assoc]
      · intro msg hmem
        rcases List.mem_append.1 hmem with hmem | hmem
        · exact hU1 _ (getD_mem hi) msg hmem
        · obtain ⟨j, hj, ha⟩ := unit_messages_anchor s module _ _ _ msg hmem
          exact getD_ne_of_ne hndL hi (by omega) (by omega) ha
      · intro msg hmem
        rcases List.mem_append.1 hmem with hmem | hmem
        · obtain ⟨j, hij, hj, ha⟩ := hB _ msg hmem
          exact getD_ne_of_ne hndL hi hj (by omega) ha
        · exact hU2 _ (getD_mem hi) msg hmem
  · have hzero : ∀ (U' : List UnitRef),
        (∀ p ∈ (s.units u).imports, ∀ msg, Diagnostic.error p msg ∉
          U'.flatMap (fun u => unit_messages s module (s.units u).imports
            (s.units u).imports.length)) →
        (U'.flatMap (fun u => unit_messages s module (s.units u).imports
            (s.units u).imports.length)).countP
          (is_duplicate_error_for s (s.units u).imports M) = 0 := by
      intro U' hU'
      rw [List.countP_eq_zero]
      intro d hd
      cases d with
      | previous q => simp [is_duplicate_error_for]
      | error a msg =>
        have hnot : a ∉ (s.units u).imports := fun ha => hU' a ha msg hd
        cases msg <;> simp [is_duplicate_error_for, hnot]
    rw [hnew, List.countP_append, List.countP_append, hzero U1 hU1, hzero U2 hU2,
      ← List.countP_eq_length_filter]
    have hc := count_unit_messages s module M hM _ hunbound hgate i0 hi0 hfirst hmin
      (s.units u).imports.length (Nat.le_refl _)
    rw [if_pos hi0, List.take_length] at hc
    omega

/-- C1 on the example `demo_imports`: the unqualified import of the private
module is poisoned and stays unbound, the qualified one is bound. -/
theorem process_imports_poisons_or_binds_witness :
    ImportsPending demo_imports 0 ∧
    ∃ s', sema_analysis_pass_process_imports 0 demo_imports = Except.ok s' ∧
      (s'.decls 12).poisoned = true ∧ (s'.decls 12).module = none ∧
      (s'.decls 13).module = some 2 := by
  refine ⟨by decide, ?_⟩
  obtain ⟨s', hrun, hall⟩ := process_imports_poisons_or_binds demo_imports 0 (by decide)
  have h12 := (hall 0 (by decide) 12 (by decide)).1
    (Or.inr (Or.inr ⟨2, by decide, by decide, by decide⟩))
  have h13 := (hall 0 (by decide) 13 (by decide)).2 (by decide)
  exact ⟨s', hrun, h12.1, h12.2, h13⟩

/-- C2 on the example `demo_imports`: module `1` is imported three times in
unit `0`, and two duplicate errors are reported. -/
theorem duplicate_imports_flagged_against_first_witness :
    ∃ s' new, sema_analysis_pass_process_imports 0 demo_imports = Except.ok s' ∧
      s'.diagnostics = demo_imports.diagnostics ++ new ∧
      (s'.decls 10).poisoned = false ∧
      new.countP (is_duplicate_error_for demo_imports [10, 11, 12, 13, 14, 15, 16] 1) + 1
        = 3 := by
  obtain ⟨s', new, hrun, hd, hp, -, -, hc⟩ :=
    duplicate_imports_flagged_against_first demo_imports 0 (by decide) 0 (by decide) 1
      (by decide) (by decide) (by decide) 0 (by decide) (by decide) (by decide)
  exact ⟨s', new, hrun, hd, hp, hc⟩

/-- The errors of the pass anchored at an import are those of its own block. -/
theorem error_mem_messages_iff (s : SemaState) (module : ModuleRef)
    (h : (all_imports s module).Nodup) (u : UnitRef) (hu : u ∈ (s.modules module).units)
    (j : Nat) (hj : j < (s.units u).imports.length) (msg : Message) :
    Diagnostic.error ((s.units u).imports.getD j 0) msg ∈
        (s.modules module).units.flatMap (fun u => unit_messages s module
          (s.units u).imports (s.units u).imports.length)
      ↔ Diagnostic.error ((s.units u).imports.getD j 0) msg ∈
        import_messages s module ((s.units u).imports.take j)
          ((s.units u).imports.getD j 0) := by
  constructor
  · intro hmem
    obtain ⟨U1, U2, hU, hndL, hdisj⟩ := units_split s _ u hu h
    rw [hU, List.flatMap_append, List.flatMap_cons, List.mem_append, List.mem_append] at hmem
    rcases hmem with hmem | hmem | hmem
    · exact absurd (units_messages_anchor s module U1 _ msg hmem) (hdisj _ (getD_mem hj)).1
    · unfold unit_messages at hmem
      obtain ⟨k, hk, hmemk⟩ := List.mem_flatMap.1 hmem
      have hkl := List.mem_range.1 hk
      have ha := import_messages_anchor s module _ _ _ msg hmemk
      have hjk : j = k := by
        by_contra hne
        exact getD_ne_of_ne hndL hj hkl hne ha
      subst hjk
      exact hmemk
    · exact absurd (units_messages_anchor s module U2 _ msg hmem) (hdisj _ (getD_mem hj)).2
  · intro hmem
    refine List.mem_flatMap.2 ⟨u, hu, ?_⟩
    unfold unit_messages
    exact List.mem_flatMap.2 ⟨j, List.mem_range.2 hj, hmem⟩

theorem import_result_import_private (s : SemaState) (module : ModuleRef)
    (earlier : List DeclRef) (d : Decl) :
    (import_result s module earlier d).import_private = d.import_private := by
  unfold import_result
  cases import_lookup s module d with
  | error e => rfl
  | ok m => simp only []; cases import_duplicate s module earlier m <;> rfl

/-- C3, the claim refuted: in `demo_imports` the second import of unit `0`
resolves to module `1` like the first, and after the pass both hold `1`. -/
theorem duplicate_import_keeps_its_reference :
    ∃ s', sema_analysis_pass_process_imports 0 demo_imports = Except.ok s' ∧
      (s'.units 0).imports.take 2 = [10, 11] ∧
      (s'.decls 10).module = some 1 ∧ (s'.decls 11).module = some 1 :=
  ⟨_, rfl, by decide, by decide, by decide⟩

/-- C3, amended. After the pass on a pending module whose imports start
unbound, whenever an import holds a module reference `M`: if the import is not
poisoned, no earlier import of the same unit holds `M`; `M` is not the owning
module; and if `M` is private the import carries the private qualifier. -/
theorem bound_imports_respect_invariant (s : SemaState) (module : ModuleRef)
    (h : ImportsPending s module)
    (hunbound : ∀ p ∈ all_imports s module, (s.decls p).module = none) :
    ∃ s', sema_analysis_pass_process_imports module s = Except.ok s' ∧
      ∀ u ∈ (s'.modules module).units, ∀ i, i < (s'.units u).imports.length →
        ∀ M, (s'.decls ((s'.units u).imports.getD i 0)).module = some M →
          ((s'.decls ((s'.units u).imports.getD i 0)).poisoned = false →
            ∀ j, j < i → (s'.decls ((s'.units u).imports.getD j 0)).module ≠ some M) ∧
          M ≠ module ∧
          ((s'.modules M).is_private = true →
            (s'.decls ((s'.units u).imports.getD i 0)).import_private = true) := by
  obtain ⟨s', hrun, hmods, -, hunits, -, -, hin, -, -⟩ := process_imports_closed_form s module h
  refine ⟨s', hrun, ?_⟩
  rw [hmods, hunits]
  intro u hu i hi M hM
  have hmemall : (s.units u).imports.getD i 0 ∈ all_imports s module :=
    List.mem_flatMap.2 ⟨u, hu, getD_mem hi⟩
  rw [hin u hu i hi] at hM ⊢
  rw [import_result_import_private]
  cases hl : import_lookup s module (s.decls ((s.units u).imports.getD i 0)) with
  | error e =>
    rw [import_result_module, import_target, hl] at hM
    simp only [hunbound _ hmemall] at hM
    cases hM
  | ok m =>
    have hmM : m = M := by
      rw [import_result_module, import_target, hl] at hM
      simpa using hM
    subst hmM
    obtain ⟨-, hself, hpriv⟩ := import_lookup_ok_inv s module _ m hl
    refine ⟨?_, hself, ?_⟩
    · intro hnp j hj
      cases hd : import_duplicate s module ((s.units u).imports.take i) m with
      | some q =>
        rw [import_result_of_duplicate s module _ _ m q hl hd] at hnp
        cases hnp
      | none =>
        unfold import_duplicate at hd
        rw [List.find?_eq_none] at hd
        have hjl : j < (s.units u).imports.length := by omega
        have hmem : (s.units u).imports.getD j 0 ∈ (s.units u).imports.take i := by
          rw [List.getD_eq_getElem _ 0 hjl, List.mem_take_iff_getElem]
          exact ⟨j, by simp; omega, rfl⟩
        have := hd _ hmem
        rw [hin u hu j hjl, import_result_module]
        intro heq
        apply this
        rw [decide_eq_true_iff, heq]
    · intro hp
      rcases hpriv with h1 | h1
      · rw [h1] at hp; cases hp
      · exact h1

/-- C3 as amended, on the example `demo_imports`: the import bound to the
private module carries the qualifier. -/
theorem bound_imports_respect_invariant_witness :
    ∃ s', sema_analysis_pass_process_imports 0 demo_imports = Except.ok s' ∧
      (s'.decls 13).module = some 2 ∧ (s'.decls 13).import_private = true := by
  obtain ⟨s', hrun, hall⟩ := bound_imports_respect_invariant demo_imports 0
    (by decide) (by decide)
  have hs : s' = (match sema_analysis_pass_process_imports 0 demo_imports with
      | Except.ok t => t | Except.error _ => demo_imports) := by rw [hrun]
  have hm : (s'.decls 13).module = some 2 := by rw [hs]; decide
  have hu : (s'.units 0).imports = [10, 11, 12, 13, 14, 15, 16] := by rw [hs]; decide
  have hp : (s'.modules 2).is_private = true := by rw [hs]; decide
  have hmods : (s'.modules 0).units = [0, 1] := by rw [hs]; decide
  have := hall 0 (by rw [hmods]; decide) 3 (by rw [hu]; decide) 2 (by rw [hu]; exact hm)
  rw [hu] at this
  exact ⟨s', hrun, hm, this.2.2 hp⟩

theorem import_messages_of_error (s : SemaState) (module : ModuleRef) (earlier : List DeclRef)
    (p : DeclRef) (e : Message) (h : import_lookup s module (s.decls p) = Except.error e) :
    import_messages s module earlier p = [Diagnostic.error p e] := by
  unfold import_messages; rw [h]

/-- An error anchored at an import means the import ends up poisoned. -/
theorem import_result_poisoned_of_error (s : SemaState) (module : ModuleRef)
    (earlier : List DeclRef) (p : DeclRef) (msg : Message)
    (h : Diagnostic.error p msg ∈ import_messages s module earlier p) :
    (import_result s module earlier (s.decls p)).poisoned = true := by
  unfold import_messages at h
  unfold import_result
  cases hl : import_lookup s module (s.decls p) with
  | error e => rfl
  | ok m =>
    rw [hl] at h
    simp only [] at h ⊢
    cases hd : import_duplicate s module earlier m with
    | none => rw [hd] at h; simp at h
    | some q => rfl

/-- C4, the claim refuted: in `demo_imports` the first import of unit `0` is
resolved successfully, yet its status after the pass is not `RESOLVE_DONE`. -/
theorem resolved_import_is_not_marked_done :
    ∃ s', sema_analysis_pass_process_imports 0 demo_imports = Except.ok s' ∧
      (s'.decls 10).poisoned = false ∧ (s'.decls 10).module = some 1 ∧
      (s'.decls 10).resolve_status ≠ RESOLVE_DONE :=
  ⟨_, rfl, by decide, by decide, by decide⟩

/-- C4, amended. On a pending module (every import `RESOLVE_NOT_DONE`, so the
assertion holds) the pass runs to the end; afterwards every import that is not
poisoned has status `RESOLVE_RUNNING`, and every import with an error anchored
at it is poisoned. -/
theorem resolved_imports_stay_running (s : SemaState) (module : ModuleRef)
    (h : ImportsPending s module) :
    ∃ s' new, sema_analysis_pass_process_imports module s = Except.ok s' ∧
      s'.diagnostics = s.diagnostics ++ new ∧
      ∀ u ∈ (s.modules module).units, ∀ p ∈ (s.units u).imports,
        ((s'.decls p).poisoned = false → (s'.decls p).resolve_status = RESOLVE_RUNNING) ∧
        ((∃ msg, Diagnostic.error p msg ∈ new) → (s'.decls p).poisoned = true) := by
  obtain ⟨s', hrun, -, -, -, -, -, hin, -, hdiag⟩ := process_imports_closed_form s module h
  refine ⟨s', _, hrun, hdiag, ?_⟩
  intro u hu p hp
  obtain ⟨j, hj, hpj⟩ := mem_exists_getD hp
  subst hpj
  rw [hin u hu j hj]
  refine ⟨fun _ => import_result_status s module _ _, ?_⟩
  rintro ⟨msg, hmsg⟩
  rw [error_mem_messages_iff s module h.1 u hu j hj] at hmsg
  exact import_result_poisoned_of_error s module _ _ msg hmsg

/-- C4 as amended, on the example `demo_imports`. -/
theorem resolved_imports_stay_running_witness :
    ∃ s' new, sema_analysis_pass_process_imports 0 demo_imports = Except.ok s' ∧
      s'.diagnostics = demo_imports.diagnostics ++ new ∧
      ((s'.decls 10).poisoned = false → (s'.decls 10).resolve_status = RESOLVE_RUNNING) := by
  obtain ⟨s', new, hrun, hd, hall⟩ := resolved_imports_stay_running demo_imports 0 (by decide)
  exact ⟨s', new, hrun, hd, (hall 0 (by decide) 10 (by decide)).1⟩

/-- C5. In a pending module, an import whose path the registry resolves to
the owning module gets the self-import error and no other error, is poisoned,
and keeps the module reference it had, whatever the other imports of the unit
are and whatever the visibility of the module or the qualifier of the import. -/
theorem self_import_always_rejected (s : SemaState) (module : ModuleRef)
    (h : ImportsPending s module) (u : UnitRef) (hu : u ∈ (s.modules module).units)
    (p : DeclRef) (hp : p ∈ (s.units u).imports)
    (hself : s.find_module (s.decls p).import_path = some module) :
    ∃ s' new, sema_analysis_pass_process_imports module s = Except.ok s' ∧
      s'.diagnostics = s.diagnostics ++ new ∧
      Diagnostic.error p Message.importing_current_module ∈ new ∧
      (∀ msg, Diagnostic.error p msg ∈ new → msg = Message.importing_current_module) ∧
      (s'.decls p).poisoned = true ∧ (s'.decls p).module = (s.decls p).module := by
  obtain ⟨s', hrun, -, -, -, -, -, hin, -, hdiag⟩ := process_imports_closed_form s module h
  obtain ⟨j, hj, hpj⟩ := mem_exists_getD hp
  subst hpj
  have hl := import_lookup_self s module _ hself
  refine ⟨s', _, hrun, hdiag, ?_, ?_, ?_, ?_⟩
  · rw [error_mem_messages_iff s module h.1 u hu j hj, import_messages_of_error s module _ _ _ hl]
    exact List.mem_singleton.2 rfl
  · intro msg hmsg
    rw [error_mem_messages_iff s module h.1 u hu j hj,
      import_messages_of_error s module _ _ _ hl] at hmsg
    have := List.mem_singleton.1 hmsg
    injection this with _ h2
  · rw [hin u hu j hj, import_result_of_error s module _ _ _ hl]
  · rw [hin u hu j hj, import_result_of_error s module _ _ _ hl]

/-- C5 on the example `demo_imports`: import `14` names the owning module. -/
theorem self_import_always_rejected_witness :
    ∃ s' new, sema_analysis_pass_process_imports 0 demo_imports = Except.ok s' ∧
      s'.diagnostics = demo_imports.diagnostics ++ new ∧
      Diagnostic.error 14 Message.importing_current_module ∈ new ∧
      (s'.decls 14).poisoned = true := by
  obtain ⟨s', new, hrun, hd, hmem, -, hp, -⟩ :=
    self_import_always_rejected demo_imports 0 (by decide) 0 (by decide) 14 (by decide)
      (by decide)
  exact ⟨s', new, hrun, hd, hmem, hp⟩

/-- C6. In a pending module, let an import resolve to a private module `P`
other than the owning module.  Without the private qualifier it gets the
private-module error, is poisoned and keeps the module reference it had.  With
the qualifier, if it starts unpoisoned and no earlier import of the unit ends
up bound to `P`, it is bound to `P` and is not poisoned. -/
theorem private_import_needs_qualifier (s : SemaState) (module : ModuleRef)
    (h : ImportsPending s module) (u : UnitRef) (hu : u ∈ (s.modules module).units)
    (i : Nat) (hi : i < (s.units u).imports.length) (P : ModuleRef)
    (hP : s.find_module (s.decls ((s.units u).imports.getD i 0)).import_path = some P)
    (hne : P ≠ module) (hpriv : (s.modules P).is_private = true) :
    ∃ s' new, sema_analysis_pass_process_imports module s = Except.ok s' ∧
      s'.diagnostics = s.diagnostics ++ new ∧
      ((s.decls ((s.units u).imports.getD i 0)).import_private = false →
        Diagnostic.error ((s.units u).imports.getD i 0) Message.importing_private_module
          ∈ new ∧
        (s'.decls ((s.units u).imports.getD i 0)).poisoned = true ∧
        (s'.decls ((s.units u).imports.getD i 0)).module
          = (s.decls ((s.units u).imports.getD i 0)).module) ∧
      ((s.decls ((s.units u).imports.getD i 0)).import_private = true →
        (s.decls ((s.units u).imports.getD i 0)).poisoned = false →
        (∀ j, j < i → (s'.decls ((s.units u).imports.getD j 0)).module ≠ some P) →
        (s'.decls ((s.units u).imports.getD i 0)).module = some P ∧
        (s'.decls ((s.units u).imports.getD i 0)).poisoned = false ∧
        ∀ msg, Diagnostic.error ((s.units u).imports.getD i 0) msg ∉ new) := by
  obtain ⟨s', hrun, -, -, -, -, -, hin, -, hdiag⟩ := process_imports_closed_form s module h
  refine ⟨s', _, hrun, hdiag, ?_, ?_⟩
  · intro hq
    have hl := import_lookup_private s module _ P hP hne hpriv hq
    refine ⟨?_, ?_, ?_⟩
    · rw [error_mem_messages_iff s module h.1 u hu i hi,
        import_messages_of_error s module _ _ _ hl]
      exact List.mem_singleton.2 rfl
    · rw [hin u hu i hi, import_result_of_error s module _ _ _ hl]
    · rw [hin u hu i hi, import_result_of_error s module _ _ _ hl]
  · intro hq hclean hearlier
    have hl := import_lookup_ok s module _ P hP hne (Or.inr hq)
    have hd : import_duplicate s module ((s.units u).imports.take i) P = none := by
      unfold import_duplicate
      rw [List.find?_eq_none]
      intro q hqmem
      obtain ⟨j, hji, hjl, hqj⟩ := mem_take_getD hqmem
      have := hearlier j hji
      rw [hin u hu j hjl, import_result_module, hqj] at this
      rw [decide_eq_true_iff]
      exact fun heq => this heq.symm
    refine ⟨?_, ?_, ?_⟩
    · rw [hin u hu i hi, import_result_of_fresh s module _ _ P hl hd]
    · rw [hin u hu i hi, import_result_of_fresh s module _ _ P hl hd]
      exact hclean
    · intro msg hmsg
      rw [error_mem_messages_iff s module h.1 u hu i hi] at hmsg
      unfold import_messages at hmsg
      rw [hl] at hmsg
      simp only [] at hmsg
      rw [hd] at hmsg
      simp at hmsg

/-- C6 on the example `demo_imports`: import `12` names the private module
without the qualifier. -/
theorem private_import_needs_qualifier_witness :
    ∃ s' new, sema_analysis_pass_process_imports 0 demo_imports = Except.ok s' ∧
      s'.diagnostics = demo_imports.diagnostics ++ new ∧
      Diagnostic.error 12 Message.importing_private_module ∈ new ∧
      (s'.decls 12).poisoned = true := by
  obtain ⟨s', new, hrun, hd, hno, -⟩ :=
    private_import_needs_qualifier demo_imports 0 (by decide) 0 (by decide) 2 (by decide) 2
      (by decide) (by decide) (by decide)
  have := hno (by decide)
  exact ⟨s', new, hrun, hd, this.1, this.2.1⟩

/-- One error is counted for an import exactly when the pass poisons it. -/
theorem import_errors_eq_poisoned (s : SemaState) (module : ModuleRef)
    (earlier : List DeclRef) (p : DeclRef) (hclean : (s.decls p).poisoned = false) :
    import_errors s module earlier p
      = if (import_result s module earlier (s.decls p)).poisoned = true then 1 else 0 := by
  cases hl : import_lookup s module (s.decls p) with
  | error e =>
    rw [import_result_of_error s module earlier _ e hl]
    unfold import_errors; rw [hl]; rfl
  | ok m =>
    cases hd : import_duplicate s module earlier m with
    | none =>
      rw [import_result_of_fresh s module earlier _ m hl hd]
      unfold import_errors; rw [hl]; simp only []; rw [hd]; simp [hclean]
    | some q =>
      rw [import_result_of_duplicate s module earlier _ m q hl hd]
      unfold import_errors; rw [hl]; simp only []; rw [hd]; rfl

theorem countP_take_eq_sum (f : DeclRef → Bool) (g : Nat → Nat) (L : List DeclRef)
    (hfg : ∀ j, j < L.length → g j = if f (L.getD j 0) = true then 1 else 0) :
    ∀ n, n ≤ L.length → (L.take n).countP f = ((List.range n).map g).sum := by
  intro n
  induction n with
  | zero => intro _; simp
  | succ n ih =>
    intro hn
    have hlt : n < L.length := by omega
    have htk : L.take (n + 1) = L.take n ++ [L.getD n 0] := by
      rw [List.take_succ, List.getElem?_eq_getElem hlt, List.getD_eq_getElem _ 0 hlt]; rfl
    rw [htk, List.countP_append, List.sum_range_succ, ih (by omega), hfg n hlt,
      List.countP_singleton]

/-- C7. On a pending module the import pass runs to the end whatever the
outcome of the individual imports: afterwards no import of any unit has status
`RESOLVE_NOT_DONE`, the error counter has not decreased, and, when the imports
start unpoisoned, it has grown by exactly the number of poisoned imports. -/
theorem import_pass_never_stops (s : SemaState) (module : ModuleRef)
    (h : ImportsPending s module) :
    ∃ s', sema_analysis_pass_process_imports module s = Except.ok s' ∧
      (∀ p ∈ all_imports s' module, (s'.decls p).resolve_status ≠ RESOLVE_NOT_DONE) ∧
      s.errors_found ≤ s'.errors_found ∧
      ((∀ p ∈ all_imports s module, (s.decls p).poisoned = false) →
        s'.errors_found = s.errors_found
          + (all_imports s' module).countP (fun p => (s'.decls p).poisoned)) := by
  obtain ⟨s', hrun, hmods, -, hunits, -, -, hin, herr, -⟩ :=
    process_imports_closed_form s module h
  have hall : all_imports s' module = all_imports s module := by
    unfold all_imports imports_of_units; rw [hmods, hunits]
  refine ⟨s', hrun, ?_, ?_, ?_⟩
  · rw [hall]
    intro p hp
    obtain ⟨u, hu, hpu⟩ := List.mem_flatMap.1 hp
    obtain ⟨j, hj, hpj⟩ := mem_exists_getD hpu
    subst hpj
    rw [hin u hu j hj, import_result_status]
    decide
  · rw [herr]; exact Nat.le_add_right _ _
  · intro hclean
    rw [herr, hall]
    congr 1
    unfold all_imports imports_of_units
    rw [List.countP_flatMap]
    congr 1
    apply List.map_congr_left
    intro u hu
    have := countP_take_eq_sum (fun p => (s'.decls p).poisoned)
      (fun j => import_errors s module ((s.units u).imports.take j)
        ((s.units u).imports.getD j 0)) (s.units u).imports
      (by
        intro j hj
        show _ = if (s'.decls ((s.units u).imports.getD j 0)).poisoned = true then 1 else 0
        rw [hin u hu j hj]
        exact import_errors_eq_poisoned s module _ _
          (hclean _ (List.mem_flatMap.2 ⟨u, hu, getD_mem hj⟩)))
      (s.units u).imports.length (Nat.le_refl _)
    rw [List.take_length] at this
    simp only [Function.comp]
    rw [this, unit_errors]

/-- C7 on the example `demo_imports`: five imports are poisoned and the
counter ends at five. -/
theorem import_pass_never_stops_witness :
    ∃ s', sema_analysis_pass_process_imports 0 demo_imports = Except.ok s' ∧
      s'.errors_found = 5 := by
  obtain ⟨s', hrun, -, -, hcount⟩ := import_pass_never_stops demo_imports 0 (by decide)
  have hs : s' = (match sema_analysis_pass_process_imports 0 demo_imports with
      | Except.ok t => t | Except.error _ => demo_imports) := by rw [hrun]
  refine ⟨s', hrun, ?_⟩
  rw [hcount (by decide), hs]
  decide

/-! ## The filing routine and the list view of a chain -/

@[simp] theorem log_decls (s : SemaState) (e : Event) : (s.log e).decls = s.decls := rfl

@[simp] theorem log_units (s : SemaState) (e : Event) : (s.log e).units = s.units := rfl

@[simp] theorem log_modules (s : SemaState) (e : Event) : (s.log e).modules = s.modules := rfl

@[simp] theorem log_trace (s : SemaState) (e : Event) : (s.log e).trace = s.trace ++ [e] := rfl

@[simp] theorem modify_unit_decls (s : SemaState) (u : UnitRef)
    (f : CompilationUnit → CompilationUnit) : (s.modify_unit u f).decls = s.decls := rfl

@[simp] theorem modify_unit_modules (s : SemaState) (u : UnitRef)
    (f : CompilationUnit → CompilationUnit) : (s.modify_unit u f).modules = s.modules := rfl

@[simp] theorem modify_unit_trace (s : SemaState) (u : UnitRef)
    (f : CompilationUnit → CompilationUnit) : (s.modify_unit u f).trace = s.trace := rfl

@[simp] theorem modify_unit_units (s : SemaState) (u : UnitRef)
    (f : CompilationUnit → CompilationUnit) (v : UnitRef) :
    (s.modify_unit u f).units v = if v = u then f (s.units u) else s.units v := rfl

@[simp] theorem register_decls (u : UnitRef) (d : DeclRef) (s : SemaState) :
    (unit_register_global_decl u d s).decls = s.decls := rfl

@[simp] theorem register_modules (u : UnitRef) (d : DeclRef) (s : SemaState) :
    (unit_register_global_decl u d s).modules = s.modules := rfl

@[simp] theorem register_trace (u : UnitRef) (d : DeclRef) (s : SemaState) :
    (unit_register_global_decl u d s).trace
      = s.trace ++ [Event.register_global_decl u d] := rfl

theorem register_units_other (u v : UnitRef) (d : DeclRef) (s : SemaState) (h : v ≠ u) :
    (unit_register_global_decl u d s).units v = s.units v := by
  simp [unit_register_global_decl, h]

theorem register_ct_ifs (u : UnitRef) (d : DeclRef) (s : SemaState) :
    ((unit_register_global_decl u d s).units u).ct_ifs
      = (s.units u).ct_ifs ++ (if (s.decls d).decl_kind = DECL_CT_IF then [d] else []) := by
  simp only [unit_register_global_decl, modify_unit_units, if_true, log_units]
  cases (s.decls d).decl_kind <;> simp

theorem append_decls_decls (u : UnitRef) (ds : List DeclRef) (s : SemaState) :
    (sema_append_decls u ds s).decls = s.decls := by
  unfold sema_append_decls
  induction ds generalizing s with
  | nil => rfl
  | cons d ds ih => rw [List.foldl_cons, ih, register_decls]

theorem append_decls_modules (u : UnitRef) (ds : List DeclRef) (s : SemaState) :
    (sema_append_decls u ds s).modules = s.modules := by
  unfold sema_append_decls
  induction ds generalizing s with
  | nil => rfl
  | cons d ds ih => rw [List.foldl_cons, ih, register_modules]

/-- The filing calls of `sema_append_decls`: one per declaration, in list order. -/
theorem append_decls_trace (u : UnitRef) (ds : List DeclRef) (s : SemaState) :
    (sema_append_decls u ds s).trace
      = s.trace ++ ds.map (fun d => Event.register_global_decl u d) := by
  unfold sema_append_decls
  induction ds generalizing s with
  | nil => simp
  | cons d ds ih => rw [List.foldl_cons, ih, register_trace]; simp

theorem append_decls_units_other (u v : UnitRef) (ds : List DeclRef) (s : SemaState)
    (h : v ≠ u) : (sema_append_decls u ds s).units v = s.units v := by
  unfold sema_append_decls
  induction ds generalizing s with
  | nil => rfl
  | cons d ds ih => rw [List.foldl_cons, ih, register_units_other u v d s h]

theorem append_decls_ct_ifs (u : UnitRef) (ds : List DeclRef) (s : SemaState) :
    ((sema_append_decls u ds s).units u).ct_ifs
      = (s.units u).ct_ifs
        ++ ds.filter (fun d => decide ((s.decls d).decl_kind = DECL_CT_IF)) := by
  unfold sema_append_decls
  induction ds generalizing s with
  | nil => simp
  | cons d ds ih =>
    rw [List.foldl_cons, ih, register_ct_ifs, register_decls, List.filter_cons]
    by_cases hk : (s.decls d).decl_kind = DECL_CT_IF <;> simp [hk]

theorem ct_elif_walk_eq (ext : Analysers) (context : SemaContext) (decls : DeclRef → Decl)
    (start : Option DeclRef) (nodes : List DeclRef) (last : Option DeclRef)
    (h : ElifChain decls start nodes last) :
    ∀ (fuel : Nat) (s : SemaState), s.decls = decls → nodes.length < fuel →
      ct_elif_walk ext context fuel start s
        = Except.ok (chain_outcome ext context nodes last s) := by
  induction h with
  | null => intro fuel s _ _; cases fuel <;> rfl
  | ct_else q hq =>
    intro fuel s hs hf
    cases fuel with
    | zero => simp at hf
    | succ fuel =>
      subst hs
      simp [ct_elif_walk, chain_outcome, hq]
  | ct_elif p rest last hp _ ih =>
    intro fuel s hs hf
    cases fuel with
    | zero => simp at hf
    | succ fuel =>
      subst hs
      have hlen : rest.length < fuel := by simpa using hf
      have := ih fuel (sema_check_comp_time_bool ext context (s.decls p).ct_expr s).2 rfl hlen
      simp only [ct_elif_walk, chain_outcome, hp, if_true]
      by_cases h1 : (sema_check_comp_time_bool ext context (s.decls p).ct_expr s).1 = -1
      · simp [h1]
      · by_cases h2 : (sema_check_comp_time_bool ext context (s.decls p).ct_expr s).1 = 0
        · simp only [h1, h2, if_false, ne_eq, not_true_eq_false]
          exact this
        · simp [h1, h2]

theorem top_level_if_eq (ext : Analysers) (context : SemaContext) (c : DeclRef)
    (s : SemaState) (nodes : List DeclRef) (last : Option DeclRef) (fuel : Nat)
    (h : ElifChain s.decls (s.decls c).ct_elif nodes last) (hf : nodes.length < fuel) :
    sema_analyse_top_level_if ext fuel context c s
      = Except.ok (chain_outcome ext context (c :: nodes) last s) := by
  have := ct_elif_walk_eq ext context s.decls _ nodes last h fuel
    (sema_check_comp_time_bool ext context (s.decls c).ct_expr s).2 rfl hf
  simp only [sema_analyse_top_level_if, chain_outcome]
  by_cases h1 : (sema_check_comp_time_bool ext context (s.decls c).ct_expr s).1 = -1
  · simp [h1]
  · by_cases h2 : (sema_check_comp_time_bool ext context (s.decls c).ct_expr s).1 = 0
    · simp only [h1, h2, if_false, ne_eq, not_true_eq_false]
      exact this
    · simp [h1, h2]

@[simp] theorem after_checks_nil (context : SemaContext) (s : SemaState) :
    after_checks context [] s = s := rfl

@[simp] theorem after_checks_cons (context : SemaContext) (p : DeclRef) (rest : List DeclRef)
    (s : SemaState) :
    after_checks context (p :: rest) s
      = after_checks context rest
          (s.log (Event.check_comp_time_bool context.unit (s.decls p).ct_expr)) := rfl

theorem after_checks_decls (context : SemaContext) (conds : List DeclRef) (s : SemaState) :
    (after_checks context conds s).decls = s.decls := by
  induction conds generalizing s with
  | nil => rfl
  | cons p rest ih => rw [after_checks_cons, ih, log_decls]

theorem after_checks_units (context : SemaContext) (conds : List DeclRef) (s : SemaState) :
    (after_checks context conds s).units = s.units := by
  induction conds generalizing s with
  | nil => rfl
  | cons p rest ih => rw [after_checks_cons, ih, log_units]

theorem after_checks_modules (context : SemaContext) (conds : List DeclRef) (s : SemaState) :
    (after_checks context conds s).modules = s.modules := by
  induction conds generalizing s with
  | nil => rfl
  | cons p rest ih => rw [after_checks_cons, ih, log_modules]

/-- The evaluator calls of `after_checks`: one per condition, in order. -/
theorem after_checks_trace (context : SemaContext) (conds : List DeclRef) (s : SemaState) :
    (after_checks context conds s).trace
      = s.trace ++ conds.map
          (fun p => Event.check_comp_time_bool context.unit (s.decls p).ct_expr) := by
  induction conds generalizing s with
  | nil => simp
  | cons p rest ih => rw [after_checks_cons, ih, log_trace, log_decls]; simp

theorem cond_value_zero (ext : Analysers) (context : SemaContext) (p : DeclRef)
    (rest : List DeclRef) (s : SemaState) :
    cond_value ext context (p :: rest) s 0
      = (sema_check_comp_time_bool ext context (s.decls p).ct_expr s).1 := rfl

theorem cond_value_succ (ext : Analysers) (context : SemaContext) (p : DeclRef)
    (rest : List DeclRef) (s : SemaState) (k : Nat) :
    cond_value ext context (p :: rest) s (k + 1)
      = cond_value ext context rest
          (sema_check_comp_time_bool ext context (s.decls p).ct_expr s).2 k := rfl

/-- The three ways a chain can go, in terms of the answers of the evaluator. -/
theorem chain_outcome_spec (ext : Analysers) (context : SemaContext) (last : Option DeclRef) :
    ∀ (conds : List DeclRef) (s : SemaState),
      (∀ k, k < conds.length → (∀ j, j < k → cond_value ext context conds s j = 0) →
        cond_value ext context conds s k = -1 →
        chain_outcome ext context conds last s
          = (false, after_checks context (conds.take (k + 1)) s)) ∧
      (∀ k, k < conds.length → (∀ j, j < k → cond_value ext context conds s j = 0) →
        cond_value ext context conds s k ≠ 0 → cond_value ext context conds s k ≠ -1 →
        chain_outcome ext context conds last s
          = (true, sema_append_decls context.unit (s.decls (conds.getD k 0)).ct_then
              (after_checks context (conds.take (k + 1)) s))) ∧
      ((∀ k, k < conds.length → cond_value ext context conds s k = 0) →
        chain_outcome ext context conds last s
          = (true, match last with
              | some q => sema_append_decls context.unit (s.decls q).ct_else_decl
                  (after_checks context conds s)
              | none => after_checks context conds s)) := by
  intro conds
  induction conds with
  | nil =>
    intro s
    refine ⟨fun k hk => absurd hk (Nat.not_lt_zero k), fun k hk => absurd hk (Nat.not_lt_zero k),
      fun _ => ?_⟩
    cases last <;> rfl
  | cons p rest ih =>
    intro s
    obtain ⟨ih1, ih2, ih3⟩ :=
      ih (sema_check_comp_time_bool ext context (s.decls p).ct_expr s).2
    have hstep : cond_value ext context (p :: rest) s 0 = 0 →
        chain_outcome ext context (p :: rest) last s
          = chain_outcome ext context rest last
              (sema_check_comp_time_bool ext context (s.decls p).ct_expr s).2 := by
      intro h0
      rw [cond_value_zero] at h0
      simp [chain_outcome, h0]
    refine ⟨?_, ?_, ?_⟩
    · intro k hk hbefore hval
      cases k with
      | zero =>
        rw [cond_value_zero] at hval
        simp only [chain_outcome, hval, if_true]
        rfl
      | succ k =>
        rw [hstep (hbefore 0 (Nat.succ_pos k))]
        exact ih1 k (by simpa using hk) (fun j hj => hbefore (j + 1) (by omega)) hval
    · intro k hk hbefore hne0 hne1
      cases k with
      | zero =>
        rw [cond_value_zero] at hne0 hne1
        simp only [chain_outcome, hne0, hne1, if_false, ne_eq, not_false_eq_true, if_true]
        rfl
      | succ k =>
        rw [hstep (hbefore 0 (Nat.succ_pos k))]
        exact ih2 k (by simpa using hk) (fun j hj => hbefore (j + 1) (by omega)) hne0 hne1
    · intro hall
      rw [hstep (hall 0 (by simp))]
      exact ih3 (fun k hk => hall (k + 1) (by simpa using hk))

/-! ## Properties of `sema_analyse_top_level_if` -/

theorem first_nonzero (f : Nat → Int) (n : Nat) :
    (∀ k, k < n → f k = 0) ∨ ∃ k, k < n ∧ (∀ j, j < k → f j = 0) ∧ f k ≠ 0 := by
  induction n with
  | zero => exact Or.inl (fun k hk => absurd hk (Nat.not_lt_zero k))
  | succ n ih =>
    rcases ih with hall | ⟨k, hk, hb, hne⟩
    · by_cases hn : f n = 0
      · left
        intro k hk
        rcases Nat.lt_succ_iff_lt_or_eq.1 hk with h | h
        · exact hall k h
        · rw [h]; exact hn
      · exact Or.inr ⟨n, Nat.lt_succ_self n, hall, hn⟩
    · exact Or.inr ⟨k, Nat.lt_succ_of_lt hk, hb, hne⟩

/-- Whatever the evaluator answers, a chain evaluates a prefix of its
conditions and then files one of its branches, or nothing. -/
theorem chain_outcome_shape (ext : Analysers) (context : SemaContext) (conds : List DeclRef)
    (last : Option DeclRef) (s : SemaState) :
    ∃ k b, k ≤ conds.length ∧ (conds ≠ [] → 0 < k) ∧
      (b = [] ∨ b ∈ chain_branches s.decls conds last) ∧
      (chain_outcome ext context conds last s).2
        = sema_append_decls context.unit b (after_checks context (conds.take k) s) := by
  obtain ⟨h1, h2, h3⟩ := chain_outcome_spec ext context last conds s
  rcases first_nonzero (cond_value ext context conds s) conds.length with
    hall | ⟨k, hk, hb, hne⟩
  · refine ⟨conds.length, (match last with | some q => (s.decls q).ct_else_decl | none => []),
      Nat.le_refl _, fun hne => List.length_pos.2 hne, ?_, ?_⟩
    · cases last with
      | none => exact Or.inl rfl
      | some q => right; simp [chain_branches]
    · rw [h3 hall, List.take_length]
      cases last <;> rfl
  · by_cases herr : cond_value ext context conds s k = -1
    · exact ⟨k + 1, [], hk, fun _ => Nat.succ_pos k, Or.inl rfl, by rw [h1 k hk hb herr]; rfl⟩
    · refine ⟨k + 1, (s.decls (conds.getD k 0)).ct_then, hk, fun _ => Nat.succ_pos k, Or.inr ?_,
        by rw [h2 k hk hb hne herr]⟩
      unfold chain_branches
      refine List.mem_append_left _ (List.mem_map.2 ⟨conds.getD k 0, ?_, rfl⟩)
      rw [List.getD_eq_getElem _ 0 hk]
      exact List.getElem_mem hk

/-- C8. For every conditional chain (an `if`, its `elif` links and an optional
`else`) and every evaluator, `sema_analyse_top_level_if` returns, and the calls
it made are evaluations of a prefix of the conditions of the chain followed by
the filing, in list order, of the declarations of a single list `b`, which is
empty or the declaration list of one branch of the chain. -/
theorem top_level_if_files_at_most_one_branch (ext : Analysers) (context : SemaContext)
    (c : DeclRef) (s : SemaState) (nodes : List DeclRef) (last : Option DeclRef) (fuel : Nat)
    (hchain : ElifChain s.decls (s.decls c).ct_elif nodes last)
    (hfuel : nodes.length < fuel) :
    ∃ r s' k b, sema_analyse_top_level_if ext fuel context c s = Except.ok (r, s') ∧
      k ≤ (c :: nodes).length ∧
      (b = [] ∨ b ∈ chain_branches s.decls (c :: nodes) last) ∧
      s'.trace = s.trace
        ++ ((c :: nodes).take k).map
            (fun p => Event.check_comp_time_bool context.unit (s.decls p).ct_expr)
        ++ b.map (fun d => Event.register_global_decl context.unit d) := by
  obtain ⟨k, b, hk, -, hb, hout⟩ := chain_outcome_shape ext context (c :: nodes) last s
  refine ⟨(chain_outcome ext context (c :: nodes) last s).1,
    (chain_outcome ext context (c :: nodes) last s).2, k, b,
    top_level_if_eq ext context c s nodes last fuel hchain hfuel, hk, hb, ?_⟩
  rw [hout, append_decls_trace, after_checks_trace]

/-- C9. For every conditional chain: if condition `k` is the first that is not
false and it is not an error, `sema_analyse_top_level_if` returns true having
evaluated conditions `0..k` and then filed the declarations of branch `k`, each
once and in list order; if every condition is false it returns true having
evaluated them all and then filed the declarations of the `else`, each once and
in list order, or nothing when the chain has no `else`. -/
theorem top_level_if_files_first_true_branch (ext : Analysers) (context : SemaContext)
    (c : DeclRef) (s : SemaState) (nodes : List DeclRef) (last : Option DeclRef) (fuel : Nat)
    (hchain : ElifChain s.decls (s.decls c).ct_elif nodes last)
    (hfuel : nodes.length < fuel) :
    (∀ k, k < (c :: nodes).length →
      (∀ j, j < k → cond_value ext context (c :: nodes) s j = 0) →
      cond_value ext context (c :: nodes) s k ≠ 0 →
      cond_value ext context (c :: nodes) s k ≠ -1 →
      ∃ s', sema_analyse_top_level_if ext fuel context c s = Except.ok (true, s') ∧
        s'.trace = s.trace
          ++ ((c :: nodes).take (k + 1)).map
              (fun p => Event.check_comp_time_bool context.unit (s.decls p).ct_expr)
          ++ (s.decls ((c :: nodes).getD k 0)).ct_then.map
              (fun d => Event.register_global_decl context.unit d)) ∧
    ((∀ k, k < (c :: nodes).length → cond_value ext context (c :: nodes) s k = 0) →
      ∃ s', sema_analyse_top_level_if ext fuel context c s = Except.ok (true, s') ∧
        s'.trace = s.trace
          ++ (c :: nodes).map
              (fun p => Event.check_comp_time_bool context.unit (s.decls p).ct_expr)
          ++ (match last with
              | some q => (s.decls q).ct_else_decl.map
                  (fun d => Event.register_global_decl context.unit d)
              | none => [])) := by
  obtain ⟨-, h2, h3⟩ := chain_outcome_spec ext context last (c :: nodes) s
  have heq := top_level_if_eq ext context c s nodes last fuel hchain hfuel
  constructor
  · intro k hk hb hne0 hne1
    refine ⟨_, by rw [heq, h2 k hk hb hne0 hne1], ?_⟩
    rw [append_decls_trace, after_checks_trace]
  · intro hall
    rw [heq, h3 hall]
    cases last with
    | none => exact ⟨_, rfl, by simp [after_checks_trace]⟩
    | some q => exact ⟨_, rfl, by rw [append_decls_trace, after_checks_trace]⟩

/-! ## The conditional pass runs to the end -/

theorem ct_ifs_loop_done (ext : Analysers) (u : UnitRef) (fuel i : Nat) (s : SemaState)
    (h : ¬ i < (s.units u).ct_ifs.length) : ct_ifs_loop ext u fuel i s = Except.ok s := by
  cases fuel <;> simp [ct_ifs_loop, h]

theorem ct_ifs_loop_step (ext : Analysers) (u : UnitRef) (fuel i : Nat) (s : SemaState)
    (r : Bool × SemaState) (h : i < (s.units u).ct_ifs.length)
    (hr : sema_analyse_top_level_if ext fuel (sema_context_init ext u s).1
        (((sema_context_init ext u s).2.units u).ct_ifs.getD i 0)
        (sema_context_init ext u s).2 = Except.ok r) :
    ct_ifs_loop ext u (fuel + 1) i s
      = ct_ifs_loop ext u fuel (i + 1)
          (sema_context_destroy (sema_context_init ext u s).1 r.2) := by
  simp only [ct_ifs_loop, h, if_true, hr]

theorem ct_ifs_loop_runs (ext : Analysers) (u : UnitRef) (decls : DeclRef → Decl)
    (w : DeclRef → Nat) (N : Nat) (hwf : FinitelyNested decls w N) :
    ∀ (m i : Nat) (s : SemaState), s.decls = decls →
      (∀ c ∈ (s.units u).ct_ifs, (decls c).decl_kind = DECL_CT_IF) →
      (((s.units u).ct_ifs.drop i).map w).sum ≤ m →
      ∃ s', (∀ fuel, m + N ≤ fuel → ct_ifs_loop ext u fuel i s = Except.ok s') ∧
        s'.decls = decls ∧ s'.modules = s.modules ∧
        (∀ v, v ≠ u → s'.units v = s.units v) ∧
        (∀ c ∈ (s'.units u).ct_ifs, (decls c).decl_kind = DECL_CT_IF) ∧
        (∀ c ∈ (s.units u).ct_ifs, c ∈ (s'.units u).ct_ifs) ∧
        ∃ new, s'.trace = s.trace ++ new ∧
          ∀ c ∈ (s.units u).ct_ifs.drop i,
            Event.check_comp_time_bool u (decls c).ct_expr ∈ new := by
  intro m
  induction m with
  | zero =>
    intro i s hs hkind hm
    by_cases hi : i < (s.units u).ct_ifs.length
    · exfalso
      have hc := hkind _ (List.getElem_mem hi)
      obtain ⟨nodes, last, -, -, hw⟩ := hwf _ hc
      have := hw _ (List.mem_append_left _ (List.mem_cons_self _ _))
      rw [List.drop_eq_getElem_cons hi, List.map_cons, List.sum_cons] at hm
      omega
    · refine ⟨s, fun fuel _ => ct_ifs_loop_done ext u fuel i s hi, hs, rfl, fun _ _ => rfl,
        hkind, fun _ h => h, [], by simp, ?_⟩
      rw [List.drop_eq_nil_of_le (by omega)]
      intro c hc; cases hc
  | succ m ih =>
    intro i s hs hkind hm
    by_cases hi : i < (s.units u).ct_ifs.length
    · -- the chain at index `i`
      have hc := hkind _ (List.getElem_mem hi)
      obtain ⟨nodes, last, hchain, hlen, hw⟩ := hwf _ hc
      have hget : ((sema_context_init ext u s).2.units u).ct_ifs.getD i 0
          = (s.units u).ct_ifs[i] := by
        show (s.units u).ct_ifs.getD i 0 = _
        exact List.getD_eq_getElem _ 0 hi
      obtain ⟨k, b, hk, hkpos, hb, hout⟩ := chain_outcome_shape ext (sema_context_init ext u s).1
        ((s.units u).ct_ifs[i] :: nodes) last (sema_context_init ext u s).2
      have hunit : (sema_context_init ext u s).1.unit = u := rfl
      rw [hunit] at hout
      -- the state after the iteration
      have hs3d : (sema_context_destroy (sema_context_init ext u s).1
          (chain_outcome ext (sema_context_init ext u s).1
            ((s.units u).ct_ifs[i] :: nodes) last (sema_context_init ext u s).2).2).decls
          = decls := by
        show (chain_outcome _ _ _ _ _).2.decls = decls
        rw [hout, append_decls_decls, after_checks_decls]; exact hs
      have hs3c : ((sema_context_destroy (sema_context_init ext u s).1
          (chain_outcome ext (sema_context_init ext u s).1
            ((s.units u).ct_ifs[i] :: nodes) last (sema_context_init ext u s).2).2).units u).ct_ifs
          = (s.units u).ct_ifs
            ++ b.filter (fun d => decide ((decls d).decl_kind = DECL_CT_IF)) := by
        show ((chain_outcome _ _ _ _ _).2.units u).ct_ifs = _
        rw [hout, append_decls_ct_ifs, after_checks_units, after_checks_decls]
        show (s.units u).ct_ifs ++ List.filter (fun d => decide ((s.decls d).decl_kind = DECL_CT_IF)) b = _
        rw [hs]
      have hbw : nested_weight decls w b < w (s.units u).ct_ifs[i] := by
        rcases hb with hb | hb
        · rw [hb]
          have := hw _ (List.mem_append_left _ (List.mem_cons_self _ _))
          simp only [nested_weight, List.filter_nil, List.map_nil, List.sum_nil]
          omega
        · have hb' : b ∈ chain_branches decls ((s.units u).ct_ifs[i] :: nodes) last := by
            have hd : (sema_context_init ext u s).2.decls = decls := hs
            rw [hd] at hb; exact hb
          exact hw b hb'
      obtain ⟨s', hrun, hd', hm', hu', hk', hmem', new', htr', hev'⟩ :=
        ih (i + 1) (sema_context_destroy (sema_context_init ext u s).1
          (chain_outcome ext (sema_context_init ext u s).1
            ((s.units u).ct_ifs[i] :: nodes) last (sema_context_init ext u s).2).2) hs3d
          (by
            rw [hs3c]
            intro c hcm
            rcases List.mem_append.1 hcm with h | h
            · exact hkind c h
            · simpa using (List.mem_filter.1 h).2)
          (by
            rw [hs3c, List.drop_append_of_le_length (by omega), List.map_append,
              List.sum_append]
            rw [List.drop_eq_getElem_cons hi, List.map_cons, List.sum_cons] at hm
            unfold nested_weight at hbw
            omega)
      refine ⟨s', ?_, hd', ?_, ?_, hk', ?_, ?_⟩
      · intro fuel hfuel
        obtain ⟨f, rfl⟩ : ∃ f, fuel = f + 1 := ⟨fuel - 1, by omega⟩
        have hr := top_level_if_eq ext (sema_context_init ext u s).1 (s.units u).ct_ifs[i]
          (sema_context_init ext u s).2 nodes last f
          (by
            have hd : (sema_context_init ext u s).2.decls = decls := hs
            rw [hd]; exact hchain)
          (by omega)
        rw [← hget] at hr
        rw [ct_ifs_loop_step ext u f i s _ hi hr]
        rw [hget]
        exact hrun f (by omega)
      · rw [hm']
        show (chain_outcome _ _ _ _ _).2.modules = s.modules
        rw [hout, append_decls_modules, after_checks_modules]; rfl
      · intro v hv
        rw [hu' v hv]
        show (chain_outcome _ _ _ _ _).2.units v = s.units v
        rw [hout, append_decls_units_other u v _ _ hv, after_checks_units]; rfl
      · intro c hcm
        apply hmem'
        rw [hs3c]
        exact List.mem_append_left _ hcm
      · have htr3 : (sema_context_destroy (sema_context_init ext u s).1
            (chain_outcome ext (sema_context_init ext u s).1
              ((s.units u).ct_ifs[i] :: nodes) last (sema_context_init ext u s).2).2).trace
            = s.trace ++ ([Event.context_init u]
              ++ (((s.units u).ct_ifs[i] :: nodes).take k).map
                  (fun p => Event.check_comp_time_bool u (decls p).ct_expr)
              ++ b.map (fun d => Event.register_global_decl u d)
              ++ [Event.context_destroy u]) := by
          show (chain_outcome _ _ _ _ _).2.trace ++ [Event.context_destroy u] = _
          rw [hout, append_decls_trace, after_checks_trace]
          show (s.trace ++ [Event.context_init u]
            ++ List.map (fun p => Event.check_comp_time_bool u (s.decls p).ct_expr) _)
            ++ _ ++ _ = _
          rw [hs]
          simp only [List.append_assoc]
        refine ⟨_, by rw [htr', htr3, List.append_assoc], ?_⟩
        intro c hcm
        rw [List.drop_eq_getElem_cons hi] at hcm
        rcases List.mem_cons.1 hcm with h | h
        · apply List.mem_append_left
          apply List.mem_append_left
          apply List.mem_append_left
          apply List.mem_append_right
          have hk1 : 0 < k := hkpos (by simp)
          obtain ⟨k', rfl⟩ : ∃ k', k = k' + 1 := ⟨k - 1, by omega⟩
          rw [h]
          simp
        · apply List.mem_append_right
          apply hev'
          rw [hs3c, List.drop_append_of_le_length (by omega)]
          exact List.mem_append_left _ h
    · refine ⟨s, fun fuel _ => ct_ifs_loop_done ext u fuel i s hi, hs, rfl, fun _ _ => rfl,
        hkind, fun _ h => h, [], by simp, ?_⟩
      rw [List.drop_eq_nil_of_le (by omega)]
      intro c hc; cases hc

theorem conditional_units_run (ext : Analysers) (decls : DeclRef → Decl)
    (w : DeclRef → Nat) (N : Nat) (hwf : FinitelyNested decls w N) :
    ∀ (U : List UnitRef) (s : SemaState), s.decls = decls →
      (∀ u ∈ U, ∀ c ∈ (s.units u).ct_ifs, (decls c).decl_kind = DECL_CT_IF) →
      ∃ s' fuel0,
        (∀ fuel, fuel0 ≤ fuel →
          U.foldlM (fun s unit => ct_ifs_loop ext unit fuel 0 s) s = Except.ok s') ∧
        s'.decls = decls ∧ s'.modules = s.modules ∧
        ∃ new, s'.trace = s.trace ++ new ∧
          ∀ u ∈ U, ∀ c ∈ (s.units u).ct_ifs,
            Event.check_comp_time_bool u (decls c).ct_expr ∈ new := by
  intro U
  induction U with
  | nil =>
    intro s hs _
    exact ⟨s, 0, fun _ _ => rfl, hs, rfl, [], by simp, fun u hu => by cases hu⟩
  | cons u U ih =>
    intro s hs hkind
    obtain ⟨s1, hrun1, hd1, hm1, hu1, hk1, hmem1, new1, htr1, hev1⟩ :=
      ct_ifs_loop_runs ext u decls w N hwf _ 0 s hs (hkind u (List.mem_cons_self u U))
        (Nat.le_refl _)
    have hkind1 : ∀ v ∈ U, ∀ c ∈ (s1.units v).ct_ifs, (decls c).decl_kind = DECL_CT_IF := by
      intro v hv c hc
      by_cases hvu : v = u
      · rw [hvu] at hc; exact hk1 c hc
      · rw [hu1 v hvu] at hc; exact hkind v (List.mem_cons_of_mem u hv) c hc
    obtain ⟨s2, fuel2, hrun2, hd2, hm2, new2, htr2, hev2⟩ := ih s1 hd1 hkind1
    refine ⟨s2, max ((((s.units u).ct_ifs.drop 0).map w).sum + N) fuel2, ?_, hd2,
      by rw [hm2, hm1], new1 ++ new2, by rw [htr2, htr1, List.append_assoc], ?_⟩
    · intro fuel hfuel
      rw [List.foldlM_cons, hrun1 fuel (le_trans (le_max_left _ _) hfuel)]
      exact hrun2 fuel (le_trans (le_max_right _ _) hfuel)
    · intro v hv c hc
      rcases List.mem_cons.1 hv with hvu | hvU
      · rw [hvu] at hc ⊢
        exact List.mem_append_left _ (hev1 c (by simpa using hc))
      · apply List.mem_append_right
        apply hev2 v hvU
        by_cases hvu : v = u
        · rw [hvu] at hc ⊢; exact hmem1 c hc
        · rw [hu1 v hvu]; exact hc

/-- C10. For every conditional chain: if condition `k` is an error while the
conditions before it are false, `sema_analyse_top_level_if` returns false having
evaluated conditions `0..k` and nothing else, so that no branch is filed and no
later condition is evaluated; if no evaluated condition is an error it returns
true.  And whatever the evaluator answers, on a module whose conditionals are
well formed and finitely nested the conditional pass runs to the end and
evaluates the `if` condition of every chain listed in every unit. -/
theorem conditional_error_aborts_only_its_chain (ext : Analysers) (context : SemaContext)
    (c : DeclRef) (s : SemaState) (nodes : List DeclRef) (last : Option DeclRef) (fuel : Nat)
    (hchain : ElifChain s.decls (s.decls c).ct_elif nodes last)
    (hfuel : nodes.length < fuel)
    (module : ModuleRef) (w : DeclRef → Nat) (N : Nat)
    (hwf : FinitelyNested s.decls w N)
    (hkind : ∀ u ∈ (s.modules module).units, ∀ c ∈ (s.units u).ct_ifs,
      (s.decls c).decl_kind = DECL_CT_IF) :
    (∀ k, k < (c :: nodes).length →
      (∀ j, j < k → cond_value ext context (c :: nodes) s j = 0) →
      cond_value ext context (c :: nodes) s k = -1 →
      ∃ s', sema_analyse_top_level_if ext fuel context c s = Except.ok (false, s') ∧
        s'.trace = s.trace
          ++ ((c :: nodes).take (k + 1)).map
              (fun p => Event.check_comp_time_bool context.unit (s.decls p).ct_expr)) ∧
    ((∀ k, k < (c :: nodes).length →
        (∀ j, j < k → cond_value ext context (c :: nodes) s j = 0) →
        cond_value ext context (c :: nodes) s k ≠ -1) →
      ∃ s', sema_analyse_top_level_if ext fuel context c s = Except.ok (true, s')) ∧
    (∃ s' fuel0 new,
      (∀ fuel, fuel0 ≤ fuel →
        sema_analysis_pass_conditional_compilation ext fuel module s = Except.ok s') ∧
      s'.trace = s.trace ++ new ∧
      ∀ u ∈ (s.modules module).units, ∀ c ∈ (s.units u).ct_ifs,
        Event.check_comp_time_bool u (s.decls c).ct_expr ∈ new) := by
  obtain ⟨h1, h2, h3⟩ := chain_outcome_spec ext context last (c :: nodes) s
  have heq := top_level_if_eq ext context c s nodes last fuel hchain hfuel
  refine ⟨?_, ?_, ?_⟩
  · intro k hk hb herr
    exact ⟨_, by rw [heq, h1 k hk hb herr], by rw [after_checks_trace]⟩
  · intro hnoerr
    rcases first_nonzero (cond_value ext context (c :: nodes) s) (c :: nodes).length with
      hall | ⟨k, hk, hb, hne⟩
    · exact ⟨_, by rw [heq, h3 hall]⟩
    · exact ⟨_, by rw [heq, h2 k hk hb hne (hnoerr k hk hb)]⟩
  · obtain ⟨s', fuel0, hrun, -, -, new, htr, hev⟩ :=
      conditional_units_run ext s.decls w N hwf (s.modules module).units s rfl hkind
    exact ⟨s', fuel0, new, hrun, htr, hev⟩

/-- The links of declaration `30` of `demo_conditionals`: one `elif`, then the
`else`. -/
theorem demo_chain_30 :
    ElifChain demo_conditionals.decls (demo_conditionals.decls 30).ct_elif [31] (some 32) :=
  ElifChain.ct_elif 31 [] (some 32) (by decide) (ElifChain.ct_else 32 (by decide))

/-- The conditionals of `demo_conditionals` are well formed and finitely
nested. -/
theorem demo_finitely_nested :
    FinitelyNested demo_conditionals.decls (fun c => if c = 30 then 2 else 1) 2 := by
  intro c hc
  by_cases h30 : c = 30
  · subst h30
    exact ⟨[31], some 32, demo_chain_30, by decide, by decide⟩
  · by_cases h43 : c = 43
    · subst h43
      exact ⟨[], none, ElifChain.null, by decide, by decide⟩
    · by_cases h50 : c = 50
      · subst h50
        exact ⟨[], none, ElifChain.null, by decide, by decide⟩
      · exfalso
        by_cases h31 : c = 31
        · subst h31; revert hc; decide
        · by_cases h32 : c = 32
          · subst h32; revert hc; decide
          · simp [demo_conditionals, h30, h31, h32, h43, h50, demo_decl] at hc

/-- C8 on the chain of declaration `30` of `demo_conditionals`. -/
theorem top_level_if_files_at_most_one_branch_witness :
    ∃ r s' k b, sema_analyse_top_level_if demo_analysers 2 demo_context 30 demo_conditionals
        = Except.ok (r, s') ∧
      k ≤ 2 ∧ (b = [] ∨ b ∈ [[40, 41], [42], [43, 44]]) ∧
      s'.trace = ([30, 31].take k).map
            (fun p => Event.check_comp_time_bool 0 (demo_conditionals.decls p).ct_expr)
        ++ b.map (fun d => Event.register_global_decl 0 d) :=
  top_level_if_files_at_most_one_branch demo_analysers demo_context 30 demo_conditionals
    [31] (some 32) 2 demo_chain_30 (by decide)

/-- C9 on the chain of declaration `30` of `demo_conditionals`, which reads
`if false; elif false; else`: exactly the two declarations of the `else` are
filed. -/
theorem top_level_if_files_first_true_branch_witness :
    ∃ s', sema_analyse_top_level_if demo_analysers 2 demo_context 30 demo_conditionals
        = Except.ok (true, s') ∧
      s'.trace = [Event.check_comp_time_bool 0 1, Event.check_comp_time_bool 0 2,
        Event.register_global_decl 0 43, Event.register_global_decl 0 44] :=
  (top_level_if_files_first_true_branch demo_analysers demo_context 30 demo_conditionals
    [31] (some 32) 2 demo_chain_30 (by decide)).2 (by decide)

/-- C10 on `demo_conditionals`: the pass evaluates the chain of unit `0` and
the chain of unit `1`, whose condition is an error. -/
theorem conditional_error_aborts_only_its_chain_witness :
    ∃ s' fuel0 new,
      (∀ fuel, fuel0 ≤ fuel →
        sema_analysis_pass_conditional_compilation demo_analysers fuel 0 demo_conditionals
          = Except.ok s') ∧
      s'.trace = demo_conditionals.trace ++ new ∧
      Event.check_comp_time_bool 0 1 ∈ new ∧ Event.check_comp_time_bool 1 4 ∈ new := by
  obtain ⟨s', fuel0, new, hrun, htr, hev⟩ :=
    (conditional_error_aborts_only_its_chain demo_analysers demo_context 30 demo_conditionals
      [31] (some 32) 2 demo_chain_30 (by decide) 0 (fun c => if c = 30 then 2 else 1) 2
      demo_finitely_nested (by decide)).2.2
  exact ⟨s', fuel0, new, hrun, htr, hev 0 (by decide) 30 (by decide),
    hev 1 (by decide) 50 (by decide)⟩

/-! ## The assertion pass -/

theorem ct_assert_list_spec (ext : Analysers) (context : SemaContext) :
    ∀ (L : List DeclRef) (s : SemaState),
      (L.foldl (fun s a =>
          (sema_analyse_ct_assert_stmt ext context (s.decls a).ct_assert_decl s).2) s).trace
        = s.trace ++ L.map
            (fun a => Event.analyse_ct_assert_stmt context.unit (s.decls a).ct_assert_decl) ∧
      (L.foldl (fun s a =>
          (sema_analyse_ct_assert_stmt ext context (s.decls a).ct_assert_decl s).2) s).decls
        = s.decls ∧
      (L.foldl (fun s a =>
          (sema_analyse_ct_assert_stmt ext context (s.decls a).ct_assert_decl s).2) s).units
        = s.units ∧
      (L.foldl (fun s a =>
          (sema_analyse_ct_assert_stmt ext context (s.decls a).ct_assert_decl s).2) s).modules
        = s.modules := by
  intro L
  induction L with
  | nil => intro s; simp
  | cons a L ih =>
    intro s
    obtain ⟨h1, h2, h3, h4⟩ :=
      ih (sema_analyse_ct_assert_stmt ext context (s.decls a).ct_assert_decl s).2
    rw [List.foldl_cons]
    refine ⟨?_, ?_, ?_, ?_⟩
    · rw [h1]; simp [sema_analyse_ct_assert_stmt]
    · rw [h2]; rfl
    · rw [h3]; rfl
    · rw [h4]; rfl

theorem ct_assert_unit_spec (ext : Analysers) (u : UnitRef) (s : SemaState) :
    (ct_assert_unit ext u s).trace = s.trace ++ ct_assert_block s u ∧
    (ct_assert_unit ext u s).decls = s.decls ∧
    (ct_assert_unit ext u s).units = s.units ∧
    (ct_assert_unit ext u s).modules = s.modules := by
  obtain ⟨h1, h2, h3, h4⟩ := ct_assert_list_spec ext (sema_context_init ext u s).1
    ((sema_context_init ext u s).2.units (sema_context_init ext u s).1.unit).ct_asserts
    (sema_context_init ext u s).2
  unfold ct_assert_unit sema_context_destroy
  simp only [log_trace, log_decls, log_units, log_modules]
  refine ⟨?_, ?_, ?_, ?_⟩
  · rw [h1]
    simp [sema_context_init, ct_assert_block]
  · rw [h2]; rfl
  · rw [h3]; rfl
  · rw [h4]; rfl

theorem ct_assert_units_spec (ext : Analysers) :
    ∀ (U : List UnitRef) (s : SemaState),
      (U.foldl (fun s unit => ct_assert_unit ext unit s) s).trace
        = s.trace ++ U.flatMap (ct_assert_block s) ∧
      (U.foldl (fun s unit => ct_assert_unit ext unit s) s).decls = s.decls ∧
      (U.foldl (fun s unit => ct_assert_unit ext unit s) s).units = s.units ∧
      (U.foldl (fun s unit => ct_assert_unit ext unit s) s).modules = s.modules := by
  intro U
  induction U with
  | nil => intro s; simp
  | cons u U ih =>
    intro s
    obtain ⟨h1, h2, h3, h4⟩ := ct_assert_unit_spec ext u s
    obtain ⟨k1, k2, k3, k4⟩ := ih (ct_assert_unit ext u s)
    rw [List.foldl_cons]
    refine ⟨?_, by rw [k2, h2], by rw [k3, h3], by rw [k4, h4]⟩
    rw [k1, h1, List.flatMap_cons, List.append_assoc]
    congr 2
    apply List.flatMap_congr
    intro v _
    simp only [ct_assert_block, h2, h3]

/-- C15. For every module and every assertion analyser, the calls of
`sema_analysis_pass_ct_assert` are, unit by unit in unit order, the
construction of the context, one call of the analyser for every assertion of
the unit in list order, and the teardown of the context: every assertion is
evaluated exactly once, whatever the analyser answered for the ones before. -/
theorem ct_assert_pass_evaluates_every_assertion (ext : Analysers) (module : ModuleRef)
    (s : SemaState) :
    (sema_analysis_pass_ct_assert ext module s).trace
      = s.trace ++ (s.modules module).units.flatMap (fun u =>
          Event.context_init u ::
            ((s.units u).ct_asserts.map
                (fun a => Event.analyse_ct_assert_stmt u (s.decls a).ct_assert_decl)
              ++ [Event.context_destroy u])) :=
  (ct_assert_units_spec ext (s.modules module).units s).1

/-! ## The declaration pass -/

theorem analyse_decl_list_spec (ext : Analysers) (context : SemaContext) :
    ∀ (L : List DeclRef) (s : SemaState),
      (analyse_decl_list ext context L s).trace
        = s.trace ++ L.map (fun d => Event.analyse_decl context d) ∧
      (analyse_decl_list ext context L s).units = s.units ∧
      (analyse_decl_list ext context L s).modules = s.modules := by
  intro L
  induction L with
  | nil => intro s; simp [analyse_decl_list]
  | cons d L ih =>
    intro s
    obtain ⟨h1, h2, h3⟩ := ih (sema_analyse_decl ext context d s).2
    unfold analyse_decl_list at h1 h2 h3 ⊢
    rw [List.foldl_cons]
    refine ⟨?_, ?_, ?_⟩
    · rw [h1]; simp [sema_analyse_decl]
    · rw [h2]; rfl
    · rw [h3]; rfl

theorem decls_unit_spec (ext : Analysers) (u : UnitRef) (s : SemaState) :
    (decls_unit ext u s).trace = s.trace ++ decls_block s u ∧
    (decls_unit ext u s).units = s.units ∧
    (decls_unit ext u s).modules = s.modules := by
  unfold decls_unit sema_context_destroy
  simp only [log_trace, log_units, log_modules]
  have hc : ({ (sema_context_init ext u s).1 with active_scope := decls_pass_scope }
      : SemaContext) = decls_pass_context u := rfl
  rw [hc]
  generalize hs0 : (sema_context_init ext u s).2 = s0
  have hu0 : s0.units = s.units := by rw [← hs0]; rfl
  have hm0 : s0.modules = s.modules := by rw [← hs0]; rfl
  have ht0 : s0.trace = s.trace ++ [Event.context_init u] := by rw [← hs0]; rfl
  obtain ⟨t1, u1, m1⟩ := analyse_decl_list_spec ext (decls_pass_context u) (s0.units u).enums s0
  generalize analyse_decl_list ext (decls_pass_context u) (s0.units u).enums s0 = s1
    at t1 u1 m1 ⊢
  obtain ⟨t2, u2, m2⟩ := analyse_decl_list_spec ext (decls_pass_context u) (s1.units u).types s1
  generalize analyse_decl_list ext (decls_pass_context u) (s1.units u).types s1 = s2
    at t2 u2 m2 ⊢
  obtain ⟨t3, u3, m3⟩ := analyse_decl_list_spec ext (decls_pass_context u) (s2.units u).macros s2
  generalize analyse_decl_list ext (decls_pass_context u) (s2.units u).macros s2 = s3
    at t3 u3 m3 ⊢
  obtain ⟨t4, u4, m4⟩ :=
    analyse_decl_list_spec ext (decls_pass_context u) (s3.units u).generics s3
  generalize analyse_decl_list ext (decls_pass_context u) (s3.units u).generics s3 = s4
    at t4 u4 m4 ⊢
  obtain ⟨t5, u5, m5⟩ :=
    analyse_decl_list_spec ext (decls_pass_context u) (s4.units u).methods s4
  generalize analyse_decl_list ext (decls_pass_context u) (s4.units u).methods s4 = s5
    at t5 u5 m5 ⊢
  obtain ⟨t6, u6, m6⟩ :=
    analyse_decl_list_spec ext (decls_pass_context u) (s5.units u).macro_methods s5
  generalize analyse_decl_list ext (decls_pass_context u) (s5.units u).macro_methods s5 = s6
    at t6 u6 m6 ⊢
  obtain ⟨t7, u7, m7⟩ := analyse_decl_list_spec ext (decls_pass_context u) (s6.units u).vars s6
  generalize analyse_decl_list ext (decls_pass_context u) (s6.units u).vars s6 = s7
    at t7 u7 m7 ⊢
  obtain ⟨t8, u8, m8⟩ :=
    analyse_decl_list_spec ext (decls_pass_context u) (s7.units u).functions s7
  generalize analyse_decl_list ext (decls_pass_context u) (s7.units u).functions s7 = s8
    at t8 u8 m8 ⊢
  have hmain : ∃ s9, (match (s8.units u).main_function with
        | some main_function => (sema_analyse_decl ext (decls_pass_context u) main_function s8).2
        | none => s8) = s9 ∧
      s9.trace = s8.trace ++ (s8.units u).main_function.toList.map
        (fun d => Event.analyse_decl (decls_pass_context u) d) ∧
      s9.units = s8.units ∧ s9.modules = s8.modules := by
    cases (s8.units u).main_function with
    | none => exact ⟨s8, rfl, by simp, rfl, rfl⟩
    | some m => exact ⟨_, rfl, by simp [sema_analyse_decl], rfl, rfl⟩
  obtain ⟨s9, h9, t9, u9, m9⟩ := hmain
  rw [h9]
  obtain ⟨t10, u10, m10⟩ :=
    analyse_decl_list_spec ext (decls_pass_context u) (s9.units u).generic_defines s9
  generalize analyse_decl_list ext (decls_pass_context u) (s9.units u).generic_defines s9 = s10
    at t10 u10 m10 ⊢
  have e1 : s1.units = s.units := by rw [u1, hu0]
  have e2 : s2.units = s.units := by rw [u2, e1]
  have e3 : s3.units = s.units := by rw [u3, e2]
  have e4 : s4.units = s.units := by rw [u4, e3]
  have e5 : s5.units = s.units := by rw [u5, e4]
  have e6 : s6.units = s.units := by rw [u6, e5]
  have e7 : s7.units = s.units := by rw [u7, e6]
  have e8 : s8.units = s.units := by rw [u8, e7]
  have e9 : s9.units = s.units := by rw [u9, e8]
  refine ⟨?_, by rw [u10, e9], by rw [m10, m9, m8, m7, m6, m5, m4, m3, m2, m1, hm0]⟩
  rw [t10, t9, t8, t7, t6, t5, t4, t3, t2, t1, ht0, hu0, e1, e2, e3, e4, e5, e6, e7, e8, e9]
  have hunit : (sema_context_init ext u s).1.unit = u := rfl
  simp [decls_block, decl_order, hunit]

theorem decls_block_congr (s s1 : SemaState) (u : UnitRef) (h : s1.units = s.units) :
    decls_block s1 u = decls_block s u := by
  unfold decls_block decl_order
  rw [h]

theorem decls_units_spec (ext : Analysers) :
    ∀ (U : List UnitRef) (s : SemaState),
      (U.foldl (fun s unit => decls_unit ext unit s) s).trace
        = s.trace ++ U.flatMap (decls_block s) ∧
      (U.foldl (fun s unit => decls_unit ext unit s) s).units = s.units ∧
      (U.foldl (fun s unit => decls_unit ext unit s) s).modules = s.modules := by
  intro U
  induction U with
  | nil => intro s; simp
  | cons u U ih =>
    intro s
    obtain ⟨h1, h3, h4⟩ := decls_unit_spec ext u s
    obtain ⟨k1, k3, k4⟩ := ih (decls_unit ext u s)
    have hb : U.flatMap (decls_block (decls_unit ext u s)) = U.flatMap (decls_block s) :=
      List.flatMap_congr (fun v _ => decls_block_congr s _ v h3)
    rw [List.foldl_cons]
    refine ⟨?_, by rw [k3, h3], by rw [k4, h4]⟩
    rw [k1, h1, hb, List.flatMap_cons, List.append_assoc]

theorem analysed_decls_append (a b : List Event) :
    analysed_decls (a ++ b) = analysed_decls a ++ analysed_decls b := by
  simp [analysed_decls, List.filterMap_append]

theorem analysed_decls_block (s : SemaState) (u : UnitRef) :
    analysed_decls (decls_block s u) = decl_order s u := by
  unfold decls_block
  rw [show Event.context_init u :: ((decl_order s u).map
        (fun d => Event.analyse_decl (decls_pass_context u) d) ++ [Event.context_destroy u])
      = [Event.context_init u] ++ ((decl_order s u).map
        (fun d => Event.analyse_decl (decls_pass_context u) d) ++ [Event.context_destroy u])
      from rfl, analysed_decls_append, analysed_decls_append]
  have h1 : analysed_decls [Event.context_init u] = [] := rfl
  have h2 : analysed_decls [Event.context_destroy u] = [] := rfl
  rw [h1, h2]
  simp only [List.nil_append, List.append_nil]
  generalize decl_order s u = L
  induction L with
  | nil => rfl
  | cons d L ih =>
    rw [List.map_cons]
    show d :: analysed_decls _ = d :: L
    rw [ih]

theorem analysed_decls_blocks (s : SemaState) (U : List UnitRef) :
    analysed_decls (U.flatMap (decls_block s)) = U.flatMap (decl_order s) := by
  induction U with
  | nil => rfl
  | cons u U ih =>
    rw [List.flatMap_cons, List.flatMap_cons, analysed_decls_append, ih, analysed_decls_block]

/-- C11. For every module and every declaration analyser, the calls of
`sema_analysis_pass_decls` are, unit by unit in unit order: the construction of
the context, one call of `sema_analyse_decl` for every declaration of the
unit's enums, types, macros, generics, methods, macro_methods, vars, functions,
main function if present, and generic_defines, in that order and each list in
index order, and the teardown.  So within a unit the types are handed over in
a part of the sequence that ends before the part with the vars and the
functions begins, and no call of the body analyser is made. -/
theorem decls_pass_follows_category_order (ext : Analysers) (module : ModuleRef)
    (s : SemaState) :
    (sema_analysis_pass_decls ext module s).trace
      = s.trace ++ (s.modules module).units.flatMap (fun u =>
          Event.context_init u ::
            (((s.units u).enums ++ (s.units u).types ++ (s.units u).macros ++
                (s.units u).generics ++ (s.units u).methods ++ (s.units u).macro_methods ++
                (s.units u).vars ++ (s.units u).functions ++
                (s.units u).main_function.toList ++ (s.units u).generic_defines).map
                (fun d => Event.analyse_decl (decls_pass_context u) d)
              ++ [Event.context_destroy u])) ∧
    (∀ u, ∃ first second, decl_order s u = first ++ second ∧
      (∀ t ∈ (s.units u).types, t ∈ first) ∧
      (∀ v ∈ (s.units u).vars, v ∈ second) ∧
      (∀ f ∈ (s.units u).functions, f ∈ second)) ∧
    (∀ u d ok, Event.analyse_function_body u d ok ∉
      (sema_analysis_pass_decls ext module s).trace.drop s.trace.length) := by
  have h := (decls_units_spec ext (s.modules module).units s).1
  refine ⟨h, ?_, ?_⟩
  · intro u
    refine ⟨(s.units u).enums ++ (s.units u).types ++ (s.units u).macros ++
        (s.units u).generics ++ (s.units u).methods ++ (s.units u).macro_methods,
      (s.units u).vars ++ (s.units u).functions ++ (s.units u).main_function.toList ++
        (s.units u).generic_defines, ?_, ?_, ?_, ?_⟩
    · simp [decl_order]
    · intro t ht; simp [ht]
    · intro v hv; simp [hv]
    · intro f hf; simp [hf]
  · intro u d ok hmem
    have h' : (sema_analysis_pass_decls ext module s).trace
        = s.trace ++ (s.modules module).units.flatMap (decls_block s) := h
    rw [h', List.drop_left] at hmem
    obtain ⟨v, -, hv⟩ := List.mem_flatMap.1 hmem
    simp [decls_block] at hv

/-- C14. For every module there is one sequence of calls that the
declaration pass makes whatever `sema_analyse_decl` answers and whatever it
does to the declarations: the declarations it hands over are those of every
category of every unit, each list position once, in the order of the pass; and
the units are left as they were. -/
theorem decls_pass_ignores_analyser_results (module : ModuleRef) (s : SemaState) :
    ∃ calls,
      (∀ ext : Analysers, (sema_analysis_pass_decls ext module s).trace = s.trace ++ calls) ∧
      analysed_decls calls = (s.modules module).units.flatMap (decl_order s) ∧
      (∀ ext : Analysers, (sema_analysis_pass_decls ext module s).units = s.units) :=
  ⟨(s.modules module).units.flatMap (decls_block s),
    fun ext => (decls_units_spec ext (s.modules module).units s).1,
    analysed_decls_blocks s _,
    fun ext => (decls_units_spec ext (s.modules module).units s).2.1⟩

/-! ## The function pass -/

theorem bodies_done_refl (s : SemaState) : BodiesDone s s [] :=
  ⟨by simp, rfl, rfl, fun _ h => (by obtain ⟨u, hu⟩ := h; cases hu), fun _ _ => rfl⟩

theorem bodies_done_func_body (s0 s : SemaState) (calls : List Event) (d : DeclRef)
    (h : BodiesDone s0 s calls) : (s.decls d).func_body = (s0.decls d).func_body := by
  by_cases hf : ∃ u, Event.analyse_function_body u d false ∈ calls
  · rw [h.failed d hf]
  · rw [h.passed d hf]

/-- One visit of `analyse_func_body`: no call for a declaration without a body,
one call otherwise. -/
theorem analyse_func_body_spec (ext : Analysers) (context : SemaContext) (d : DeclRef)
    (s0 s : SemaState) (calls : List Event) (h : BodiesDone s0 s calls) :
    ∃ step, BodiesDone s0 (analyse_func_body ext context d s) (calls ++ step) ∧
      body_calls step
        = (if (s0.decls d).func_body = none then [] else [(context.unit, d)]) ∧
      ∀ e ∈ step, ∃ ok, e = Event.analyse_function_body context.unit d ok := by
  have hb := bodies_done_func_body s0 s calls d h
  unfold analyse_func_body
  by_cases hbody : (s0.decls d).func_body = none
  · rw [if_pos (hb.trans hbody), if_pos hbody]
    exact ⟨[], by simpa using h, rfl, fun e he => by cases he⟩
  · rw [if_neg (fun hh => hbody (hb.symm.trans hh)), if_neg hbody]
    cases hr : ext.sema_analyse_function_body s context d with
    | true =>
      refine ⟨[Event.analyse_function_body context.unit d true], ?_, rfl, ?_⟩
      · simp only [sema_analyse_function_body, hr, Bool.true_eq_false, if_false]
        refine ⟨by simp [h.trace], h.units, h.modules, ?_, ?_⟩
        · intro d' hd'
          obtain ⟨u, hu⟩ := hd'
          have : Event.analyse_function_body u d' false ∈ calls := by
            simpa using hu
          exact h.failed d' ⟨u, this⟩
        · intro d' hd'
          exact h.passed d' (fun ⟨u, hu⟩ => hd' ⟨u, List.mem_append_left _ hu⟩)
      · intro e he
        exact ⟨true, by simpa using he⟩
    | false =>
      refine ⟨[Event.analyse_function_body context.unit d false], ?_, rfl, ?_⟩
      · simp only [sema_analyse_function_body, hr, if_true]
        refine ⟨by simp [h.trace], h.units, h.modules, ?_, ?_⟩
        · intro d' hd'
          obtain ⟨u, hu⟩ := hd'
          by_cases hdd : d' = d
          · subst hdd
            simp only [decl_poison_decls, if_true, log_decls]
            by_cases hf : ∃ u, Event.analyse_function_body u d' false ∈ calls
            · rw [h.failed d' hf]
            · rw [h.passed d' hf]
          · have : Event.analyse_function_body u d' false ∈ calls := by
              rcases List.mem_append.1 hu with h1 | h1
              · exact h1
              · simp at h1; exact absurd h1.2 hdd
            simp only [decl_poison_decls, hdd, if_false, log_decls]
            exact h.failed d' ⟨u, this⟩
        · intro d' hd'
          have hdd : d' ≠ d := by
            intro hdd
            apply hd'
            exact ⟨context.unit, by rw [hdd]; simp⟩
          simp only [decl_poison_decls, hdd, if_false, log_decls]
          exact h.passed d' (fun ⟨u, hu⟩ => hd' ⟨u, List.mem_append_left _ hu⟩)
      · intro e he
        exact ⟨false, by simpa using he⟩

theorem bracketed_append (a b : List Event) (ha : Bracketed a) (hb : Bracketed b) :
    Bracketed (a ++ b) := by
  induction ha with
  | nil => exact hb
  | visit u body rest hbody _ ih =>
    have : Event.context_init u :: (body ++ Event.context_destroy u :: rest) ++ b
        = Event.context_init u :: (body ++ Event.context_destroy u :: (rest ++ b)) := by
      simp
    rw [this]
    exact Bracketed.visit u body (rest ++ b) hbody ih

theorem bracketed_single (u : UnitRef) (body : List Event)
    (h : ∀ e ∈ body, e.call_unit = some u) :
    Bracketed (Event.context_init u :: (body ++ [Event.context_destroy u])) :=
  Bracketed.visit u body [] h Bracketed.nil

theorem bracketed_flatMap (U : List UnitRef) (block : UnitRef → List Event)
    (h : ∀ u ∈ U, Bracketed (block u)) : Bracketed (U.flatMap block) := by
  induction U with
  | nil => exact Bracketed.nil
  | cons u U ih =>
    rw [List.flatMap_cons]
    exact bracketed_append _ _ (h u (List.mem_cons_self u U))
      (ih (fun v hv => h v (List.mem_cons_of_mem u hv)))

theorem bodies_done_log (s0 s : SemaState) (calls : List Event) (e : Event)
    (h : BodiesDone s0 s calls) (he : ∀ u d, e ≠ Event.analyse_function_body u d false) :
    BodiesDone s0 (s.log e) (calls ++ [e]) := by
  refine ⟨by simp [h.trace], h.units, h.modules, ?_, ?_⟩
  · intro d ⟨u, hu⟩
    rcases List.mem_append.1 hu with h1 | h1
    · exact h.failed d ⟨u, h1⟩
    · exact absurd (List.mem_singleton.1 h1).symm (he u d)
  · intro d hd
    exact h.passed d (fun ⟨u, hu⟩ => hd ⟨u, List.mem_append_left _ hu⟩)

theorem analyse_func_body_list_spec (ext : Analysers) (context : SemaContext) (s0 : SemaState) :
    ∀ (L : List DeclRef) (s : SemaState) (calls : List Event), BodiesDone s0 s calls →
      ∃ more, BodiesDone s0 (L.foldl (fun s decl => analyse_func_body ext context decl s) s)
          (calls ++ more) ∧
        body_calls more
          = (L.filter (fun d => decide ((s0.decls d).func_body ≠ none))).map
              (fun d => (context.unit, d)) ∧
        ∀ e ∈ more, e.call_unit = some context.unit := by
  intro L
  induction L with
  | nil =>
    intro s calls h
    exact ⟨[], by simpa using h, rfl, fun e he => by cases he⟩
  | cons d L ih =>
    intro s calls h
    obtain ⟨step, h1, hc1, he1⟩ := analyse_func_body_spec ext context d s0 s calls h
    obtain ⟨more, h2, hc2, he2⟩ := ih _ _ h1
    refine ⟨step ++ more, by rw [List.foldl_cons, ← List.append_assoc]; exact h2, ?_, ?_⟩
    · have : body_calls (step ++ more) = body_calls step ++ body_calls more := by
        simp [body_calls, List.filterMap_append]
      rw [this, hc1, hc2, List.filter_cons]
      by_cases hb : (s0.decls d).func_body = none <;> simp [hb]
    · intro e he
      rcases List.mem_append.1 he with h3 | h3
      · obtain ⟨ok, hok⟩ := he1 e h3
        rw [hok]; rfl
      · exact he2 e h3

theorem body_calls_append (a b : List Event) :
    body_calls (a ++ b) = body_calls a ++ body_calls b := by
  simp [body_calls, List.filterMap_append]

theorem functions_unit_spec (ext : Analysers) (u : UnitRef) (s0 s : SemaState)
    (calls : List Event) (h : BodiesDone s0 s calls) :
    ∃ body, BodiesDone s0 (functions_unit ext u s)
        (calls ++ Event.context_init u :: (body ++ [Event.context_destroy u])) ∧
      body_calls body
        = ((body_order s0 u).filter (fun d => decide ((s0.decls d).func_body ≠ none))).map
            (fun d => (u, d)) ∧
      ∀ e ∈ body, e.call_unit = some u := by
  have hi : BodiesDone s0 (sema_context_init ext u s).2 (calls ++ [Event.context_init u]) :=
    bodies_done_log s0 s calls _ h (fun _ _ hne => by cases hne)
  have hcu : (sema_context_init ext u s).1.unit = u := rfl
  obtain ⟨m1, h1, c1, e1⟩ := analyse_func_body_list_spec ext (sema_context_init ext u s).1 s0
    (((sema_context_init ext u s).2.units u).methods) _ _ hi
  generalize hs1 : List.foldl (fun t decl => analyse_func_body ext (sema_context_init ext u s).1
    decl t) (sema_context_init ext u s).2 ((sema_context_init ext u s).2.units u).methods = s1
    at h1
  obtain ⟨m2, h2, c2, e2⟩ := analyse_func_body_list_spec ext (sema_context_init ext u s).1 s0
    ((s1.units u).functions) _ _ h1
  generalize hs2 : List.foldl (fun t decl => analyse_func_body ext (sema_context_init ext u s).1
    decl t) s1 (s1.units u).functions = s2 at h2
  have hmain : ∃ m3, BodiesDone s0 (match (s2.units u).main_function with
        | some main_function =>
          analyse_func_body ext (sema_context_init ext u s).1 main_function s2
        | none => s2) (calls ++ [Event.context_init u] ++ m1 ++ m2 ++ m3) ∧
      body_calls m3 = ((s0.units u).main_function.toList.filter
        (fun d => decide ((s0.decls d).func_body ≠ none))).map (fun d => (u, d)) ∧
      ∀ e ∈ m3, e.call_unit = some u := by
    rw [h2.units]
    cases (s0.units u).main_function with
    | none => exact ⟨[], by simpa using h2, rfl, fun e he => by cases he⟩
    | some m =>
      obtain ⟨step, h3, c3, e3⟩ :=
        analyse_func_body_spec ext (sema_context_init ext u s).1 m s0 s2 _ h2
      refine ⟨step, h3, ?_, ?_⟩
      · rw [c3, hcu]
        by_cases hb : (s0.decls m).func_body = none <;> simp [hb]
      · intro e he
        obtain ⟨ok, hok⟩ := e3 e he
        rw [hok]; rfl
  obtain ⟨m3, h3, c3, e3⟩ := hmain
  have hd := bodies_done_log s0 _ _ (Event.context_destroy u) h3 (fun _ _ hne => by cases hne)
  refine ⟨m1 ++ m2 ++ m3, ?_, ?_, ?_⟩
  · have hfun : functions_unit ext u s = SemaState.log (match (s2.units u).main_function with
        | some main_function =>
          analyse_func_body ext (sema_context_init ext u s).1 main_function s2
        | none => s2) (Event.context_destroy u) := by
      rw [← hs2, ← hs1]; rfl
    rw [hfun]
    have hl : calls ++ Event.context_init u :: (m1 ++ m2 ++ m3 ++ [Event.context_destroy u])
        = calls ++ [Event.context_init u] ++ m1 ++ m2 ++ m3 ++ [Event.context_destroy u] := by
      simp
    rw [hl]
    exact hd
  · rw [body_calls_append, body_calls_append, c1, c2, c3, hcu, hi.units, h1.units]
    simp [body_order]
  · intro e he
    rcases List.mem_append.1 he with h12 | h5
    · rcases List.mem_append.1 h12 with h4 | h4
      · exact e1 e h4
      · exact e2 e h4
    · exact e3 e h5

theorem functions_units_spec (ext : Analysers) (s0 : SemaState) :
    ∀ (U : List UnitRef) (s : SemaState) (calls : List Event), BodiesDone s0 s calls →
      ∃ more, BodiesDone s0 (U.foldl (fun s unit => functions_unit ext unit s) s)
          (calls ++ more) ∧
        body_calls more = expected_body_calls s0 U ∧ Bracketed more := by
  intro U
  induction U with
  | nil =>
    intro s calls h
    exact ⟨[], by simpa using h, rfl, Bracketed.nil⟩
  | cons u U ih =>
    intro s calls h
    obtain ⟨body, h1, c1, e1⟩ := functions_unit_spec ext u s0 s calls h
    obtain ⟨more, h2, c2, b2⟩ := ih _ _ h1
    refine ⟨Event.context_init u :: (body ++ [Event.context_destroy u]) ++ more,
      by rw [List.foldl_cons, ← List.append_assoc]; exact h2, ?_,
      bracketed_append _ _ (bracketed_single u body e1) b2⟩
    rw [body_calls_append, c2]
    have : body_calls (Event.context_init u :: (body ++ [Event.context_destroy u]))
        = body_calls body := by
      rw [show Event.context_init u :: (body ++ [Event.context_destroy u])
        = [Event.context_init u] ++ (body ++ [Event.context_destroy u]) from rfl,
        body_calls_append, body_calls_append]
      simp [body_calls]
    rw [this, c1]
    simp [expected_body_calls]

/-- C12. For every module and every body analyser, the function pass calls
the analyser, unit by unit in unit order, on exactly the declarations with a
body among the unit's methods, then functions, then main function, one call per
visit and in that order, whatever the earlier calls answered; and afterwards a
declaration is poisoned if a call on it failed, and otherwise is as it was, so
that a visited declaration without a body is unchanged. -/
theorem functions_pass_poisons_failed_bodies (ext : Analysers) (module : ModuleRef)
    (s : SemaState) :
    ∃ calls, (sema_analysis_pass_functions ext module s).trace = s.trace ++ calls ∧
      body_calls calls = (s.modules module).units.flatMap (fun u =>
        (((s.units u).methods ++ (s.units u).functions ++ (s.units u).main_function.toList).filter
          (fun d => decide ((s.decls d).func_body ≠ none))).map (fun d => (u, d))) ∧
      (∀ d, (∃ u, Event.analyse_function_body u d false ∈ calls) →
        (sema_analysis_pass_functions ext module s).decls d
          = { s.decls d with poisoned := true }) ∧
      (∀ d, (¬ ∃ u, Event.analyse_function_body u d false ∈ calls) →
        (sema_analysis_pass_functions ext module s).decls d = s.decls d) ∧
      (∀ u d ok, Event.analyse_function_body u d ok ∈ calls →
        (s.decls d).func_body ≠ none) := by
  obtain ⟨calls, h, hc, -⟩ :=
    functions_units_spec ext s (s.modules module).units s [] (bodies_done_refl s)
  rw [List.nil_append] at h
  refine ⟨calls, h.trace, hc, h.failed, h.passed, ?_⟩
  intro u d ok hmem
  have hbc : (u, d) ∈ body_calls calls := by
    unfold body_calls
    exact List.mem_filterMap.2 ⟨_, hmem, rfl⟩
  rw [hc] at hbc
  obtain ⟨v, -, hv⟩ := List.mem_flatMap.1 hbc
  obtain ⟨d', hd', heq⟩ := List.mem_map.1 hv
  have : d' = d := by injection heq
  subst this
  simpa using (List.mem_filter.1 hd').2

/-! ## The registration pass -/

theorem filed_in_append (u : UnitRef) (a b : List Event) :
    filed_in u (a ++ b) = filed_in u a ++ filed_in u b := by
  simp [filed_in, List.filterMap_append]

theorem filed_in_registers (u v : UnitRef) (L : List DeclRef) :
    filed_in u (L.map (fun d => Event.register_global_decl v d))
      = if v = u then L else [] := by
  induction L with
  | nil => simp [filed_in]
  | cons d L ih =>
    rw [List.map_cons, show Event.register_global_decl v d :: L.map
      (fun d => Event.register_global_decl v d) = [Event.register_global_decl v d] ++ L.map
      (fun d => Event.register_global_decl v d) from rfl, filed_in_append, ih]
    by_cases h : v = u <;> simp [filed_in, h]

theorem register_units_module (u : UnitRef) (d : DeclRef) (s : SemaState) :
    ((unit_register_global_decl u d s).units u).module = (s.units u).module := by
  simp only [unit_register_global_decl, modify_unit_units, if_true, log_units]
  cases (s.decls d).decl_kind <;> rfl

theorem register_units_global_decls (u : UnitRef) (d : DeclRef) (s : SemaState) :
    ((unit_register_global_decl u d s).units u).global_decls = (s.units u).global_decls := by
  simp only [unit_register_global_decl, modify_unit_units, if_true, log_units]
  cases (s.decls d).decl_kind <;> rfl

theorem append_decls_units_module (u : UnitRef) (ds : List DeclRef) (s : SemaState) :
    ((sema_append_decls u ds s).units u).module = (s.units u).module := by
  unfold sema_append_decls
  induction ds generalizing s with
  | nil => rfl
  | cons d ds ih => rw [List.foldl_cons, ih, register_units_module]

theorem append_decls_units_global_decls (u : UnitRef) (ds : List DeclRef) (s : SemaState) :
    ((sema_append_decls u ds s).units u).global_decls = (s.units u).global_decls := by
  unfold sema_append_decls
  induction ds generalizing s with
  | nil => rfl
  | cons d ds ih => rw [List.foldl_cons, ih, register_units_global_decls]

/-! ## The visits of the conditional pass -/

theorem ct_ifs_loop_visits (ext : Analysers) (u : UnitRef) (decls : DeclRef → Decl)
    (w : DeclRef → Nat) (N : Nat) (hwf : FinitelyNested decls w N) :
    ∀ (m i : Nat) (s : SemaState), s.decls = decls →
      (∀ c ∈ (s.units u).ct_ifs, (decls c).decl_kind = DECL_CT_IF) →
      (((s.units u).ct_ifs.drop i).map w).sum ≤ m →
      ∃ s' visits, (∀ fuel, m + N ≤ fuel → ct_ifs_loop ext u fuel i s = Except.ok s') ∧
        s'.decls = decls ∧ s'.modules = s.modules ∧
        (∀ v, v ≠ u → s'.units v = s.units v) ∧
        (∀ c ∈ (s'.units u).ct_ifs, (decls c).decl_kind = DECL_CT_IF) ∧
        s'.trace = s.trace ++ visit_calls visits ∧
        (s'.units u).ct_ifs = (s.units u).ct_ifs ++ filed_conditionals decls visits ∧
        List.Forall₂ (ChainVisit decls u) ((s'.units u).ct_ifs.drop i) visits := by
  intro m
  induction m with
  | zero =>
    intro i s hs hkind hm
    by_cases hi : i < (s.units u).ct_ifs.length
    · exfalso
      have hc := hkind _ (List.getElem_mem hi)
      obtain ⟨nodes, last, -, -, hw⟩ := hwf _ hc
      have := hw _ (List.mem_append_left _ (List.mem_cons_self _ _))
      rw [List.drop_eq_getElem_cons hi, List.map_cons, List.sum_cons] at hm
      omega
    · refine ⟨s, [], fun fuel _ => ct_ifs_loop_done ext u fuel i s hi, hs, rfl, fun _ _ => rfl,
        hkind, by simp [visit_calls], by simp [filed_conditionals], ?_⟩
      rw [List.drop_eq_nil_of_le (by omega)]
      exact List.Forall₂.nil
  | succ m ih =>
    intro i s hs hkind hm
    by_cases hi : i < (s.units u).ct_ifs.length
    · have hc := hkind _ (List.getElem_mem hi)
      obtain ⟨nodes, last, hchain, hlen, hw⟩ := hwf _ hc
      have hget : ((sema_context_init ext u s).2.units u).ct_ifs.getD i 0
          = (s.units u).ct_ifs[i] := by
        show (s.units u).ct_ifs.getD i 0 = _
        exact List.getD_eq_getElem _ 0 hi
      obtain ⟨k, b, hk, hkpos, hb, hout⟩ := chain_outcome_shape ext (sema_context_init ext u s).1
        ((s.units u).ct_ifs[i] :: nodes) last (sema_context_init ext u s).2
      have hunit : (sema_context_init ext u s).1.unit = u := rfl
      rw [hunit] at hout
      have hd0 : (sema_context_init ext u s).2.decls = decls := hs
      rw [hd0] at hb
      generalize hs3 : sema_context_destroy (sema_context_init ext u s).1
          (chain_outcome ext (sema_context_init ext u s).1
            ((s.units u).ct_ifs[i] :: nodes) last (sema_context_init ext u s).2).2 = s3
      have hs3d : s3.decls = decls := by
        rw [← hs3]
        show (chain_outcome _ _ _ _ _).2.decls = decls
        rw [hout, append_decls_decls, after_checks_decls]; exact hs
      have hs3c : (s3.units u).ct_ifs = (s.units u).ct_ifs
            ++ b.filter (fun d => decide ((decls d).decl_kind = DECL_CT_IF)) := by
        rw [← hs3]
        show ((chain_outcome _ _ _ _ _).2.units u).ct_ifs = _
        rw [hout, append_decls_ct_ifs, after_checks_units, after_checks_decls]
        show (s.units u).ct_ifs
          ++ List.filter (fun d => decide ((s.decls d).decl_kind = DECL_CT_IF)) b = _
        rw [hs]
      have hs3t : s3.trace = s.trace ++ (Event.context_init u ::
            (((((s.units u).ct_ifs[i] :: nodes).take k).map
                (fun p => Event.check_comp_time_bool u (decls p).ct_expr)
              ++ b.map (fun d => Event.register_global_decl u d))
            ++ [Event.context_destroy u])) := by
        rw [← hs3]
        show (chain_outcome _ _ _ _ _).2.trace ++ [Event.context_destroy u] = _
        rw [hout, append_decls_trace, after_checks_trace]
        show (s.trace ++ [Event.context_init u]
          ++ List.map (fun p => Event.check_comp_time_bool u (s.decls p).ct_expr) _)
          ++ _ ++ _ = _
        rw [hs]
        simp only [List.append_assoc, List.singleton_append, List.cons_append, List.nil_append]
      have hs3m : s3.modules = s.modules := by
        rw [← hs3]
        show (chain_outcome _ _ _ _ _).2.modules = s.modules
        rw [hout, append_decls_modules, after_checks_modules]; rfl
      have hs3u : ∀ v, v ≠ u → s3.units v = s.units v := by
        intro v hv
        rw [← hs3]
        show (chain_outcome _ _ _ _ _).2.units v = s.units v
        rw [hout, append_decls_units_other u v _ _ hv, after_checks_units]; rfl
      have hbw : nested_weight decls w b < w (s.units u).ct_ifs[i] := by
        rcases hb with hb | hb
        · rw [hb]
          have := hw _ (List.mem_append_left _ (List.mem_cons_self _ _))
          simp only [nested_weight, List.filter_nil, List.map_nil, List.sum_nil]
          omega
        · exact hw b hb
      obtain ⟨s', visits, hrun, hd', hm', hu', hk', htr', hct', hfa'⟩ :=
        ih (i + 1) s3 hs3d
          (by
            rw [hs3c]
            intro c hcm
            rcases List.mem_append.1 hcm with h | h
            · exact hkind c h
            · simpa using (List.mem_filter.1 h).2)
          (by
            rw [hs3c, List.drop_append_of_le_length (by omega), List.map_append,
              List.sum_append]
            rw [List.drop_eq_getElem_cons hi, List.map_cons, List.sum_cons] at hm
            unfold nested_weight at hbw
            omega)
      have hlen' : i < (s'.units u).ct_ifs.length := by
        rw [hct', hs3c]; simp; omega
      have hci : (s'.units u).ct_ifs[i] = (s.units u).ct_ifs[i] := by
        have h1 : (s'.units u).ct_ifs
            = (s.units u).ct_ifs ++ (b.filter (fun d => decide ((decls d).decl_kind = DECL_CT_IF))
              ++ filed_conditionals decls visits) := by
          rw [hct', hs3c, List.append_assoc]
        simp only [h1]
        exact List.getElem_append_left hi
      refine ⟨s', (Event.context_init u ::
            (((((s.units u).ct_ifs[i] :: nodes).take k).map
                (fun p => Event.check_comp_time_bool u (decls p).ct_expr)
              ++ b.map (fun d => Event.register_global_decl u d))
            ++ [Event.context_destroy u]), b) :: visits, ?_, hd', by rw [hm', hs3m], ?_, hk',
        ?_, ?_, ?_⟩
      · intro fuel hfuel
        obtain ⟨f, rfl⟩ : ∃ f, fuel = f + 1 := ⟨fuel - 1, by omega⟩
        have hr := top_level_if_eq ext (sema_context_init ext u s).1 (s.units u).ct_ifs[i]
          (sema_context_init ext u s).2 nodes last f (by rw [hd0]; exact hchain) (by omega)
        rw [← hget] at hr
        rw [ct_ifs_loop_step ext u f i s _ hi hr, hget, hs3]
        exact hrun f (by omega)
      · intro v hv
        rw [hu' v hv, hs3u v hv]
      · rw [htr', hs3t, List.append_assoc]
        simp [visit_calls]
      · rw [hct', hs3c, List.append_assoc]
        simp [filed_conditionals]
      · rw [List.drop_eq_getElem_cons hlen', hci]
        exact List.Forall₂.cons ⟨nodes, last, k, hchain, hkpos (by simp), hk, hb, rfl⟩ hfa'
    · refine ⟨s, [], fun fuel _ => ct_ifs_loop_done ext u fuel i s hi, hs, rfl, fun _ _ => rfl,
        hkind, by simp [visit_calls], by simp [filed_conditionals], ?_⟩
      rw [List.drop_eq_nil_of_le (by omega)]
      exact List.Forall₂.nil

theorem chain_visit_bracketed (decls : DeclRef → Decl) (u : UnitRef) (c : DeclRef)
    (visit : List Event × List DeclRef) (h : ChainVisit decls u c visit) :
    Bracketed visit.1 := by
  obtain ⟨nodes, last, k, -, -, -, -, hblock⟩ := h
  rw [hblock]
  apply bracketed_single
  intro e he
  rcases List.mem_append.1 he with h1 | h1
  · obtain ⟨p, -, hp⟩ := List.mem_map.1 h1
    rw [← hp]; rfl
  · obtain ⟨d, -, hd⟩ := List.mem_map.1 h1
    rw [← hd]; rfl

theorem visits_bracketed (decls : DeclRef → Decl) (u : UnitRef) (L : List DeclRef)
    (visits : List (List Event × List DeclRef))
    (h : List.Forall₂ (ChainVisit decls u) L visits) : Bracketed (visit_calls visits) := by
  induction h with
  | nil => exact Bracketed.nil
  | cons hv _ ih =>
    unfold visit_calls
    rw [List.flatMap_cons]
    exact bracketed_append _ _ (chain_visit_bracketed decls u _ _ hv) ih

theorem conditional_units_visits (ext : Analysers) (decls : DeclRef → Decl)
    (w : DeclRef → Nat) (N : Nat) (hwf : FinitelyNested decls w N) :
    ∀ (U : List UnitRef) (s : SemaState), s.decls = decls →
      (∀ u ∈ U, ∀ c ∈ (s.units u).ct_ifs, (decls c).decl_kind = DECL_CT_IF) →
      ∃ s' fuel0 new,
        (∀ fuel, fuel0 ≤ fuel →
          U.foldlM (fun s unit => ct_ifs_loop ext unit fuel 0 s) s = Except.ok s') ∧
        s'.decls = decls ∧ s'.modules = s.modules ∧
        s'.trace = s.trace ++ new ∧ Bracketed new ∧
        (∀ v, v ∉ U → s'.units v = s.units v) ∧
        (U.Nodup → ∃ per : UnitRef → List (List Event × List DeclRef),
          new = U.flatMap (fun u => visit_calls (per u)) ∧
          ∀ u ∈ U,
            (s'.units u).ct_ifs = (s.units u).ct_ifs ++ filed_conditionals decls (per u) ∧
            List.Forall₂ (ChainVisit decls u) (s'.units u).ct_ifs (per u)) := by
  intro U
  induction U with
  | nil =>
    intro s hs _
    exact ⟨s, 0, [], fun _ _ => rfl, hs, rfl, by simp, Bracketed.nil, fun _ _ => rfl,
      fun _ => ⟨fun _ => [], rfl, fun u hu => (by cases hu)⟩⟩
  | cons u U ih =>
    intro s hs hkind
    obtain ⟨s1, visits1, hrun1, hd1, hm1, hu1, hk1, htr1, hct1, hfa1⟩ :=
      ct_ifs_loop_visits ext u decls w N hwf _ 0 s hs (hkind u (List.mem_cons_self u U))
        (Nat.le_refl _)
    rw [List.drop_zero] at hfa1
    have hkind1 : ∀ v ∈ U, ∀ c ∈ (s1.units v).ct_ifs, (decls c).decl_kind = DECL_CT_IF := by
      intro v hv c hc
      by_cases hvu : v = u
      · rw [hvu] at hc; exact hk1 c hc
      · rw [hu1 v hvu] at hc; exact hkind v (List.mem_cons_of_mem u hv) c hc
    obtain ⟨s2, fuel2, new2, hrun2, hd2, hm2, htr2, hbr2, hout2, hper2⟩ := ih s1 hd1 hkind1
    refine ⟨s2, max ((((s.units u).ct_ifs.drop 0).map w).sum + N) fuel2,
      visit_calls visits1 ++ new2, ?_, hd2, by rw [hm2, hm1],
      by rw [htr2, htr1, List.append_assoc],
      bracketed_append _ _ (visits_bracketed decls u _ _ hfa1) hbr2, ?_, ?_⟩
    · intro fuel hfuel
      rw [List.foldlM_cons, hrun1 fuel (le_trans (le_max_left _ _) hfuel)]
      exact hrun2 fuel (le_trans (le_max_right _ _) hfuel)
    · intro v hv
      have hvu : v ≠ u := fun h => hv (h ▸ List.mem_cons_self _ _)
      rw [hout2 v (fun h => hv (List.mem_cons_of_mem _ h)), hu1 v hvu]
    · intro hnd
      obtain ⟨huU, hndU⟩ := List.nodup_cons.1 hnd
      obtain ⟨per2, hnew2, hper2'⟩ := hper2 hndU
      refine ⟨fun v => if v = u then visits1 else per2 v, ?_, ?_⟩
      · rw [List.flatMap_cons, hnew2]
        simp only [if_true]
        congr 1
        apply List.flatMap_congr
        intro v hv
        have hvu : v ≠ u := fun h => huU (h ▸ hv)
        simp only [hvu, if_false]
      · intro v hv
        by_cases hvu : v = u
        · subst hvu
          simp only [if_true]
          rw [hout2 v huU]
          exact ⟨hct1, hfa1⟩
        · have hvU : v ∈ U := by
            rcases List.mem_cons.1 hv with h | h
            · exact absurd h hvu
            · exact h
          simp only [hvu, if_false]
          have := hper2' v hvU
          rw [hu1 v hvu] at this
          exact this

/-! ## Contexts, added chains and termination -/

theorem unit_visit_bracketed (u : UnitRef) (block : List Event) (h : UnitVisit u block) :
    Bracketed block := by
  obtain ⟨body, hb, he⟩ := h
  rw [hb]
  exact bracketed_single u body he

theorem unit_visits_bracketed (U : List UnitRef) (visits : List (List Event))
    (h : List.Forall₂ UnitVisit U visits) : Bracketed (visits.flatMap (fun v => v)) := by
  induction h with
  | nil => exact Bracketed.nil
  | cons hv _ ih =>
    rw [List.flatMap_cons]
    exact bracketed_append _ _ (unit_visit_bracketed _ _ hv) ih

theorem unit_visits_map (U : List UnitRef) (f : UnitRef → List Event)
    (h : ∀ u ∈ U, UnitVisit u (f u)) :
    List.Forall₂ UnitVisit U (U.map f) ∧ (U.map f).flatMap (fun v => v) = U.flatMap f := by
  induction U with
  | nil => exact ⟨List.Forall₂.nil, rfl⟩
  | cons u U ih =>
    obtain ⟨h1, h2⟩ := ih (fun v hv => h v (List.mem_cons_of_mem _ hv))
    refine ⟨List.Forall₂.cons (h u (List.mem_cons_self _ _)) h1, ?_⟩
    rw [List.map_cons, List.flatMap_cons, List.flatMap_cons, h2]

theorem ct_assert_block_visit (s : SemaState) (u : UnitRef) :
    UnitVisit u (ct_assert_block s u) := by
  refine ⟨_, rfl, ?_⟩
  intro e he
  obtain ⟨a, -, ha⟩ := List.mem_map.1 he
  rw [← ha]; rfl

theorem decls_block_visit (s : SemaState) (u : UnitRef) : UnitVisit u (decls_block s u) := by
  refine ⟨_, rfl, ?_⟩
  intro e he
  obtain ⟨d, -, hd⟩ := List.mem_map.1 he
  rw [← hd]; rfl

theorem functions_units_visits (ext : Analysers) (s0 : SemaState) :
    ∀ (U : List UnitRef) (s : SemaState) (calls : List Event), BodiesDone s0 s calls →
      ∃ visits, BodiesDone s0 (U.foldl (fun s unit => functions_unit ext unit s) s)
          (calls ++ visits.flatMap (fun v => v)) ∧
        List.Forall₂ UnitVisit U visits := by
  intro U
  induction U with
  | nil =>
    intro s calls h
    exact ⟨[], by simpa using h, List.Forall₂.nil⟩
  | cons u U ih =>
    intro s calls h
    obtain ⟨body, h1, -, e1⟩ := functions_unit_spec ext u s0 s calls h
    obtain ⟨visits, h2, f2⟩ := ih _ _ h1
    refine ⟨(Event.context_init u :: (body ++ [Event.context_destroy u])) :: visits, ?_,
      List.Forall₂.cons ⟨body, rfl, e1⟩ f2⟩
    rw [List.foldl_cons, List.flatMap_cons, ← List.append_assoc]
    exact h2

theorem chain_steps_bracketed (decls : DeclRef → Decl) (R : UnitRef →
      List DeclRef × List (List Event × List DeclRef) → Prop)
    (hR : ∀ u st, R u st → List.Forall₂ (ChainVisit decls u) st.1 st.2)
    (U : List UnitRef) (steps : List (List DeclRef × List (List Event × List DeclRef)))
    (h : List.Forall₂ R U steps) :
    Bracketed (steps.flatMap (fun st => visit_calls st.2)) := by
  induction h with
  | nil => exact Bracketed.nil
  | cons hv _ ih =>
    rw [List.flatMap_cons]
    exact bracketed_append _ _ (visits_bracketed decls _ _ _ (hR _ _ hv)) ih

theorem conditional_units_steps (ext : Analysers) (decls : DeclRef → Decl)
    (w : DeclRef → Nat) (N : Nat) (hwf : FinitelyNested decls w N) :
    ∀ (U : List UnitRef) (s : SemaState), s.decls = decls →
      (∀ u ∈ U, ∀ c ∈ (s.units u).ct_ifs, (decls c).decl_kind = DECL_CT_IF) →
      ∃ s' fuel0, ∃ steps : List (List DeclRef × List (List Event × List DeclRef)),
        (∀ fuel, fuel0 ≤ fuel →
          U.foldlM (fun s unit => ct_ifs_loop ext unit fuel 0 s) s = Except.ok s') ∧
        s'.trace = s.trace ++ steps.flatMap (fun st => visit_calls st.2) ∧
        (∀ v, (s.units v).ct_ifs <+: (s'.units v).ct_ifs) ∧
        List.Forall₂ (fun u st =>
          (s.units u).ct_ifs <+: st.1 ∧ st.1 <+: (s'.units u).ct_ifs ∧
          List.Forall₂ (ChainVisit decls u) st.1 st.2) U steps := by
  intro U
  induction U with
  | nil =>
    intro s _ _
    exact ⟨s, 0, [], fun _ _ => rfl, by simp, fun _ => List.prefix_refl _, List.Forall₂.nil⟩
  | cons u U ih =>
    intro s hs hkind
    obtain ⟨s1, visits1, hrun1, hd1, hm1, hu1, hk1, htr1, hct1, hfa1⟩ :=
      ct_ifs_loop_visits ext u decls w N hwf _ 0 s hs (hkind u (List.mem_cons_self u U))
        (Nat.le_refl _)
    rw [List.drop_zero] at hfa1
    have hkind1 : ∀ v ∈ U, ∀ c ∈ (s1.units v).ct_ifs, (decls c).decl_kind = DECL_CT_IF := by
      intro v hv c hc
      by_cases hvu : v = u
      · rw [hvu] at hc; exact hk1 c hc
      · rw [hu1 v hvu] at hc; exact hkind v (List.mem_cons_of_mem u hv) c hc
    have hmono1 : ∀ v, (s.units v).ct_ifs <+: (s1.units v).ct_ifs := by
      intro v
      by_cases hvu : v = u
      · rw [hvu, hct1]; exact List.prefix_append _ _
      · rw [hu1 v hvu]
    obtain ⟨s2, fuel2, steps2, hrun2, htr2, hmono2, hfa2⟩ := ih s1 hd1 hkind1
    refine ⟨s2, max ((((s.units u).ct_ifs.drop 0).map w).sum + N) fuel2,
      ((s1.units u).ct_ifs, visits1) :: steps2, ?_, ?_,
      fun v => (hmono1 v).trans (hmono2 v), ?_⟩
    · intro fuel hfuel
      rw [List.foldlM_cons, hrun1 fuel (le_trans (le_max_left _ _) hfuel)]
      exact hrun2 fuel (le_trans (le_max_right _ _) hfuel)
    · rw [htr2, htr1, List.flatMap_cons, List.append_assoc]
    · refine List.Forall₂.cons ⟨hmono1 u, hmono2 u, hfa1⟩ ?_
      exact List.Forall₂.imp (fun v st h => ⟨(hmono1 v).trans h.1, h.2.1, h.2.2⟩) hfa2

/-- C16. In each of the four passes that use a context the calls made are a
sequence of visits in which construction and teardown alternate strictly, each
visit being the construction of the context of a unit, then calls made with a
context of that unit only, then the teardown of that context.  In the assertion,
declaration and function passes there is exactly one visit for every entry of
the list of units, in the order of the list.  In the conditional pass, for every
evaluator, there is one step for every entry of the list of units, and a step
over a unit has one visit of its own for every conditional of a list that
begins with the conditionals the unit had at the start of the pass and is a
beginning of those it has at the end: each visit constructs the context,
evaluates conditions of that one chain, files at most one branch and tears the
context down, errors included.  In the declaration pass every declaration is
analysed in a scope of depth `0` and scope_id `0`, whatever scope the context
was constructed with. -/
theorem contexts_are_bracketed (ext : Analysers) (module : ModuleRef) (s : SemaState)
    (w : DeclRef → Nat) (N : Nat) (hwf : FinitelyNested s.decls w N)
    (hkind : ∀ u ∈ (s.modules module).units, ∀ c ∈ (s.units u).ct_ifs,
      (s.decls c).decl_kind = DECL_CT_IF) :
    (∃ s' fuel0, ∃ steps : List (List DeclRef × List (List Event × List DeclRef)),
      (∀ fuel, fuel0 ≤ fuel →
        sema_analysis_pass_conditional_compilation ext fuel module s = Except.ok s') ∧
      s'.trace = s.trace ++ steps.flatMap (fun st => visit_calls st.2) ∧
      Bracketed (steps.flatMap (fun st => visit_calls st.2)) ∧
      List.Forall₂ (fun u st =>
        (s.units u).ct_ifs <+: st.1 ∧ st.1 <+: (s'.units u).ct_ifs ∧
        List.Forall₂ (ChainVisit s.decls u) st.1 st.2) (s.modules module).units steps) ∧
    (∃ visits : List (List Event),
      (sema_analysis_pass_ct_assert ext module s).trace
        = s.trace ++ visits.flatMap (fun v => v) ∧
      Bracketed (visits.flatMap (fun v => v)) ∧
      List.Forall₂ UnitVisit (s.modules module).units visits) ∧
    (∃ visits : List (List Event),
      (sema_analysis_pass_decls ext module s).trace
        = s.trace ++ visits.flatMap (fun v => v) ∧
      Bracketed (visits.flatMap (fun v => v)) ∧
      List.Forall₂ UnitVisit (s.modules module).units visits ∧
      ∀ c d, Event.analyse_decl c d ∈ visits.flatMap (fun v => v) →
        c.active_scope.depth = 0 ∧ c.active_scope.scope_id = 0) ∧
    (∃ visits : List (List Event),
      (sema_analysis_pass_functions ext module s).trace
        = s.trace ++ visits.flatMap (fun v => v) ∧
      Bracketed (visits.flatMap (fun v => v)) ∧
      List.Forall₂ UnitVisit (s.modules module).units visits) := by
  refine ⟨?_, ?_, ?_, ?_⟩
  · obtain ⟨s', fuel0, steps, hrun, htr, -, hfa⟩ :=
      conditional_units_steps ext s.decls w N hwf (s.modules module).units s rfl hkind
    exact ⟨s', fuel0, steps, hrun, htr,
      chain_steps_bracketed s.decls _ (fun _ _ h => h.2.2) _ _ hfa, hfa⟩
  · obtain ⟨hfa, hflat⟩ := unit_visits_map (s.modules module).units (ct_assert_block s)
      (fun u _ => ct_assert_block_visit s u)
    refine ⟨_, ?_, unit_visits_bracketed _ _ hfa, hfa⟩
    rw [hflat]
    exact (ct_assert_units_spec ext (s.modules module).units s).1
  · obtain ⟨hfa, hflat⟩ := unit_visits_map (s.modules module).units (decls_block s)
      (fun u _ => decls_block_visit s u)
    refine ⟨_, ?_, unit_visits_bracketed _ _ hfa, hfa, ?_⟩
    · rw [hflat]
      exact (decls_units_spec ext (s.modules module).units s).1
    · rw [hflat]
      intro c d hmem
      obtain ⟨u, -, hu⟩ := List.mem_flatMap.1 hmem
      unfold decls_block at hu
      rcases List.mem_cons.1 hu with h | h
      · cases h
      · rcases List.mem_append.1 h with h1 | h1
        · obtain ⟨d', -, hd'⟩ := List.mem_map.1 h1
          injection hd' with hc _
          rw [← hc]
          exact ⟨rfl, rfl⟩
        · have := List.mem_singleton.1 h1
          cases this
  · obtain ⟨visits, h, hfa⟩ :=
      functions_units_visits ext s (s.modules module).units s [] (bodies_done_refl s)
    rw [List.nil_append] at h
    exact ⟨visits, h.trace, unit_visits_bracketed _ _ hfa, hfa⟩

/-- C16 on `demo_conditionals`, where unit `0` starts with the one conditional
`30` and ends with the two conditionals `30` and `43`. -/
theorem contexts_are_bracketed_witness :
    ∃ s' fuel0, ∃ steps : List (List DeclRef × List (List Event × List DeclRef)),
      (∀ fuel, fuel0 ≤ fuel →
        sema_analysis_pass_conditional_compilation demo_analysers fuel 0 demo_conditionals
          = Except.ok s') ∧
      s'.trace = demo_conditionals.trace ++ steps.flatMap (fun st => visit_calls st.2) ∧
      Bracketed (steps.flatMap (fun st => visit_calls st.2)) ∧
      List.Forall₂ (fun u st =>
        (demo_conditionals.units u).ct_ifs <+: st.1 ∧ st.1 <+: (s'.units u).ct_ifs ∧
        List.Forall₂ (ChainVisit demo_conditionals.decls u) st.1 st.2) [0, 1] steps :=
  (contexts_are_bracketed demo_analysers 0 demo_conditionals (fun c => if c = 30 then 2 else 1) 2
    demo_finitely_nested (by decide)).1

/-- C17. On a module whose units are distinct and whose conditionals are well
formed and finitely nested, the conditional pass, given enough iterations, ends
in a state in which the `ct_ifs` vector of every unit is the vector it started
with followed by the conditionals among the declarations filed during the visits
of the unit, and the calls of the pass are, unit by unit, one visit for every
entry of that final vector, in index order: a conditional that a winning branch
adds to the vector is evaluated later in the same run, once. -/
theorem conditional_pass_evaluates_added_chains (ext : Analysers) (module : ModuleRef)
    (s : SemaState) (w : DeclRef → Nat) (N : Nat) (hwf : FinitelyNested s.decls w N)
    (hkind : ∀ u ∈ (s.modules module).units, ∀ c ∈ (s.units u).ct_ifs,
      (s.decls c).decl_kind = DECL_CT_IF)
    (hnodup : (s.modules module).units.Nodup) :
    ∃ s' fuel0, ∃ per : UnitRef → List (List Event × List DeclRef),
      (∀ fuel, fuel0 ≤ fuel →
        sema_analysis_pass_conditional_compilation ext fuel module s = Except.ok s') ∧
      s'.trace = s.trace ++ (s.modules module).units.flatMap (fun u => visit_calls (per u)) ∧
      ∀ u ∈ (s.modules module).units,
        (s'.units u).ct_ifs = (s.units u).ct_ifs ++ filed_conditionals s.decls (per u) ∧
        List.Forall₂ (ChainVisit s.decls u) (s'.units u).ct_ifs (per u) := by
  obtain ⟨s', fuel0, new, hrun, -, -, htr, -, -, hper⟩ :=
    conditional_units_visits ext s.decls w N hwf (s.modules module).units s rfl hkind
  obtain ⟨per, hnew, hall⟩ := hper hnodup
  exact ⟨s', fuel0, per, hrun, by rw [htr, hnew], hall⟩

/-- C17 on `demo_conditionals`, where the `else` branch of the chain of unit `0`
files the conditional `43`. -/
theorem conditional_pass_evaluates_added_chains_witness :
    ∃ s' fuel0, ∃ per : UnitRef → List (List Event × List DeclRef),
      (∀ fuel, fuel0 ≤ fuel →
        sema_analysis_pass_conditional_compilation demo_analysers fuel 0 demo_conditionals
          = Except.ok s') ∧
      (s'.units 0).ct_ifs = [30] ++ filed_conditionals demo_conditionals.decls (per 0) ∧
      List.Forall₂ (ChainVisit demo_conditionals.decls 0) (s'.units 0).ct_ifs (per 0) := by
  obtain ⟨s', fuel0, per, hrun, -, hall⟩ :=
    conditional_pass_evaluates_added_chains demo_analysers 0 demo_conditionals
      (fun c => if c = 30 then 2 else 1) 2 demo_finitely_nested (by decide) (by decide)
  exact ⟨s', fuel0, per, hrun, hall 0 (by decide)⟩

/-- C18. `sema_analyse_top_level_if` returns on every chain whose links end
after finitely many steps, once the bound on the links followed exceeds their
number; and on a module whose conditionals are well formed and finitely nested
the conditional pass returns, with one and the same result for every bound on
the iterations from some bound on. -/
theorem conditional_pass_terminates (ext : Analysers) (context : SemaContext)
    (c : DeclRef) (s : SemaState) (nodes : List DeclRef) (last : Option DeclRef)
    (hchain : ElifChain s.decls (s.decls c).ct_elif nodes last)
    (module : ModuleRef) (w : DeclRef → Nat) (N : Nat)
    (hwf : FinitelyNested s.decls w N)
    (hkind : ∀ u ∈ (s.modules module).units, ∀ c ∈ (s.units u).ct_ifs,
      (s.decls c).decl_kind = DECL_CT_IF) :
    (∃ r, ∀ fuel, nodes.length < fuel →
      sema_analyse_top_level_if ext fuel context c s = Except.ok r) ∧
    (∃ s' fuel0, ∀ fuel, fuel0 ≤ fuel →
      sema_analysis_pass_conditional_compilation ext fuel module s = Except.ok s') := by
  constructor
  · exact ⟨_, fun fuel hfuel => top_level_if_eq ext context c s nodes last fuel hchain hfuel⟩
  · obtain ⟨s', fuel0, hrun, -⟩ :=
      conditional_units_run ext s.decls w N hwf (s.modules module).units s rfl hkind
    exact ⟨s', fuel0, hrun⟩

/-- C18 on `demo_conditionals`, where the visit of the chain `30` appends the
conditional `43` to the vector the pass is iterating over. -/
theorem conditional_pass_terminates_witness :
    (∃ r, ∀ fuel, 1 < fuel →
      sema_analyse_top_level_if demo_analysers fuel demo_context 30 demo_conditionals
        = Except.ok r) ∧
    (∃ s' fuel0, ∀ fuel, fuel0 ≤ fuel →
      sema_analysis_pass_conditional_compilation demo_analysers fuel 0 demo_conditionals
        = Except.ok s') :=
  conditional_pass_terminates demo_analysers demo_context 30 demo_conditionals [31] (some 32)
    demo_chain_30 0 (fun c => if c = 30 then 2 else 1) 2 demo_finitely_nested (by decide)

/-! ## Error precedence and the assertion of the import pass -/

theorem errors_at_append (p : DeclRef) (A B : List Diagnostic) :
    errors_at p (A ++ B) = errors_at p A + errors_at p B := by
  unfold errors_at; rw [List.countP_append]

theorem errors_at_eq_zero (p : DeclRef) (ds : List Diagnostic)
    (h : ∀ msg, Diagnostic.error p msg ∉ ds) : errors_at p ds = 0 := by
  unfold errors_at
  rw [List.countP_eq_zero]
  intro d hd
  cases d with
  | error a msg =>
    by_cases ha : a = p
    · subst ha; exact absurd hd (h msg)
    · simp [ha]
  | previous q => simp

theorem errors_at_import_messages (s : SemaState) (module : ModuleRef)
    (earlier : List DeclRef) (p : DeclRef) :
    errors_at p (import_messages s module earlier p) = import_errors s module earlier p := by
  unfold import_messages import_errors errors_at
  cases hl : import_lookup s module (s.decls p) with
  | error e => simp
  | ok m =>
    simp only []
    cases hd : import_duplicate s module earlier m with
    | none => simp
    | some q => simp

theorem import_errors_le_one (s : SemaState) (module : ModuleRef)
    (earlier : List DeclRef) (p : DeclRef) : import_errors s module earlier p ≤ 1 := by
  unfold import_errors
  cases hl : import_lookup s module (s.decls p) with
  | error e => simp
  | ok m =>
    simp only []
    cases hd : import_duplicate s module earlier m with
    | none => simp
    | some q => simp

theorem errors_at_own_block (s : SemaState) (module : ModuleRef)
    (h : (all_imports s module).Nodup) (u : UnitRef) (hu : u ∈ (s.modules module).units)
    (j : Nat) (hj : j < (s.units u).imports.length) :
    errors_at ((s.units u).imports.getD j 0)
        ((s.modules module).units.flatMap (fun u => unit_messages s module
          (s.units u).imports (s.units u).imports.length))
      = import_errors s module ((s.units u).imports.take j) ((s.units u).imports.getD j 0) := by
  obtain ⟨U1, U2, hU, hndL, hdisj⟩ := units_split s _ u hu h
  obtain ⟨B, hB, hBanchor⟩ := unit_messages_split s module (s.units u).imports j _ hj
  rw [hU, List.flatMap_append, List.flatMap_cons, errors_at_append, errors_at_append, hB,
    errors_at_append, errors_at_append, errors_at_import_messages]
  have h1 := errors_at_eq_zero ((s.units u).imports.getD j 0) _
    (fun msg hmem => (hdisj _ (getD_mem hj)).1 (units_messages_anchor s module U1 _ msg hmem))
  have h2 := errors_at_eq_zero ((s.units u).imports.getD j 0) _
    (fun msg hmem => (hdisj _ (getD_mem hj)).2 (units_messages_anchor s module U2 _ msg hmem))
  have h3 := errors_at_eq_zero ((s.units u).imports.getD j 0)
    (unit_messages s module (s.units u).imports j) (fun msg hmem => by
      obtain ⟨k, hk, hak⟩ := unit_messages_anchor s module _ _ _ msg hmem
      exact getD_ne_of_ne hndL hj (by omega) (by omega) hak)
  have h4 := errors_at_eq_zero ((s.units u).imports.getD j 0) B (fun msg hmem => by
      obtain ⟨k, hk, hkn, hak⟩ := hBanchor _ msg hmem
      exact getD_ne_of_ne hndL hj hkn (by omega) hak)
  rw [h1, h2, h3, h4]
  omega

/-- A note in the messages of the pass points at an earlier import of some unit
that ends up holding a module. -/
theorem previous_mem_messages (s : SemaState) (module : ModuleRef) (q : DeclRef)
    (h : Diagnostic.previous q ∈ (s.modules module).units.flatMap (fun u =>
      unit_messages s module (s.units u).imports (s.units u).imports.length)) :
    ∃ m, some m = import_target s module (s.decls q) := by
  obtain ⟨u, -, hmem⟩ := List.mem_flatMap.1 h
  unfold unit_messages at hmem
  obtain ⟨j, -, hmemj⟩ := List.mem_flatMap.1 hmem
  unfold import_messages at hmemj
  cases hl : import_lookup s module (s.decls ((s.units u).imports.getD j 0)) with
  | error e => rw [hl] at hmemj; simp at hmemj
  | ok m =>
    rw [hl] at hmemj
    simp only [] at hmemj
    cases hd : import_duplicate s module ((s.units u).imports.take j) m with
    | none => rw [hd] at hmemj; simp at hmemj
    | some q' =>
      rw [hd] at hmemj
      simp at hmemj
      subst hmemj
      unfold import_duplicate at hd
      have := List.find?_some hd
      exact ⟨m, by simpa using this⟩

/-- An import that one of the three checks rejects. -/
theorem import_lookup_rejected (s : SemaState) (module : ModuleRef) (d : Decl)
    (h : s.find_module d.import_path = none ∨ s.find_module d.import_path = some module ∨
      ∃ P, s.find_module d.import_path = some P ∧ (s.modules P).is_private = true ∧
        d.import_private = false) :
    ∃ e, import_lookup s module d = Except.error e ∧ e ≠ Message.imported_more_than_once := by
  rcases h with h | h | ⟨P, h, hp, hq⟩
  · exact ⟨_, import_lookup_not_found s module d h, by decide⟩
  · exact ⟨_, import_lookup_self s module d h, by decide⟩
  · by_cases hP : P = module
    · subst hP; exact ⟨_, import_lookup_self s P d h, by decide⟩
    · exact ⟨_, import_lookup_private s module d P h hP hp hq, by decide⟩

/-- An import that starts unbound and that one of the three checks rejects never
ends up holding a module. -/
theorem import_target_rejected (s : SemaState) (module : ModuleRef) (d : Decl)
    (hmod : d.module = none) (e : Message) (h : import_lookup s module d = Except.error e)
    (m : ModuleRef) : some m ≠ import_target s module d := by
  unfold import_target
  rw [h]
  simp [hmod]

/-- C19. On a pending module whose imports start unbound, the import pass
reports at most one error per import.  An import whose path names no module gets
the not-found error; one whose path names the owning module gets the self-import
error; one whose path names a private module other than the owning one, without
the qualifier, gets the private-module error; and an import rejected by one of
these three checks gets no duplicate error and no note ever points at it.
An import that passes the three checks gets no error other than the duplicate
error, and gets that one only when an earlier import of the unit passed the
three checks for the same module.  A qualified import of a module `P`, all of
whose earlier imports in the unit were rejected for lack of the qualifier, is
bound to `P`, keeps its poisoned flag and has no error. -/
theorem import_errors_follow_precedence (s : SemaState) (module : ModuleRef)
    (h : ImportsPending s module)
    (hfresh : ∀ p ∈ all_imports s module, (s.decls p).module = none) :
    ∃ s' new, sema_analysis_pass_process_imports module s = Except.ok s' ∧
      s'.diagnostics = s.diagnostics ++ new ∧
      ∀ u ∈ (s.modules module).units, ∀ j, j < (s.units u).imports.length →
        ∀ p, p = (s.units u).imports.getD j 0 →
        errors_at p new ≤ 1 ∧
        (s.find_module (s.decls p).import_path = none →
          Diagnostic.error p Message.no_module_found ∈ new) ∧
        (s.find_module (s.decls p).import_path = some module →
          Diagnostic.error p Message.importing_current_module ∈ new) ∧
        (∀ P, s.find_module (s.decls p).import_path = some P → P ≠ module →
          (s.modules P).is_private = true → (s.decls p).import_private = false →
          Diagnostic.error p Message.importing_private_module ∈ new) ∧
        ((s.find_module (s.decls p).import_path = none ∨
            s.find_module (s.decls p).import_path = some module ∨
            ∃ P, s.find_module (s.decls p).import_path = some P ∧
              (s.modules P).is_private = true ∧ (s.decls p).import_private = false) →
          Diagnostic.error p Message.imported_more_than_once ∉ new ∧
          Diagnostic.previous p ∉ new) ∧
        (∀ P, s.find_module (s.decls p).import_path = some P → P ≠ module →
          ((s.modules P).is_private = false ∨ (s.decls p).import_private = true) →
          ∀ msg, Diagnostic.error p msg ∈ new →
            msg = Message.imported_more_than_once ∧
            ∃ i, i < j ∧
              s.find_module (s.decls ((s.units u).imports.getD i 0)).import_path = some P ∧
              ((s.modules P).is_private = false ∨
                (s.decls ((s.units u).imports.getD i 0)).import_private = true)) ∧
        (∀ P, s.find_module (s.decls p).import_path = some P → P ≠ module →
          (s.decls p).import_private = true →
          (∀ i, i < j →
            s.find_module (s.decls ((s.units u).imports.getD i 0)).import_path = some P →
            (s.modules P).is_private = true ∧
              (s.decls ((s.units u).imports.getD i 0)).import_private = false) →
          (s'.decls p).module = some P ∧ (s'.decls p).poisoned = (s.decls p).poisoned ∧
            errors_at p new = 0) := by
  obtain ⟨s', hrun, -, -, -, -, -, hin, -, hdiag⟩ := process_imports_closed_form s module h
  refine ⟨s', _, hrun, hdiag, ?_⟩
  intro u hu j hj p hp
  subst hp
  have hcount := errors_at_own_block s module h.1 u hu j hj
  have hmem := fun msg => error_mem_messages_iff s module h.1 u hu j hj msg
  have hpall : (s.units u).imports.getD j 0 ∈ all_imports s module :=
    List.mem_flatMap.2 ⟨u, hu, getD_mem hj⟩
  have hearlier : ∀ q ∈ (s.units u).imports.take j, q ∈ all_imports s module :=
    fun q hq => List.mem_flatMap.2 ⟨u, hu, List.mem_of_mem_take hq⟩
  refine ⟨?_, ?_, ?_, ?_, ?_, ?_, ?_⟩
  · rw [hcount]; exact import_errors_le_one s module _ _
  · intro hf
    rw [hmem, import_messages_of_error s module _ _ _ (import_lookup_not_found s module _ hf)]
    exact List.mem_singleton.2 rfl
  · intro hf
    rw [hmem, import_messages_of_error s module _ _ _ (import_lookup_self s module _ hf)]
    exact List.mem_singleton.2 rfl
  · intro P hf hP hpriv hq
    rw [hmem, import_messages_of_error s module _ _ _
      (import_lookup_private s module _ P hf hP hpriv hq)]
    exact List.mem_singleton.2 rfl
  · intro hrej
    obtain ⟨e, he, hne⟩ := import_lookup_rejected s module _ hrej
    constructor
    · rw [hmem, import_messages_of_error s module _ _ _ he]
      intro hm
      have := List.mem_singleton.1 hm
      injection this with _ h2
      exact hne h2.symm
    · intro hm
      obtain ⟨m, hm'⟩ := previous_mem_messages s module _ hm
      exact import_target_rejected s module _ (hfresh _ hpall) e he m hm'
  · intro P hf hP hgate msg hm
    have hok := import_lookup_ok s module _ P hf hP hgate
    rw [hmem] at hm
    unfold import_messages at hm
    rw [hok] at hm
    simp only [] at hm
    cases hd : import_duplicate s module ((s.units u).imports.take j) P with
    | none => rw [hd] at hm; simp at hm
    | some q =>
      rw [hd] at hm
      simp at hm
      refine ⟨hm, ?_⟩
      unfold import_duplicate at hd
      have hq := List.find?_some hd
      have hqmem := List.mem_of_find?_eq_some hd
      obtain ⟨i, hij, hil, hiq⟩ := mem_take_getD hqmem
      refine ⟨i, hij, ?_⟩
      rw [hiq]
      have hq' : some P = import_target s module (s.decls q) := by simpa using hq
      cases hl : import_lookup s module (s.decls q) with
      | error e =>
        exact absurd hq' (import_target_rejected s module _ (hfresh _ (hearlier q hqmem)) e hl P)
      | ok m =>
        have hmP : m = P := by
          unfold import_target at hq'
          rw [hl] at hq'
          injection hq' with h1
          exact h1.symm
        subst hmP
        have := import_lookup_ok_inv s module _ m hl
        exact ⟨this.1, this.2.2⟩
  · intro P hf hP hq hprev
    have hok := import_lookup_ok s module _ P hf hP (Or.inr hq)
    have hd : import_duplicate s module ((s.units u).imports.take j) P = none := by
      unfold import_duplicate
      rw [List.find?_eq_none]
      intro q hqmem hq'
      have hq'' : some P = import_target s module (s.decls q) := by simpa using hq'
      obtain ⟨i, hij, hil, hiq⟩ := mem_take_getD hqmem
      cases hl : import_lookup s module (s.decls q) with
      | error e =>
        exact import_target_rejected s module _ (hfresh _ (hearlier q hqmem)) e hl P hq''
      | ok m =>
        have hmP : m = P := by
          unfold import_target at hq''
          rw [hl] at hq''
          injection hq'' with h1
          exact h1.symm
        subst hmP
        have hinv := import_lookup_ok_inv s module _ m hl
        have hp := hprev i hij (by rw [hiq]; exact hinv.1)
        rw [hiq] at hp
        rcases hinv.2.2 with h1 | h1
        · rw [hp.1] at h1; cases h1
        · rw [hp.2] at h1; cases h1
    rw [hin u hu j hj, import_result_of_fresh s module _ _ P hok hd, hcount]
    refine ⟨rfl, rfl, ?_⟩
    unfold import_errors
    rw [hok]
    simp only []
    rw [hd]

/-- C19 on `demo_precedence`: the two imports of the unknown module `7` get the
not-found error each and no duplicate error, and the qualified import `13` of
the private module `2`, which follows the unqualified import `12`, is bound to
`2` and unpoisoned. -/
theorem import_errors_follow_precedence_witness :
    ∃ s' new, sema_analysis_pass_process_imports 0 demo_precedence = Except.ok s' ∧
      s'.diagnostics = demo_precedence.diagnostics ++ new ∧
      Diagnostic.error 10 Message.no_module_found ∈ new ∧
      Diagnostic.error 11 Message.no_module_found ∈ new ∧
      errors_at 11 new ≤ 1 ∧
      Diagnostic.error 11 Message.imported_more_than_once ∉ new ∧
      Diagnostic.previous 10 ∉ new ∧
      Diagnostic.previous 12 ∉ new ∧
      (s'.decls 13).module = some 2 ∧ (s'.decls 13).poisoned = false := by
  obtain ⟨s', new, hrun, hdiag, hall⟩ :=
    import_errors_follow_precedence demo_precedence 0 (by decide) (by decide)
  have h10 := hall 0 (by decide) 0 (by decide) 10 (by decide)
  have h11 := hall 0 (by decide) 1 (by decide) 11 (by decide)
  have h12 := hall 0 (by decide) 2 (by decide) 12 (by decide)
  have h13 := hall 0 (by decide) 3 (by decide) 13 (by decide)
  have h13' := h13.2.2.2.2.2.2 2 (by decide) (by decide) (by decide) (by decide)
  exact ⟨s', new, hrun, hdiag, h10.2.1 (by decide), h11.2.1 (by decide), h11.1,
    (h11.2.2.2.2.1 (Or.inl (by decide))).1, (h10.2.2.2.2.1 (Or.inl (by decide))).2,
    (h12.2.2.2.2.1 (Or.inr (Or.inr ⟨2, by decide, by decide, by decide⟩))).2,
    h13'.1, h13'.2.1⟩

/-- A run of the import loops over units one of whose imports comes first in
processing order and is not `RESOLVE_NOT_DONE` stops at the assertion. -/
theorem process_imports_rerun (module : ModuleRef) (U : List UnitRef) (t : SemaState)
    (hdone : ∀ u ∈ U, ∀ p ∈ (t.units u).imports,
      (t.decls p).resolve_status ≠ RESOLVE_NOT_DONE)
    (hne : imports_of_units t U ≠ []) :
    U.foldlM (fun s unit => process_unit_imports module unit s) t
      = Except.error Failure.assertion_failed := by
  induction U with
  | nil => exact absurd rfl hne
  | cons u U ih =>
    rw [List.foldlM_cons]
    cases hL : (t.units u).imports with
    | nil =>
      have h1 : process_unit_imports module u t = Except.ok t := by
        unfold process_unit_imports; rw [hL]; rfl
      rw [h1]
      show List.foldlM _ t U = _
      apply ih (fun v hv => hdone v (List.mem_cons_of_mem _ hv))
      intro h0
      apply hne
      unfold imports_of_units at h0 ⊢
      rw [List.flatMap_cons, hL, h0]; rfl
    | cons p L =>
      have h1 : process_unit_imports module u t = Except.error Failure.assertion_failed := by
        unfold process_unit_imports
        rw [hL, List.length_cons, List.range_succ_eq_map, List.foldlM_cons]
        have h2 : process_import module u 0 t = Except.error Failure.assertion_failed := by
          unfold process_import
          rw [hL]
          have := hdone u (List.mem_cons_self _ _) p (by rw [hL]; exact List.mem_cons_self _ _)
          simp [this]
        rw [h2]; rfl
      rw [h1]; rfl

/-- C20. On a pending module (every import `RESOLVE_NOT_DONE`, no import
declaration occurring twice in the import lists) the import pass returns, that
is, the assertion holds at every iteration; afterwards the import lists are the
same and no import is `RESOLVE_NOT_DONE`, so if the module has an import the
state is no longer pending, and running the pass again stops at the assertion. -/
theorem import_assertion_holds_once (s : SemaState) (module : ModuleRef)
    (h : ImportsPending s module) :
    ∃ s', sema_analysis_pass_process_imports module s = Except.ok s' ∧
      all_imports s' module = all_imports s module ∧
      (∀ p ∈ all_imports s' module, (s'.decls p).resolve_status ≠ RESOLVE_NOT_DONE) ∧
      (all_imports s module ≠ [] →
        ¬ ImportsPending s' module ∧
        sema_analysis_pass_process_imports module s' = Except.error Failure.assertion_failed) := by
  obtain ⟨s', hrun, hmods, -, hunits, -, -, hin, -, -⟩ :=
    process_imports_closed_form s module h
  have hall : all_imports s' module = all_imports s module := by
    unfold all_imports imports_of_units; rw [hmods, hunits]
  have hdone : ∀ p ∈ all_imports s' module, (s'.decls p).resolve_status ≠ RESOLVE_NOT_DONE := by
    rw [hall]
    intro p hp
    obtain ⟨u, hu, hpu⟩ := List.mem_flatMap.1 hp
    obtain ⟨j, hj, hpj⟩ := mem_exists_getD hpu
    subst hpj
    rw [hin u hu j hj, import_result_status]
    decide
  refine ⟨s', hrun, hall, hdone, ?_⟩
  intro hne
  constructor
  · intro hpend
    cases hL : all_imports s' module with
    | nil => exact hne (by rw [← hall, hL])
    | cons p L =>
      have hp : p ∈ all_imports s' module := by rw [hL]; exact List.mem_cons_self _ _
      exact hdone p hp (hpend.2 p hp)
  · unfold sema_analysis_pass_process_imports
    apply process_imports_rerun
    · intro u hu p hp
      exact hdone p (List.mem_flatMap.2 ⟨u, hu, hp⟩)
    · rw [← hall] at hne
      exact hne

/-- C20 on `demo_imports`: the first run returns, the second stops at the
assertion. -/
theorem import_assertion_holds_once_witness :
    ∃ s', sema_analysis_pass_process_imports 0 demo_imports = Except.ok s' ∧
      sema_analysis_pass_process_imports 0 s' = Except.error Failure.assertion_failed := by
  obtain ⟨s', hrun, -, -, hsecond⟩ := import_assertion_holds_once demo_imports 0 (by decide)
  exact ⟨s', hrun, (hsecond (by decide)).2⟩

/-! ## The calls of the registration pass -/

theorem calls_recorded_append (P : FilingCall → Prop) (A B : List FilingCall) :
    ∀ tr, CallsRecorded P tr (A ++ B)
      ↔ CallsRecorded P tr A ∧ CallsRecorded P (tr ++ A.map FilingCall.event) B := by
  induction A with
  | nil => intro tr; simp [CallsRecorded]
  | cons a A ih =>
    intro tr
    show (a.state.trace = tr ∧ P a ∧ CallsRecorded P (tr ++ [a.event]) (A ++ B)) ↔
      (a.state.trace = tr ∧ P a ∧ CallsRecorded P (tr ++ [a.event]) A) ∧
        CallsRecorded P (tr ++ (a.event :: A.map FilingCall.event)) B
    rw [ih, show tr ++ [a.event] ++ List.map FilingCall.event A
      = tr ++ a.event :: List.map FilingCall.event A by simp]
    constructor
    · rintro ⟨h1, h2, h3, h4⟩; exact ⟨⟨h1, h2, h3⟩, h4⟩
    · rintro ⟨⟨h1, h2, h3⟩, h4⟩; exact ⟨h1, h2, h3, h4⟩

theorem calls_recorded_split (P : FilingCall → Prop) (tr : List Event)
    (before : List FilingCall) (c : FilingCall) (after : List FilingCall)
    (h : CallsRecorded P tr (before ++ c :: after)) :
    c.state.trace = tr ++ before.map FilingCall.event ∧ P c := by
  have h2 := ((calls_recorded_append P before (c :: after) tr).1 h).2
  exact ⟨h2.1, h2.2.1⟩

theorem register_loop_spec (module : ModuleRef) (u : UnitRef) (P : FilingCall → Prop)
    (hP : ∀ d t, (t.units u).module = some module → P { unit := u, decl := d, state := t }) :
    ∀ (L : List DeclRef) (A : List FilingCall) (t : SemaState) (tr : List Event),
      CallsRecorded P tr A → t.trace = tr ++ A.map FilingCall.event →
      (t.units u).module = some module →
      CallsRecorded P tr (L.foldl
        (fun (r : List FilingCall × SemaState) decl =>
          (r.1 ++ [{ unit := u, decl := decl, state := r.2 }],
            unit_register_global_decl u decl r.2)) (A, t)).1 ∧
      (L.foldl
        (fun (r : List FilingCall × SemaState) decl =>
          (r.1 ++ [{ unit := u, decl := decl, state := r.2 }],
            unit_register_global_decl u decl r.2)) (A, t)).2
        = L.foldl (fun s decl => unit_register_global_decl u decl s) t ∧
      (L.foldl
        (fun (r : List FilingCall × SemaState) decl =>
          (r.1 ++ [{ unit := u, decl := decl, state := r.2 }],
            unit_register_global_decl u decl r.2)) (A, t)).1.map FilingCall.event
        = A.map FilingCall.event ++ L.map (fun d => Event.register_global_decl u d) := by
  intro L
  induction L with
  | nil => intro A t tr hA _ _; exact ⟨hA, rfl, by simp⟩
  | cons d L ih =>
    intro A t tr hA ht hb
    simp only [List.foldl_cons]
    have hA' : CallsRecorded P tr (A ++ [FilingCall.mk u d t]) := by
      rw [calls_recorded_append]
      exact ⟨hA, ht, hP d t hb, trivial⟩
    have ht' : (unit_register_global_decl u d t).trace
        = tr ++ (A ++ [FilingCall.mk u d t]).map FilingCall.event := by
      rw [register_trace, ht, List.map_append, List.append_assoc]
      rfl
    have hb' : ((unit_register_global_decl u d t).units u).module = some module := by
      rw [register_units_module]; exact hb
    obtain ⟨h1, h2, h3⟩ := ih _ _ tr hA' ht' hb'
    refine ⟨h1, h2, ?_⟩
    rw [h3, List.map_append, List.append_assoc]
    rfl

theorem register_unit_globals_eq (module : ModuleRef) (u : UnitRef) (s : SemaState) :
    (register_unit_globals module u s).2
      = (registering module u (s.units u).global_decls s).modify_unit u
          (fun cu => { cu with global_decls := [] }) := by
  have h := (register_loop_spec module u (fun _ => True) (fun _ _ _ => trivial)
    (s.units u).global_decls []
    (s.modify_unit u (fun cu => { cu with module := some module })) s.trace
    trivial (by simp) (by simp)).2.1
  unfold register_unit_globals registering sema_append_decls
  simp only [modify_unit_units, if_true]
  rw [h]

theorem register_unit_globals_calls (module : ModuleRef) (u : UnitRef) (s : SemaState)
    (P : FilingCall → Prop)
    (hP : ∀ d t, (t.units u).module = some module → P { unit := u, decl := d, state := t }) :
    CallsRecorded P s.trace (register_unit_globals module u s).1 ∧
    (register_unit_globals module u s).1.map FilingCall.event
      = (s.units u).global_decls.map (fun d => Event.register_global_decl u d) := by
  have h := register_loop_spec module u P hP (s.units u).global_decls []
    (s.modify_unit u (fun cu => { cu with module := some module })) s.trace
    trivial (by simp) (by simp)
  unfold register_unit_globals
  simp only [modify_unit_units, if_true]
  exact ⟨h.1, by rw [h.2.2]; rfl⟩

theorem registering_module (module : ModuleRef) (u : UnitRef) (filed : List DeclRef)
    (s : SemaState) : ((registering module u filed s).units u).module = some module := by
  unfold registering
  rw [append_decls_units_module]
  simp

theorem register_unit_globals_spec (module : ModuleRef) (u : UnitRef) (s : SemaState) :
    (register_unit_globals module u s).2.trace
        = s.trace ++ (s.units u).global_decls.map (fun d => Event.register_global_decl u d) ∧
    (((register_unit_globals module u s).2).units u).module = some module ∧
    (((register_unit_globals module u s).2).units u).global_decls = [] ∧
    (∀ v, v ≠ u → ((register_unit_globals module u s).2).units v = s.units v) ∧
    ((register_unit_globals module u s).2).modules = s.modules := by
  rw [register_unit_globals_eq]
  refine ⟨?_, ?_, ?_, ?_, ?_⟩
  · simp only [modify_unit_trace]
    unfold registering
    rw [append_decls_trace]
    rfl
  · simp only [modify_unit_units, if_true]
    exact registering_module module u _ s
  · simp
  · intro v hv
    simp only [modify_unit_units, hv, if_false]
    unfold registering
    rw [append_decls_units_other u v _ _ hv]
    simp [hv]
  · simp only [modify_unit_modules]
    unfold registering
    rw [append_decls_modules]
    rfl

theorem register_units_spec (module : ModuleRef) :
    ∀ (U : List UnitRef) (s : SemaState),
      ∃ calls, (U.foldl (fun s unit => (register_unit_globals module unit s).2) s).trace
          = s.trace ++ calls ∧
        (U.foldl (fun s unit => (register_unit_globals module unit s).2) s).modules
          = s.modules ∧
        (∀ v, v ∉ U →
          (U.foldl (fun s unit => (register_unit_globals module unit s).2) s).units v
            = s.units v ∧
          filed_in v calls = []) ∧
        (∀ u ∈ U,
          ((U.foldl (fun s unit => (register_unit_globals module unit s).2) s).units u).module
            = some module ∧
          ((U.foldl (fun s unit => (register_unit_globals module unit s).2) s).units
              u).global_decls
            = [] ∧
          filed_in u calls = (s.units u).global_decls) ∧
        ∀ e ∈ calls, ∃ u d, e = Event.register_global_decl u d := by
  intro U
  induction U with
  | nil =>
    intro s
    exact ⟨[], by simp, rfl, fun v _ => ⟨rfl, rfl⟩, fun u hu => (by cases hu),
      fun e he => (by cases he)⟩
  | cons u U ih =>
    intro s
    obtain ⟨t1, b1, g1, o1, m1⟩ := register_unit_globals_spec module u s
    obtain ⟨calls, t2, m2, o2, i2, e2⟩ := ih (register_unit_globals module u s).2
    rw [List.foldl_cons]
    have hself : filed_in u ((s.units u).global_decls.map
        (fun d => Event.register_global_decl u d)) = (s.units u).global_decls := by
      rw [filed_in_registers]; simp
    have hother : ∀ v, v ≠ u → filed_in v ((s.units u).global_decls.map
        (fun d => Event.register_global_decl u d)) = [] := by
      intro v hv
      rw [filed_in_registers, if_neg (fun h : u = v => hv h.symm)]
    refine ⟨(s.units u).global_decls.map (fun d => Event.register_global_decl u d) ++ calls,
      by rw [t2, t1, List.append_assoc], by rw [m2, m1], ?_, ?_, ?_⟩
    · intro v hv
      have hvu : v ≠ u := fun h => hv (h ▸ List.mem_cons_self _ _)
      have hvU : v ∉ U := fun h => hv (List.mem_cons_of_mem _ h)
      refine ⟨by rw [(o2 v hvU).1, o1 v hvu], ?_⟩
      rw [filed_in_append, hother v hvu, (o2 v hvU).2]
      rfl
    · intro v hv
      by_cases hvU : v ∈ U
      · obtain ⟨a, b, c⟩ := i2 v hvU
        refine ⟨a, b, ?_⟩
        rw [filed_in_append, c]
        by_cases hvu : v = u
        · rw [hvu, hself, g1]; simp
        · rw [hother v hvu, o1 v hvu]; rfl
      · have hvu : v = u := by
          rcases List.mem_cons.1 hv with h | h
          · exact h
          · exact absurd h hvU
        rw [hvu] at hvU ⊢
        obtain ⟨a, b⟩ := o2 u hvU
        refine ⟨by rw [a]; exact b1, by rw [a]; exact g1, ?_⟩
        rw [filed_in_append, hself, b]
        simp
    · intro e he
      rcases List.mem_append.1 he with h | h
      · obtain ⟨d, -, hd⟩ := List.mem_map.1 h
        exact ⟨u, d, hd.symm⟩
      · exact e2 e h

theorem register_units_calls (module : ModuleRef) (P : FilingCall → Prop) :
    ∀ (U : List UnitRef) (A : List FilingCall) (t : SemaState) (tr : List Event),
      (∀ u ∈ U, ∀ d t', (t'.units u).module = some module →
        P { unit := u, decl := d, state := t' }) →
      CallsRecorded P tr A → t.trace = tr ++ A.map FilingCall.event →
      CallsRecorded P tr (U.foldl
        (fun (r : List FilingCall × SemaState) unit =>
          (r.1 ++ (register_unit_globals module unit r.2).1,
            (register_unit_globals module unit r.2).2)) (A, t)).1 ∧
      (U.foldl
        (fun (r : List FilingCall × SemaState) unit =>
          (r.1 ++ (register_unit_globals module unit r.2).1,
            (register_unit_globals module unit r.2).2)) (A, t)).2
        = U.foldl (fun s unit => (register_unit_globals module unit s).2) t ∧
      (U.foldl
        (fun (r : List FilingCall × SemaState) unit =>
          (r.1 ++ (register_unit_globals module unit r.2).1,
            (register_unit_globals module unit r.2).2)) (A, t)).2.trace
        = tr ++ (U.foldl
        (fun (r : List FilingCall × SemaState) unit =>
          (r.1 ++ (register_unit_globals module unit r.2).1,
            (register_unit_globals module unit r.2).2)) (A, t)).1.map FilingCall.event := by
  intro U
  induction U with
  | nil => intro A t tr _ hA ht; exact ⟨hA, rfl, ht⟩
  | cons u U ih =>
    intro A t tr hP hA ht
    simp only [List.foldl_cons]
    obtain ⟨c1, c2⟩ := register_unit_globals_calls module u t P (hP u (List.mem_cons_self _ _))
    have hA' : CallsRecorded P tr (A ++ (register_unit_globals module u t).1) := by
      rw [calls_recorded_append, ← ht]
      exact ⟨hA, c1⟩
    have ht' : (register_unit_globals module u t).2.trace
        = tr ++ (A ++ (register_unit_globals module u t).1).map FilingCall.event := by
      rw [(register_unit_globals_spec module u t).1, ht, List.map_append, c2,
        List.append_assoc]
    exact ih _ _ tr (fun v hv => hP v (List.mem_cons_of_mem _ hv)) hA' ht'

/-- C13. After `sema_analysis_pass_register_globals` the owning module of
every unit of the module is that module and its `global_decls` vector is empty,
and the filing calls made for the unit are exactly the declarations its
`global_decls` held, once each and in index order; no other call is made.
Every call of the filing routine, taken with the calls before it and the calls
after it, is a call for a unit of the module made in the state reached by
exactly the calls before it, and in that state the owning module of its unit is
already the module: the back-reference is set before any declaration of the
unit is filed. -/
theorem register_globals_binds_then_files (module : ModuleRef) (s : SemaState) :
    ∃ calls, (sema_analysis_pass_register_globals module s).2.trace = s.trace ++ calls ∧
      (∀ u ∈ (s.modules module).units,
        ((sema_analysis_pass_register_globals module s).2.units u).module = some module ∧
        ((sema_analysis_pass_register_globals module s).2.units u).global_decls = [] ∧
        filed_in u calls = (s.units u).global_decls) ∧
      (∀ e ∈ calls, ∃ u d, e = Event.register_global_decl u d) ∧
      calls = (sema_analysis_pass_register_globals module s).1.map
        (fun c => Event.register_global_decl c.unit c.decl) ∧
      (∀ (before : List FilingCall) (c : FilingCall) (after : List FilingCall),
        (sema_analysis_pass_register_globals module s).1 = before ++ c :: after →
        c.unit ∈ (s.modules module).units ∧
        c.state.trace = s.trace ++ before.map
          (fun b => Event.register_global_decl b.unit b.decl) ∧
        (c.state.units c.unit).module = some module) := by
  obtain ⟨calls, ht, -, -, hin, hev⟩ := register_units_spec module (s.modules module).units s
  obtain ⟨r1, r2, r3⟩ := register_units_calls module
    (fun c => c.unit ∈ (s.modules module).units ∧ (c.state.units c.unit).module = some module)
    (s.modules module).units [] s s.trace (fun u hu d t' hb => ⟨hu, hb⟩) trivial (by simp)
  have hpass : (sema_analysis_pass_register_globals module s).2
      = (s.modules module).units.foldl
          (fun s unit => (register_unit_globals module unit s).2) s := r2
  have hcalls : calls = (sema_analysis_pass_register_globals module s).1.map
      FilingCall.event := by
    have h3 : (sema_analysis_pass_register_globals module s).2.trace
        = s.trace ++ (sema_analysis_pass_register_globals module s).1.map
            FilingCall.event := r3
    rw [hpass, ht] at h3
    exact List.append_cancel_left h3
  refine ⟨calls, by rw [hpass]; exact ht, by rw [hpass]; exact hin, hev, hcalls, ?_⟩
  intro before c after hsplit
  have hrec : CallsRecorded _ s.trace (sema_analysis_pass_register_globals module s).1 := r1
  rw [hsplit] at hrec
  obtain ⟨h1, h2, h3⟩ := calls_recorded_split _ _ _ _ _ hrec
  exact ⟨h2, h1, h3⟩

/-- C13 on `demo_registration`: three filing calls are made, each in a state
in which the owning module of its unit is already module `0`, and afterwards
both buffers are empty. -/
theorem register_globals_binds_then_files_witness :
    (sema_analysis_pass_register_globals 0 demo_registration).1.length = 3 ∧
    (∀ (before : List FilingCall) (c : FilingCall) (after : List FilingCall),
      (sema_analysis_pass_register_globals 0 demo_registration).1 = before ++ c :: after →
      (c.state.units c.unit).module = some 0) ∧
    ((sema_analysis_pass_register_globals 0 demo_registration).2.units 0).global_decls = [] ∧
    ((sema_analysis_pass_register_globals 0 demo_registration).2.units 1).global_decls = [] := by
  obtain ⟨calls, -, hunits, -, -, hrec⟩ := register_globals_binds_then_files 0 demo_registration
  exact ⟨by decide, fun before c after h => (hrec before c after h).2.2,
    (hunits 0 (by decide)).2.1, (hunits 1 (by decide)).2.1⟩

end Sema
